import Mathlib

/-!
# Column path of the parameter binding engine

A shallow embedding of `set_numpy_parameters.cpp` (namespace `turbodbc_numpy`):
the three converter strategies, `make_converters` and the slice loop of
`set_numpy_parameters`, together with the properties proved about them.

Conventions of the embedding.

* A NumPy array is the list of its items.  Every array handled here has items of
  8 bytes (`int64`, `float64`, `datetime64`), and the code only copies them or hands
  them to a conversion, so an item is an `Int` (for `float64`: its bit pattern).
* A typed buffer is a list of data elements next to a list of indicators, one of
  each per row of the batch.
* An access outside an array or a buffer is undefined behaviour in C++.  In the
  embedding every indexed access is checked and such an access yields `none`.
* The loop of `set_numpy_parameters` need not terminate (capacity 0), so it runs
  on fuel: one unit per iteration.
-/

namespace turbodbc_numpy

/-! ## Constants and types of the ODBC headers -/

/-- The indicator value of `sql.h` that marks a row as NULL. -/
def SQL_NULL_DATA : Int := -1

/-- The timestamp structure of `sql.h`. -/
structure SQL_TIMESTAMP_STRUCT where
  year : Int
  month : Nat
  day : Nat
  hour : Nat
  minute : Nat
  second : Nat
  fraction : Nat
deriving DecidableEq

/-- The date structure of `sql.h`. -/
structure SQL_DATE_STRUCT where
  year : Int
  month : Nat
  day : Nat
deriving DecidableEq

/-- The value of `sizeof(SQL_TIMESTAMP_STRUCT)`. -/
def sizeof_SQL_TIMESTAMP_STRUCT : Int := 16

/-- The value of `sizeof(SQL_DATE_STRUCT)`. -/
def sizeof_SQL_DATE_STRUCT : Int := 6

/-- The two instantiations of the template parameter `Value` of `binary_converter`. -/
inductive value_type
  | int64_t
  | double
deriving DecidableEq

/-- The value of `sizeof(Value)`. -/
def sizeof_Value : value_type → Int
  | .int64_t => 8
  | .double => 8

/-- Modelled from the spec: the conversions declared in `turbodbc/time_helpers.h`, whose
code is not among the sources.  The spec describes them as "numeric microsecond count →
native calendar/time struct" and "numeric day count → native calendar struct"; each is
taken as a function from the scalar to the structure it stores at the destination. -/
structure time_helpers where
  microseconds_to_timestamp : Int → SQL_TIMESTAMP_STRUCT
  days_to_date : Int → SQL_DATE_STRUCT

/-! ## Typed buffers and the bound parameter set -/

/-- The content of one data element of a typed buffer. -/
inductive element
  | unwritten
  | value (v : Int)
  | timestamp (t : SQL_TIMESTAMP_STRUCT)
  | date (d : SQL_DATE_STRUCT)
deriving DecidableEq

/-- The typed buffer of one parameter: data elements and indicators, one per row. -/
structure multi_value_buffer where
  data : List element
  indicator : List Int
deriving DecidableEq

/-- The members of `turbodbc::type_code` that the converters name. -/
inductive type_code
  | integer
  | floating_point
  | timestamp
  | date
deriving DecidableEq

/-- Modelled from the spec: the parameter description ("per-column metadata"), reduced to
its logical type code. -/
structure description where
  type : type_code
deriving DecidableEq

/-- Modelled from the spec: `turbodbc::make_description(type, size)` of
`turbodbc/make_description.h`, which is not among the sources. -/
def make_description (type : type_code) (_size : Nat) : description := ⟨type⟩

/-- A bound parameter: its description and its buffer (`parameter.get_buffer()`). -/
structure parameter where
  description : description
  buffer : multi_value_buffer
deriving DecidableEq

/-- The calls a run makes, in the order it makes them.  `execute_batch` records the
parameters as they are bound at the time of the call. -/
inductive call
  | rebind (parameter_index : Nat) (d : description)
  | set_batch (column : Nat) (start elements : Nat)
  | execute_batch (sets_in_batch : Nat) (bound : List parameter)
deriving DecidableEq

/-- Modelled from the spec: `turbodbc::bound_parameter_set`, declared in
`turbodbc/parameter_sets/bound_parameter_set.h`, which is not among the sources.  It owns
one typed buffer per statement parameter and the fixed capacity `buffered_sets`.  The field
`trace` is the record of the calls made so far; it is what an observer of the statement
sees and is never read by the code. -/
structure bound_parameter_set where
  buffered_sets : Nat
  parameters : List parameter
  trace : List call
deriving DecidableEq

/-- The parameter count, `parameters.number_of_parameters()`. -/
def bound_parameter_set.number_of_parameters (parameters : bound_parameter_set) : Nat :=
  parameters.parameters.length

/-- Modelled from the spec: a buffer as `rebind` allocates it, `capacity` rows, nothing
written. -/
def fresh_buffer (capacity : Nat) : multi_value_buffer :=
  { data := List.replicate capacity element.unwritten
    indicator := List.replicate capacity 0 }

/-- Modelled from the spec: `rebind(index, description)` "discards the buffer at `index`,
allocates a new Typed Buffer sized to `description` and the set's fixed capacity" and
"must not alter any other column's binding". -/
def bound_parameter_set.rebind (parameters : bound_parameter_set) (parameter_index : Nat)
    (d : description) : Option bound_parameter_set :=
  if parameter_index < parameters.parameters.length then
    some { parameters with
      parameters := parameters.parameters.set parameter_index
        { description := d, buffer := fresh_buffer parameters.buffered_sets }
      trace := parameters.trace ++ [call.rebind parameter_index d] }
  else
    none

/-- Modelled from the spec: `execute_batch(row_count)` "tells the underlying statement
exactly `row_count` of the bound rows are valid for this call, invokes execute". -/
def bound_parameter_set.execute_batch (parameters : bound_parameter_set)
    (sets_in_batch : Nat) : bound_parameter_set :=
  { parameters with
    trace := parameters.trace ++ [call.execute_batch sets_in_batch parameters.parameters] }

/-! ## Checked accesses and loops -/

/-- The read `xs[i]`; `none` outside the array. -/
def read {α : Type} (xs : List α) (i : Nat) : Option α := xs[i]?

/-- The write `xs[i] = v`; `none` outside the array. -/
def write {α : Type} (xs : List α) (i : Nat) (v : α) : Option (List α) :=
  if i < xs.length then some (xs.set i v) else none

/-- The loop `for (std::size_t i = 0; i != n; ++i) body`. -/
def for_loop {m : Type → Type} [Monad m] {σ : Type} (body : Nat → σ → m σ) :
    Nat → σ → m σ
  | 0, s => pure s
  | n + 1, s => for_loop body n s >>= body n

/-- The call `std::memcpy(dst, src + start, elements * sizeof(Value))`, element by
element. -/
def memcpy (dst : List element) (src : List Int) (start elements : Nat) :
    Option (List element) :=
  for_loop (fun i d => (read src (start + i)).bind fun v => write d i (element.value v))
    elements dst

/-- The call `std::fill_n(first, n, value)`. -/
def fill_n (first : List Int) (n : Nat) (value : Int) : Option (List Int) :=
  for_loop (fun i d => write d i value) n first

/-- The assignment `buffer[i].indicator = v` (also `indicator[i] = v`). -/
def set_indicator (buffer : multi_value_buffer) (i : Nat) (v : Int) :
    Option multi_value_buffer :=
  (write buffer.indicator i v).map fun ind => { buffer with indicator := ind }

/-- A store of one data element at `buffer[i].data_pointer`. -/
def set_data (buffer : multi_value_buffer) (i : Nat) (e : element) :
    Option multi_value_buffer :=
  (write buffer.data i e).map fun d => { buffer with data := d }

/-! ## The converters -/

/-- The method `binary_converter<Value>::set_batch`. -/
def binary_converter.set_batch (Value : value_type) (data : List Int) (mask : List Bool)
    (p : parameter) (start elements : Nat) : Option parameter :=
  let buffer := p.buffer
  (memcpy buffer.data data start elements).bind fun copied =>
    let buffer := { buffer with data := copied }
    (if mask.length ≠ 1 then
      for_loop (fun i buffer =>
          (read mask (start + i)).bind fun m =>
            set_indicator buffer i (if m = true then SQL_NULL_DATA else sizeof_Value Value))
        elements buffer
    else
      (read mask 0).bind fun m =>
        let sql_mask := if m = true then SQL_NULL_DATA else sizeof_Value Value
        (fill_n buffer.indicator elements sql_mask).map fun ind =>
          { buffer with indicator := ind }).map
      fun buffer => { p with buffer := buffer }

/-- The method `timestamp_converter::set_batch`. -/
def timestamp_converter.set_batch (h : time_helpers) (data : List Int) (mask : List Bool)
    (p : parameter) (start elements : Nat) : Option parameter :=
  let buffer := p.buffer
  let uses_mask : Bool := decide (mask.length ≠ 1)
  (if uses_mask then
    for_loop (fun i buffer =>
        (read mask (start + i)).bind fun m =>
          if m = true then
            set_indicator buffer i SQL_NULL_DATA
          else
            (read data (start + i)).bind fun v =>
              (set_data buffer i (element.timestamp (h.microseconds_to_timestamp v))).bind
                fun buffer => set_indicator buffer i sizeof_SQL_TIMESTAMP_STRUCT)
      elements buffer
  else
    (read mask 0).bind fun m =>
      if m = true then
        (fill_n buffer.indicator elements SQL_NULL_DATA).map fun ind =>
          { buffer with indicator := ind }
      else
        for_loop (fun i buffer =>
            (read data (start + i)).bind fun v =>
              (set_data buffer i (element.timestamp (h.microseconds_to_timestamp v))).bind
                fun buffer => set_indicator buffer i sizeof_SQL_TIMESTAMP_STRUCT)
          elements buffer).map
    fun buffer => { p with buffer := buffer }

/-- The method `date_converter::set_batch`. -/
def date_converter.set_batch (h : time_helpers) (data : List Int) (mask : List Bool)
    (p : parameter) (start elements : Nat) : Option parameter :=
  let buffer := p.buffer
  let uses_mask : Bool := decide (mask.length ≠ 1)
  (if uses_mask then
    for_loop (fun i buffer =>
        (read mask (start + i)).bind fun m =>
          if m = true then
            set_indicator buffer i SQL_NULL_DATA
          else
            (read data (start + i)).bind fun v =>
              (set_data buffer i (element.date (h.days_to_date v))).bind
                fun buffer => set_indicator buffer i sizeof_SQL_DATE_STRUCT)
      elements buffer
  else
    (read mask 0).bind fun m =>
      if m = true then
        (fill_n buffer.indicator elements SQL_NULL_DATA).map fun ind =>
          { buffer with indicator := ind }
      else
        for_loop (fun i buffer =>
            (read data (start + i)).bind fun v =>
              (set_data buffer i (element.date (h.days_to_date v))).bind
                fun buffer => set_indicator buffer i sizeof_SQL_DATE_STRUCT)
          elements buffer).map
    fun buffer => { p with buffer := buffer }

/-- The class `parameter_converter` with its three implementations; each holds the data
array and the mask of its column. -/
inductive parameter_converter
  | binary_converter (Value : value_type) (data : List Int) (mask : List Bool)
      (type : type_code)
  | timestamp_converter (data : List Int) (mask : List Bool)
  | date_converter (data : List Int) (mask : List Bool)
deriving DecidableEq

/-- The description a converter rebinds its parameter to: the second argument of
`parameters.rebind` in its method `initialize`. -/
def parameter_converter.description : parameter_converter → description
  | .binary_converter _ _ _ type => make_description type 0
  | .timestamp_converter _ _ => make_description type_code.timestamp 0
  | .date_converter _ _ => make_description type_code.date 0

/-- The virtual method `initialize(parameters, parameter_index)`. -/
def parameter_converter.initialize (c : parameter_converter)
    (parameters : bound_parameter_set) (parameter_index : Nat) :
    Option bound_parameter_set :=
  parameters.rebind parameter_index c.description

/-- The virtual method `set_batch(parameter, start, elements)`. -/
def parameter_converter.set_batch (h : time_helpers) :
    parameter_converter → parameter → Nat → Nat → Option parameter
  | .binary_converter Value data mask _, p, start, elements =>
    binary_converter.set_batch Value data mask p start elements
  | .timestamp_converter data mask, p, start, elements =>
    timestamp_converter.set_batch h data mask p start elements
  | .date_converter data mask, p, start, elements =>
    date_converter.set_batch h data mask p start elements

/-! ## The driver -/

/-- One passed column: `std::tuple<pybind11::array, pybind11::array_t<bool>, std::string>`. -/
structure column where
  data : List Int
  mask : List Bool
  dtype : String
deriving DecidableEq

/-- The ways a call can fail: a thrown `turbodbc::interface_error`, or an access outside
an array. -/
inductive fault
  | interface_error (what : String)
  | out_of_range
deriving DecidableEq

/-- The text that `make_converters` streams into its message. -/
def unsupported_message (position total : Nat) (dtype : String) : String :=
  "Unsupported NumPy dtype for column " ++ toString position ++ " of " ++ toString total
    ++ " (unsupported type: " ++ dtype ++ ")"

/-- One iteration of the loop of `make_converters`: the branch on the type tag of column
`i`, which appends the column's converter or throws. -/
def make_converters_iteration (columns : List column) (i : Nat)
    (converters : List parameter_converter) : Except fault (List parameter_converter) :=
  match columns[i]? with
  | none => Except.error fault.out_of_range
  | some c =>
    let data := c.data
    let mask := c.mask
    let dtype := c.dtype
    if dtype = "int64" then
      Except.ok (converters ++
        [parameter_converter.binary_converter value_type.int64_t data mask type_code.integer])
    else if dtype = "float64" then
      Except.ok (converters ++
        [parameter_converter.binary_converter value_type.double data mask
          type_code.floating_point])
    else if dtype = "datetime64[us]" then
      Except.ok (converters ++ [parameter_converter.timestamp_converter data mask])
    else if dtype = "datetime64[D]" then
      Except.ok (converters ++ [parameter_converter.date_converter data mask])
    else
      Except.error (fault.interface_error (unsupported_message (i + 1) columns.length dtype))

/-- The function `make_converters`: the loop over the columns, from an empty vector of
converters. -/
def make_converters (columns : List column) : Except fault (List parameter_converter) :=
  for_loop (make_converters_iteration columns) columns.length []

/-- How a call of `set_numpy_parameters` ends, with the bound parameter set as the call
leaves it. -/
inductive outcome
  | returned (parameters : bound_parameter_set)
  | interface_error (what : String) (parameters : bound_parameter_set)
  | undefined
  | out_of_fuel (parameters : bound_parameter_set)
deriving DecidableEq

/-- The message of the count check of `set_numpy_parameters`. -/
def count_mismatch_message : String :=
  "Number of passed columns is not equal to the number of parameters"

/-- The loop `for (i = 0; i != columns.size(); ++i) converters[i]->initialize(parameters, i)`. -/
def initialize_all (converters : List parameter_converter) (n : Nat)
    (parameters : bound_parameter_set) : Option bound_parameter_set :=
  for_loop (fun i parameters =>
      (read converters i).bind fun c => c.initialize parameters i)
    n parameters

/-- The inner loop of a slice:
`converters[i]->set_batch(*parameters.get_parameters()[i], start, in_this_batch)` for
every column `i`. -/
def set_batch_all (h : time_helpers) (converters : List parameter_converter) (n : Nat)
    (start in_this_batch : Nat) (parameters : bound_parameter_set) :
    Option bound_parameter_set :=
  for_loop (fun i parameters =>
      (read converters i).bind fun c =>
        (read parameters.parameters i).bind fun p =>
          (c.set_batch h p start in_this_batch).map fun p =>
            { parameters with
              parameters := parameters.parameters.set i p
              trace := parameters.trace ++ [call.set_batch i start in_this_batch] })
    n parameters

/-- The loop `for (start = 0; start < total_sets; start += parameters.buffered_sets())`
of `set_numpy_parameters`, entered at `start`; each iteration takes one unit of fuel. -/
def slice_loop (h : time_helpers) (converters : List parameter_converter) (n : Nat)
    (total_sets : Nat) : Nat → Nat → bound_parameter_set → outcome
  | 0, start, parameters =>
    if start < total_sets then outcome.out_of_fuel parameters
    else outcome.returned parameters
  | fuel + 1, start, parameters =>
    if start < total_sets then
      let in_this_batch := min parameters.buffered_sets (total_sets - start)
      match set_batch_all h converters n start in_this_batch parameters with
      | none => outcome.undefined
      | some parameters =>
        slice_loop h converters n total_sets fuel (start + parameters.buffered_sets)
          (parameters.execute_batch in_this_batch)
    else outcome.returned parameters

/-- The function `set_numpy_parameters`. -/
def set_numpy_parameters (h : time_helpers) (fuel : Nat) (parameters : bound_parameter_set)
    (columns : List column) : outcome :=
  if parameters.number_of_parameters ≠ columns.length then
    outcome.interface_error count_mismatch_message parameters
  else if columns.length = 0 then
    outcome.returned parameters
  else
    match make_converters columns with
    | Except.error (fault.interface_error what) => outcome.interface_error what parameters
    | Except.error fault.out_of_range => outcome.undefined
    | Except.ok converters =>
      match initialize_all converters columns.length parameters with
      | none => outcome.undefined
      | some parameters =>
        match columns.head? with
        | none => outcome.undefined
        | some front =>
          let total_sets := front.data.length
          slice_loop h converters columns.length total_sets fuel 0 parameters

/-! ## Observations on a trace -/

/-- The executions of a trace: for each `execute_batch`, the row count and the parameters
bound at that time. -/
def executions : List call → List (Nat × List parameter)
  | [] => []
  | call.execute_batch k bound :: rest => (k, bound) :: executions rest
  | _ :: rest => executions rest

/-- The rebinds of a trace, in order. -/
def rebinds : List call → List (Nat × description)
  | [] => []
  | call.rebind i d :: rest => (i, d) :: rebinds rest
  | _ :: rest => rebinds rest

/-- Buffer rows `0 .. k-1` of parameter `c` in one execution: data element and indicator of
each row. -/
def submitted_rows (c : Nat) (e : Nat × List parameter) : List (element × Int) :=
  match e.2[c]? with
  | none => []
  | some p => (p.buffer.data.zip p.buffer.indicator).take e.1

/-- Whether a column's row `j` is masked: the mask element of the row, or the single
element of a mask of length one. -/
def masked (mask : List Bool) (j : Nat) : Bool :=
  if mask.length = 1 then mask.headD false else mask.getD j false

/-- A small instance of the conversions, for evaluating the definitions on examples. -/
def example_helpers : time_helpers where
  microseconds_to_timestamp := fun us =>
    { year := 1970, month := 1, day := 1, hour := 0, minute := 0, second := 0,
      fraction := (us % 1000000).toNat * 1000 }
  days_to_date := fun days => { year := 1970, month := 1, day := (days % 28).toNat + 1 }

/-! ## Vocabulary of the statements -/

/-- The four supported type tags. -/
def supported (dtype : String) : Prop :=
  dtype = "int64" ∨ dtype = "float64" ∨ dtype = "datetime64[us]" ∨ dtype = "datetime64[D]"

instance (dtype : String) : Decidable (supported dtype) := by
  unfold supported
  infer_instance

/-- The converter that the branches of `make_converters` build for one column; `none` for
the branch that throws. -/
def converter_of (c : column) : Option parameter_converter :=
  if c.dtype = "int64" then
    some (parameter_converter.binary_converter value_type.int64_t c.data c.mask
      type_code.integer)
  else if c.dtype = "float64" then
    some (parameter_converter.binary_converter value_type.double c.data c.mask
      type_code.floating_point)
  else if c.dtype = "datetime64[us]" then
    some (parameter_converter.timestamp_converter c.data c.mask)
  else if c.dtype = "datetime64[D]" then
    some (parameter_converter.date_converter c.data c.mask)
  else
    none

/-- The data array a converter refers to. -/
def parameter_converter.data : parameter_converter → List Int
  | .binary_converter _ data _ _ => data
  | .timestamp_converter data _ => data
  | .date_converter data _ => data

/-- The mask a converter refers to. -/
def parameter_converter.mask : parameter_converter → List Bool
  | .binary_converter _ _ mask _ => mask
  | .timestamp_converter _ mask => mask
  | .date_converter _ mask => mask

/-- The common shape of `timestamp_converter::set_batch` and `date_converter::set_batch`:
the two differ in the conversion and in the element size only. -/
def converting_set_batch (convert : Int → element) (size : Int) (data : List Int)
    (mask : List Bool) (p : parameter) (start elements : Nat) : Option parameter :=
  let buffer := p.buffer
  let uses_mask : Bool := decide (mask.length ≠ 1)
  (if uses_mask then
    for_loop (fun i buffer =>
        (read mask (start + i)).bind fun m =>
          if m = true then
            set_indicator buffer i SQL_NULL_DATA
          else
            (read data (start + i)).bind fun v =>
              (set_data buffer i (convert v)).bind
                fun buffer => set_indicator buffer i size)
      elements buffer
  else
    (read mask 0).bind fun m =>
      if m = true then
        (fill_n buffer.indicator elements SQL_NULL_DATA).map fun ind =>
          { buffer with indicator := ind }
      else
        for_loop (fun i buffer =>
            (read data (start + i)).bind fun v =>
              (set_data buffer i (convert v)).bind
                fun buffer => set_indicator buffer i size)
          elements buffer).map
    fun buffer => { p with buffer := buffer }

/-- The effect of a `set_batch` on rows `0 .. k-1` of a parameter: row `i` gets the data
element `fd i old` and the indicator `fi i`; the description, the size of the buffer and
the rows from `k` on stay as they are. -/
def rows_written (k : Nat) (fd : Nat → element → element) (fi : Nat → Int)
    (p r : parameter) : Prop :=
  r.description = p.description ∧
  r.buffer.data.length = p.buffer.data.length ∧
  r.buffer.indicator.length = p.buffer.indicator.length ∧
  (∀ i, r.buffer.data[i]? =
    if i < k then (p.buffer.data[i]?).map (fd i) else p.buffer.data[i]?) ∧
  (∀ i, r.buffer.indicator[i]? =
    if i < k then (p.buffer.indicator[i]?).map (fun _ => fi i) else p.buffer.indicator[i]?)

/-- The indicators after a `set_batch` under a full-length mask: for every `i < elements`
the indicator of buffer row `i` is the NULL value iff `mask[start + i]` is true, and is
`size` when that mask element is false; the indicators from `elements` on are those of
before. -/
def indicators_from_mask (size : Int) (mask : List Bool) (start elements : Nat)
    (p r : parameter) : Prop :=
  (∀ i, i < elements → ∃ m, mask[start + i]? = some m ∧
    (r.buffer.indicator[i]? = some SQL_NULL_DATA ↔ m = true) ∧
    (m = false → r.buffer.indicator[i]? = some size)) ∧
  ∀ i, elements ≤ i → r.buffer.indicator[i]? = p.buffer.indicator[i]?

/-- The rows after a `set_batch` of a converting strategy: for every `i < elements`, a NULL
row `start + i` has the NULL indicator and its data element of before, and any other row has
the converted source value and the indicator `size`; the rows from `elements` on are those
of before. -/
def converted_rows (convert : Int → element) (size : Int) (data : List Int)
    (mask : List Bool) (start elements : Nat) (p r : parameter) : Prop :=
  (∀ i, i < elements →
    (masked mask (start + i) = true →
      r.buffer.indicator[i]? = some SQL_NULL_DATA ∧
      r.buffer.data[i]? = p.buffer.data[i]?) ∧
    (masked mask (start + i) = false →
      ∃ v, data[start + i]? = some v ∧ r.buffer.data[i]? = some (convert v) ∧
        r.buffer.indicator[i]? = some size)) ∧
  ∀ i, elements ≤ i →
    r.buffer.data[i]? = p.buffer.data[i]? ∧ r.buffer.indicator[i]? = p.buffer.indicator[i]?

/-- The indicator that a converter stores for source row `j`. -/
def stored_indicator (c : parameter_converter) (j : Nat) : Int :=
  if masked c.mask j = true then SQL_NULL_DATA
  else
    match c with
    | .binary_converter Value _ _ _ => sizeof_Value Value
    | .timestamp_converter _ _ => sizeof_SQL_TIMESTAMP_STRUCT
    | .date_converter _ _ => sizeof_SQL_DATE_STRUCT

/-- The data element that a converter leaves in a buffer row for source row `j`, given the
element `old` that the row held before. -/
def stored_data (h : time_helpers) (c : parameter_converter) (j : Nat) (old : element) :
    element :=
  match c with
  | .binary_converter _ data _ _ => element.value (data.getD j 0)
  | .timestamp_converter data mask =>
    if masked mask j = true then old
    else element.timestamp (h.microseconds_to_timestamp (data.getD j 0))
  | .date_converter data mask =>
    if masked mask j = true then old else element.date (h.days_to_date (data.getD j 0))

/-- The arrays of a converter cover source rows `0 .. total-1`: the data array has that many
items, and the mask has that many or is a single element. -/
def covers (c : parameter_converter) (total : Nat) : Prop :=
  total ≤ c.data.length ∧ (c.mask.length = 1 ∨ total ≤ c.mask.length)

/-- The buffer of a parameter has at least `capacity` rows. -/
def holds (capacity : Nat) (p : parameter) : Prop :=
  capacity ≤ p.buffer.data.length ∧ capacity ≤ p.buffer.indicator.length

/-- The parameters `bound` carry, in rows `0 .. k-1` of every column, what the column's
converter stores for source rows `start .. start+k-1`. -/
def slice_written (h : time_helpers) (cs : List parameter_converter) (start k : Nat)
    (bound : List parameter) : Prop :=
  bound.length = cs.length ∧
  ∀ (i : Nat) (c : parameter_converter), cs[i]? = some c →
    ∃ q : parameter, bound[i]? = some q ∧ ∀ j, j < k →
      q.buffer.indicator[j]? = some (stored_indicator c (start + j)) ∧
      ∃ old, q.buffer.data[j]? = some (stored_data h c (start + j) old)

/-- The caller invariant of the column path: every column's array has `total_rows` items
and every mask has `total_rows` elements or is a single element. -/
def arrays_agree (columns : List column) (total_rows : Nat) : Prop :=
  ∀ col ∈ columns, col.data.length = total_rows ∧
    (col.mask.length = total_rows ∨ col.mask.length = 1)

instance (columns : List column) (total_rows : Nat) :
    Decidable (arrays_agree columns total_rows) := by
  unfold arrays_agree
  infer_instance

/-- The slice sizes as the specification words them: the capacity, repeated
`total_rows / capacity` times, followed by the remainder `total_rows % capacity` when that
is not zero. -/
def expected_sizes (total_rows capacity : Nat) : List Nat :=
  List.replicate (total_rows / capacity) capacity ++
    (if total_rows % capacity = 0 then [] else [total_rows % capacity])

/-- A parameter with a buffer of three rows that hold earlier content. -/
def example_parameter : parameter :=
  { description := make_description type_code.integer 0
    buffer :=
      { data := [element.value 0, element.value 0, element.value 0]
        indicator := [5, 5, 5] } }

/-- A bound parameter set of two parameters and capacity 2, nothing bound yet. -/
def example_parameters : bound_parameter_set :=
  { buffered_sets := 2
    parameters :=
      [{ description := make_description type_code.integer 0, buffer := fresh_buffer 2 },
       { description := make_description type_code.integer 0, buffer := fresh_buffer 2 }]
    trace := [] }

/-- An `int64` column of five rows with a full-length mask. -/
def example_front : column :=
  { data := [10, 20, 30, 40, 50], mask := [false, true, false, false, true], dtype := "int64" }

/-- Two columns of five rows: `example_front` and a timestamp column whose mask is the
single element `true`. -/
def example_columns : List column :=
  [example_front, { data := [1, 2, 3, 4, 5], mask := [true], dtype := "datetime64[us]" }]

/-- A parameter as `timestamp_converter::initialize` binds it, with a buffer of three rows
that hold timestamps written earlier. -/
def example_timestamp_parameter : parameter :=
  { description := make_description type_code.timestamp 0
    buffer :=
      { data := List.replicate 3 (element.timestamp
          { year := 2000, month := 2, day := 3, hour := 4, minute := 5, second := 6,
            fraction := 0 })
        indicator := [16, 16, 16] } }

/-- A parameter as `date_converter::initialize` binds it, with a buffer of three rows that
hold dates written earlier. -/
def example_date_parameter : parameter :=
  { description := make_description type_code.date 0
    buffer :=
      { data := List.replicate 3 (element.date { year := 2000, month := 2, day := 3 })
        indicator := [6, 6, 6] } }

/-- The calls of one slice: `set_batch` for the columns `0 .. n-1`, in index order and all
with the same `start` and row count, and after them one `execute_batch` of that row count,
with the parameters as they are bound at that time. -/
def slice_calls (n : Nat) (slice : Nat × Nat × List parameter) : List call :=
  (List.range n).map (fun i => call.set_batch i slice.1 slice.2.1) ++
    [call.execute_batch slice.2.1 slice.2.2]

/-- A bound parameter set of two parameters and capacity 0. -/
def example_parameters_without_capacity : bound_parameter_set :=
  { buffered_sets := 0
    parameters :=
      [{ description := make_description type_code.integer 0, buffer := fresh_buffer 0 },
       { description := make_description type_code.integer 0, buffer := fresh_buffer 0 }]
    trace := [] }

/-! ## The row path: `field_parameter_set`

The sources hold the declaration of the class (`field_parameter_set.h`) and not the code of
its methods, nor the types `field` and `nullable_field`.  The methods are modelled from the
specification of the Field Parameter Set, under the names and with the members of the
declaration. -/

/-- Modelled from the spec: the scalar of a Nullable Field, "a discriminated value
representing one scalar (integer, floating point, text, binary, date, timestamp)".  The
type `field` is declared outside the sources. -/
inductive field
  | integer (v : Int)
  | floating_point (bits : Int)
  | text (s : String)
  | binary (bytes : List Nat)
  | date (d : SQL_DATE_STRUCT)
  | timestamp (t : SQL_TIMESTAMP_STRUCT)
deriving DecidableEq

/-- Modelled from the spec: a Nullable Field, one scalar "or an explicit NULL". -/
abbrev nullable_field := Option field

/-- Modelled from the spec: the Typed Buffer of one parameter as the row path fills it,
"a contiguous, fixed-stride native-shaped memory region for one parameter column plus a
parallel indicator/length array" that "reports its element width".  A data element holds
the field whose native representation was last stored in it, if any. -/
structure field_buffer where
  element_width : Nat
  data : List (Option field)
  indicator : List Int
deriving DecidableEq

/-- Modelled from the spec: `write(index, bytes)` "stores one element's native
representation at `index` and marks it non-NULL"; the indicator of a valid element is the
number of its meaningful bytes, here the width `w v` of the native representation of the
field.  An index outside the buffer is "a programming error (fatal, not recoverable)":
`none`. -/
def field_buffer.write (w : field → Nat) (b : field_buffer) (index : Nat) (v : field) :
    Option field_buffer :=
  if index < b.data.length ∧ index < b.indicator.length then
    some { b with data := b.data.set index (some v), indicator := b.indicator.set index (w v) }
  else
    none

/-- Modelled from the spec: `write_null(index)` "marks NULL without touching data bytes". -/
def field_buffer.write_null (b : field_buffer) (index : Nat) : Option field_buffer :=
  if index < b.indicator.length then
    some { b with indicator := b.indicator.set index SQL_NULL_DATA }
  else
    none

/-- Modelled from the spec: the Bound Parameter Set as the row path uses it: one Typed
Buffer per statement parameter, every one of the fixed capacity `buffered_sets`, and the
record `executed` of the calls of `execute_batch`, each with its row count and with the
buffers as they are bound at that time. -/
structure field_bound_parameter_set where
  buffered_sets : Nat
  parameters : List field_buffer
  executed : List (Nat × List field_buffer)
deriving DecidableEq

/-- Modelled from the spec: `rebind(index, description)` "discards the buffer at `index`,
allocates a new Typed Buffer sized to `description` and the set's fixed capacity" and "must
not alter any other column's binding"; the description is given by its element width. -/
def field_bound_parameter_set.rebind (parameters : field_bound_parameter_set) (index : Nat)
    (element_width : Nat) : Option field_bound_parameter_set :=
  if index < parameters.parameters.length then
    some { parameters with
      parameters := parameters.parameters.set index
        { element_width := element_width
          data := List.replicate parameters.buffered_sets none
          indicator := List.replicate parameters.buffered_sets 0 } }
  else
    none

/-- Modelled from the spec: `execute_batch(row_count)` "tells the underlying statement
exactly `row_count` of the bound rows are valid for this call, invokes execute". -/
def field_bound_parameter_set.execute_batch (parameters : field_bound_parameter_set)
    (row_count : Nat) : field_bound_parameter_set :=
  { parameters with executed := parameters.executed ++ [(row_count, parameters.parameters)] }

/-- The class `field_parameter_set` with the members of its declaration; the statement is
seen through the record of the executions. -/
structure field_parameter_set where
  parameter_sets_to_buffer_ : Nat
  parameters_ : field_bound_parameter_set
  current_parameter_set_ : Nat
deriving DecidableEq

/-- How a call of a method of `field_parameter_set` ends, with the object as the call
leaves it: it returns, it fails on a row of the wrong length, or it has made a fatal
access. -/
inductive field_outcome
  | returned (s : field_parameter_set)
  | contract_violation (s : field_parameter_set)
  | undefined
deriving DecidableEq

/-- Modelled from the spec: `flush()`: "if `current_row > 0`, calls
`execute_batch(current_row)` and resets `current_row` to 0; a flush with zero buffered rows
is a no-op". -/
def field_parameter_set.flush (s : field_parameter_set) : field_parameter_set :=
  if 0 < s.current_parameter_set_ then
    { s with
      parameters_ := s.parameters_.execute_batch s.current_parameter_set_
      current_parameter_set_ := 0 }
  else
    s

/-- Modelled from the spec: `check_parameter_set`: `add_parameter_set` "validates
`values.length == parameter_count`". -/
def field_parameter_set.check_parameter_set (s : field_parameter_set)
    (parameter_set : List nullable_field) : Bool :=
  decide (parameter_set.length = s.parameters_.parameters.length)

/-- Modelled from the spec: `rebind_parameter_to_hold_value(index, value)`: "the column is
rebound to a wider description sized to the new value". -/
def field_parameter_set.rebind_parameter_to_hold_value (w : field → Nat)
    (s : field_parameter_set) (index : Nat) (value : field) : Option field_parameter_set :=
  (s.parameters_.rebind index (w value)).map fun parameters =>
    { s with parameters_ := parameters }

/-- Modelled from the spec: one row of the recovery: the element of row `j` of the buffer
`old` is written again into row `j` of the buffer now bound at `parameter_index`, a NULL as
a NULL and a value under the check that it fits the element width. -/
def field_parameter_set.recover_row (w : field → Nat) (old : field_buffer)
    (parameter_index : Nat) (j : Nat) (s : field_parameter_set) :
    Option field_parameter_set :=
  (read s.parameters_.parameters parameter_index).bind fun b =>
    (read old.indicator j).bind fun ind =>
      (if ind = SQL_NULL_DATA then
        b.write_null j
      else
        (read old.data j).bind fun cell =>
          match cell with
          | none => none
          | some v => if w v ≤ b.element_width then b.write w j v else none).map
        fun b => { s with
          parameters_ := { s.parameters_ with
            parameters := s.parameters_.parameters.set parameter_index b } }

/-- Modelled from the spec: `recover_unwritten_parameters_below(parameter_index,
last_active_row)`: "every row already buffered at lower indices for that column that was
written under the old, narrower binding must be recovered/rewritten into the new buffer
before the new value is appended", by "re-copying those rows' original field values".  The
rows are `0 .. last_active_row-1`; the discarded buffer `old` is handed over, the state
holding it no more. -/
def field_parameter_set.recover_unwritten_parameters_below (w : field → Nat)
    (old : field_buffer) (s : field_parameter_set) (parameter_index : Nat)
    (last_active_row : Nat) : Option field_parameter_set :=
  for_loop (field_parameter_set.recover_row w old parameter_index) last_active_row s

/-- Modelled from the spec: `add_parameter(index, value)`: the value is written at the
current row of the column's buffer; "NULL values write only the indicator"; "if its native
representation does not fit the column's current buffer element width", the column is
rebound, the rows below the current row are recovered, and the value is then written. -/
def field_parameter_set.add_parameter (w : field → Nat) (s : field_parameter_set)
    (index : Nat) (value : nullable_field) : Option field_parameter_set :=
  (read s.parameters_.parameters index).bind fun b =>
    match value with
    | none =>
      (b.write_null s.current_parameter_set_).map fun b =>
        { s with
          parameters_ := { s.parameters_ with
            parameters := s.parameters_.parameters.set index b } }
    | some v =>
      if w v ≤ b.element_width then
        (b.write w s.current_parameter_set_ v).map fun b =>
          { s with
            parameters_ := { s.parameters_ with
              parameters := s.parameters_.parameters.set index b } }
      else
        let last_active_row := s.current_parameter_set_
        ( s.rebind_parameter_to_hold_value w index v).bind fun s =>
          ( s.recover_unwritten_parameters_below w b index last_active_row).bind fun s =>
            (read s.parameters_.parameters index).bind fun b =>
              (b.write w s.current_parameter_set_ v).map fun b =>
                { s with
                  parameters_ := { s.parameters_ with
                    parameters := s.parameters_.parameters.set index b } }

/-- Modelled from the spec: `add_parameter_set(values)`: it "validates `values.length ==
parameter_count` (fails otherwise)"; every value is added to its column; "after all columns
are written for this row, `current_row` increments.  If `current_row` has reached capacity,
the buffer is flushed automatically and `current_row` resets to 0." -/
def field_parameter_set.add_parameter_set (w : field → Nat) (s : field_parameter_set)
    (parameter_set : List nullable_field) : field_outcome :=
  if s.check_parameter_set parameter_set = false then
    field_outcome.contract_violation s
  else
    match for_loop (fun p s => (read parameter_set p).bind fun value =>
        field_parameter_set.add_parameter w s p value) parameter_set.length s with
    | none => field_outcome.undefined
    | some s =>
      let s := { s with current_parameter_set_ := s.current_parameter_set_ + 1 }
      if s.current_parameter_set_ = s.parameters_.buffered_sets then
        field_outcome.returned s.flush
      else
        field_outcome.returned s

/-- A caller that adds the rows one after the other and stops at the first call that does
not return. -/
def add_parameter_sets (w : field → Nat) :
    field_parameter_set → List (List nullable_field) → field_outcome
  | s, [] => field_outcome.returned s
  | s, parameter_set :: rest =>
    match s.add_parameter_set w parameter_set with
    | field_outcome.returned s => add_parameter_sets w s rest
    | other => other

/-- Buffer row `j` carries the nullable field `v`: a NULL by the NULL indicator; a value by
the value in the data element, its width as indicator, and an element width that holds
it. -/
def cell_holds (w : field → Nat) (b : field_buffer) (j : Nat) (v : nullable_field) : Prop :=
  match v with
  | none => b.indicator[j]? = some SQL_NULL_DATA
  | some f =>
    b.data[j]? = some (some f) ∧ b.indicator[j]? = some ((w f : Nat) : Int) ∧
      w f ≤ b.element_width

/-- The buffers `buffers` carry the rows `rows`: row `j` of column `c` carries the value that
row `j` has for column `c`. -/
def buffers_hold (w : field → Nat) (buffers : List field_buffer)
    (rows : List (List nullable_field)) : Prop :=
  ∀ (j : Nat) (row : List nullable_field), rows[j]? = some row →
    ∀ (c : Nat) (v : nullable_field), row[c]? = some v →
      ∃ b, buffers[c]? = some b ∧ cell_holds w b j v

/-- The state of a field parameter set in the middle of a batch of which the rows `pending`
have been added: the counter of buffered rows is their number, below the capacity; every
buffer has the capacity as its number of rows; every row has one value per parameter; and
the buffers carry the rows. -/
def batch_holds (w : field → Nat) (s : field_parameter_set)
    (pending : List (List nullable_field)) : Prop :=
  s.current_parameter_set_ = pending.length ∧
  pending.length < s.parameters_.buffered_sets ∧
  (∀ b ∈ s.parameters_.parameters,
    b.data.length = s.parameters_.buffered_sets ∧
    b.indicator.length = s.parameters_.buffered_sets) ∧
  (∀ row ∈ pending, row.length = s.parameters_.parameters.length) ∧
  buffers_hold w s.parameters_.parameters pending

/-- The call `add_parameter(c, value)` has replaced the buffer of column `c` by `b` and left
everything else of the object as it was. -/
def column_updated (s r : field_parameter_set) (c : Nat) (b : field_buffer) : Prop :=
  r.parameter_sets_to_buffer_ = s.parameter_sets_to_buffer_ ∧
  r.current_parameter_set_ = s.current_parameter_set_ ∧
  r.parameters_.buffered_sets = s.parameters_.buffered_sets ∧
  r.parameters_.executed = s.parameters_.executed ∧
  r.parameters_.parameters.length = s.parameters_.parameters.length ∧
  (∀ i, i ≠ c → r.parameters_.parameters[i]? = s.parameters_.parameters[i]?) ∧
  r.parameters_.parameters[c]? = some b

/-- A width for examples: eight bytes for numbers, the length for text and binary values,
the sizes of the ODBC structures for dates and timestamps. -/
def example_width : field → Nat
  | .integer _ => 8
  | .floating_point _ => 8
  | .text s => s.length
  | .binary bytes => bytes.length
  | .date _ => 6
  | .timestamp _ => 16

/-- A field parameter set of two parameters with element width 8 and capacity 3, nothing
buffered, nothing executed. -/
def example_field_parameter_set : field_parameter_set :=
  { parameter_sets_to_buffer_ := 3
    parameters_ :=
      { buffered_sets := 3
        parameters :=
          [{ element_width := 8, data := [none, none, none], indicator := [0, 0, 0] },
           { element_width := 8, data := [none, none, none], indicator := [0, 0, 0] }]
        executed := [] }
    current_parameter_set_ := 0 }

/-- Four rows for the example set: the text of the second row is wider than the element
width 8 of its column. -/
def example_rows : List (List nullable_field) :=
  [[some (field.integer 1), some (field.text "ab")],
   [some (field.integer 2), some (field.text "0123456789")],
   [none, some (field.text "c")],
   [some (field.integer 4), none]]

/-- The example set after the first of the example rows. -/
def example_after_first_row : field_parameter_set :=
  { parameter_sets_to_buffer_ := 3
    parameters_ :=
      { buffered_sets := 3
        parameters :=
          [{ element_width := 8
             data := [some (field.integer 1), none, none]
             indicator := [8, 0, 0] },
           { element_width := 8
             data := [some (field.text "ab"), none, none]
             indicator := [2, 0, 0] }]
        executed := [] }
    current_parameter_set_ := 1 }

/-! ## Loops and single `set_batch` calls -/

/-- One more iteration of a loop whose body may fail. -/
theorem for_loop_succ {σ : Type} (body : Nat → σ → Option σ) (n : Nat) (s : σ) :
    for_loop body (n + 1) s = (for_loop body n s).bind (body n) := rfl

/-- Storing the element that a cell holds changes nothing. -/
theorem set_getElem_same {α : Type} (xs : List α) (i : Nat) (hi : i < xs.length) :
    xs.set i xs[i] = xs := by
  apply List.ext_getElem?
  intro j
  rw [List.getElem?_set]
  by_cases hij : i = j
  · subst hij
    simp [hi]
  · simp [hij]

/-- The step of a loop that rewrites cell `n` after cells `0 .. n-1`. -/
theorem getElem?_set_apply {α : Type} (f : Nat → α → α) (xs ys : List α) (n i : Nat)
    (hn : n < xs.length)
    (hpt : ∀ i, ys[i]? = if i < n then (xs[i]?).map (f i) else xs[i]?)
    (hny : n < ys.length) :
    (ys.set n (f n ys[n]))[i]? = if i < n + 1 then (xs[i]?).map (f i) else xs[i]? := by
  have hyn : ys[n] = xs[n] := by
    have h1 := hpt n
    rw [List.getElem?_eq_getElem hny, List.getElem?_eq_getElem hn] at h1
    simpa using h1
  rw [List.getElem?_set]
  by_cases hin : n = i
  · subst hin
    simp [hny, List.getElem?_eq_getElem hn, hyn]
  · simp only [hin, if_false, hpt i]
    by_cases h1 : i < n
    · simp [h1, Nat.lt_succ_of_lt h1]
    · have : ¬ i < n + 1 := by omega
      simp [h1, this]

/-- A loop whose iteration `i` rewrites cell `i` of an array: it succeeds when the
array has `n` cells, rewrites cells `0 .. n-1` and leaves the others. -/
theorem for_loop_cells {α : Type} (body : Nat → List α → Option (List α)) (f : Nat → α → α)
    (n : Nat)
    (hbody : ∀ i xs, i < n → ∀ hi : i < xs.length, body i xs = some (xs.set i (f i xs[i])))
    (xs : List α) (hn : n ≤ xs.length) :
    ∃ ys, for_loop body n xs = some ys ∧ ys.length = xs.length ∧
      ∀ i, ys[i]? = if i < n then (xs[i]?).map (f i) else xs[i]? := by
  induction n with
  | zero => exact ⟨xs, rfl, rfl, fun i => by simp⟩
  | succ n ih =>
    obtain ⟨ys, hys, hlen, hpt⟩ :=
      ih (fun i xs hi hl => hbody i xs (Nat.lt_succ_of_lt hi) hl) (Nat.le_of_succ_le hn)
    have hny : n < ys.length := by omega
    refine ⟨ys.set n (f n ys[n]), ?_, by simp [hlen], fun i => ?_⟩
    · rw [for_loop_succ, hys]
      exact hbody n ys (Nat.lt_succ_self n) hny
    · exact getElem?_set_apply f xs ys n i (by omega) hpt hny

/-- A loop whose iteration `i` rewrites row `i` of a buffer: it succeeds when the
buffer has `n` rows, rewrites rows `0 .. n-1` and leaves the others. -/
theorem for_loop_rows (body : Nat → multi_value_buffer → Option multi_value_buffer)
    (fd : Nat → element → element) (fi : Nat → Int → Int) (n : Nat)
    (hbody : ∀ i b, i < n → ∀ (hd : i < b.data.length) (hi : i < b.indicator.length),
      body i b = some ⟨b.data.set i (fd i b.data[i]), b.indicator.set i (fi i b.indicator[i])⟩)
    (b : multi_value_buffer) (hnd : n ≤ b.data.length) (hni : n ≤ b.indicator.length) :
    ∃ r, for_loop body n b = some r ∧ r.data.length = b.data.length ∧
      r.indicator.length = b.indicator.length ∧
      (∀ i, r.data[i]? = if i < n then (b.data[i]?).map (fd i) else b.data[i]?) ∧
      (∀ i, r.indicator[i]? = if i < n then (b.indicator[i]?).map (fi i) else b.indicator[i]?) := by
  induction n with
  | zero => exact ⟨b, rfl, rfl, rfl, fun i => by simp, fun i => by simp⟩
  | succ n ih =>
    obtain ⟨r, hr, hld, hli, hpd, hpi⟩ :=
      ih (fun i b hi h1 h2 => hbody i b (Nat.lt_succ_of_lt hi) h1 h2) (Nat.le_of_succ_le hnd)
        (Nat.le_of_succ_le hni)
    have hnd1 : n < r.data.length := by omega
    have hni1 : n < r.indicator.length := by omega
    refine ⟨⟨r.data.set n (fd n r.data[n]), r.indicator.set n (fi n r.indicator[n])⟩, ?_,
      by simp [hld], by simp [hli], fun i => ?_, fun i => ?_⟩
    · rw [for_loop_succ, hr]
      exact hbody n r (Nat.lt_succ_self n) hnd1 hni1
    · exact getElem?_set_apply fd b.data r.data n i (by omega) hpd hnd1
    · exact getElem?_set_apply fi b.indicator r.indicator n i (by omega) hpi hni1

/-- The method of the timestamp converter is the converting loop at
`microseconds_to_timestamp`. -/
theorem timestamp_set_batch_eq (h : time_helpers) :
    timestamp_converter.set_batch h =
      converting_set_batch (fun v => element.timestamp (h.microseconds_to_timestamp v))
        sizeof_SQL_TIMESTAMP_STRUCT := rfl

/-- The method of the date converter is the converting loop at `days_to_date`. -/
theorem date_set_batch_eq (h : time_helpers) :
    date_converter.set_batch h =
      converting_set_batch (fun v => element.date (h.days_to_date v))
        sizeof_SQL_DATE_STRUCT := rfl

/-- A read inside the array succeeds. -/
theorem read_eq_getD {α : Type} (xs : List α) (i : Nat) (d : α) (hi : i < xs.length) :
    read xs i = some (xs.getD i d) := by
  simp [read, List.getD, List.getElem?_eq_getElem hi]

/-- A write inside the array succeeds. -/
theorem write_eq_set {α : Type} (xs : List α) (i : Nat) (v : α) (hi : i < xs.length) :
    write xs i v = some (xs.set i v) := by
  simp [write, hi]

/-- The copy `memcpy` within bounds: cells `0 .. n-1` of the destination get the items
`start .. start+n-1` of the source. -/
theorem memcpy_cells (dst : List element) (src : List Int) (start n : Nat)
    (hsrc : start + n ≤ src.length) (hdst : n ≤ dst.length) :
    ∃ ys, memcpy dst src start n = some ys ∧ ys.length = dst.length ∧
      ∀ i, ys[i]? = if i < n then (dst[i]?).map (fun _ => element.value (src.getD (start + i) 0))
        else dst[i]? := by
  apply for_loop_cells _ (fun i _ => element.value (src.getD (start + i) 0)) n _ dst hdst
  intro i xs hi hl
  simp [read_eq_getD src (start + i) 0 (by omega), write_eq_set xs i _ hl]

/-- The fill `fill_n` within bounds: cells `0 .. n-1` get the value. -/
theorem fill_n_cells (first : List Int) (n : Nat) (value : Int) (hn : n ≤ first.length) :
    ∃ ys, fill_n first n value = some ys ∧ ys.length = first.length ∧
      ∀ i, ys[i]? = if i < n then (first[i]?).map (fun _ => value) else first[i]? := by
  apply for_loop_cells _ (fun _ _ => value) n _ first hn
  intro i xs _ hl
  simp [write_eq_set xs i _ hl]

/-- Under a mask whose length is not 1 a row is masked by its own mask element. -/
theorem masked_of_length_ne_one (mask : List Bool) (j : Nat) (hm : mask.length ≠ 1) :
    masked mask j = mask.getD j false := by
  simp [masked, hm]

/-- Under a mask of length 1 every row is masked by the single element. -/
theorem masked_of_length_eq_one (mask : List Bool) (j : Nat) (hm : mask.length = 1) :
    masked mask j = mask.getD 0 false := by
  cases mask with
  | nil => simp at hm
  | cons m rest => simp [masked, hm]

/-- Mapping the identity over an optional cell. -/
theorem map_const_eq_self {α : Type} (xs : List α) (i : Nat) :
    (xs[i]?).map (fun old => old) = xs[i]? := by
  cases xs[i]? <;> rfl

/-- The rows that `binary_converter::set_batch` writes, within bounds. -/
theorem binary_set_batch_rows (Value : value_type) (data : List Int) (mask : List Bool)
    (p : parameter) (start k : Nat)
    (hdata : start + k ≤ data.length)
    (hmask : mask.length = 1 ∨ start + k ≤ mask.length)
    (hbd : k ≤ p.buffer.data.length) (hbi : k ≤ p.buffer.indicator.length) :
    ∃ r, binary_converter.set_batch Value data mask p start k = some r ∧
      rows_written k (fun i _ => element.value (data.getD (start + i) 0))
        (fun i => if masked mask (start + i) = true then SQL_NULL_DATA else sizeof_Value Value)
        p r := by
  obtain ⟨copied, hcopy, hclen, hcpt⟩ := memcpy_cells p.buffer.data data start k hdata hbd
  unfold binary_converter.set_batch
  simp only [hcopy, Option.some_bind]
  by_cases hm : mask.length = 1
  · obtain ⟨ind, hind, hilen, hipt⟩ := fill_n_cells p.buffer.indicator k
      (if mask.getD 0 false = true then SQL_NULL_DATA else sizeof_Value Value) hbi
    refine ⟨⟨p.description, ⟨copied, ind⟩⟩, ?_, rfl, hclen, hilen, hcpt, ?_⟩
    · simp only [hm, ne_eq, not_true_eq_false, ↓reduceIte, read_eq_getD mask 0 false (by omega),
        Option.some_bind, hind, Option.map_some']
    · intro i
      simp only [hipt i, masked_of_length_eq_one mask _ hm]
  · have hml : start + k ≤ mask.length := hmask.resolve_left hm
    obtain ⟨b, hb, hbdl, hbil, hbdp, hbip⟩ := for_loop_rows
      (fun i buffer => (read mask (start + i)).bind fun m =>
        set_indicator buffer i (if m = true then SQL_NULL_DATA else sizeof_Value Value))
      (fun _ old => old)
      (fun i _ => if mask.getD (start + i) false = true then SQL_NULL_DATA else sizeof_Value Value)
      k
      (by
        intro i b hi hd hl
        simp [read_eq_getD mask (start + i) false (by omega), set_indicator,
          write_eq_set b.indicator i _ hl, set_getElem_same b.data i hd])
      ⟨copied, p.buffer.indicator⟩ (by simp [hclen, hbd]) hbi
    refine ⟨⟨p.description, b⟩, ?_, rfl, ?_, hbil, ?_, ?_⟩
    · simp [hm, hb]
    · simp [hbdl, hclen]
    · intro i
      have := hbdp i
      simp only [map_const_eq_self] at this
      simp only [this, ite_self, hcpt i]
    · intro i
      simp only [hbip i, masked_of_length_ne_one mask _ hm]

/-- The rows that the converting loop writes, within bounds. -/
theorem converting_set_batch_rows (convert : Int → element) (size : Int) (data : List Int)
    (mask : List Bool) (p : parameter) (start k : Nat)
    (hdata : start + k ≤ data.length)
    (hmask : mask.length = 1 ∨ start + k ≤ mask.length)
    (hbd : k ≤ p.buffer.data.length) (hbi : k ≤ p.buffer.indicator.length) :
    ∃ r, converting_set_batch convert size data mask p start k = some r ∧
      rows_written k
        (fun i old => if masked mask (start + i) = true then old
          else convert (data.getD (start + i) 0))
        (fun i => if masked mask (start + i) = true then SQL_NULL_DATA else size)
        p r := by
  unfold converting_set_batch
  by_cases hm : mask.length = 1
  · cases hnull : mask.getD 0 false
    · obtain ⟨b, hb, hbdl, hbil, hbdp, hbip⟩ := for_loop_rows
        (fun i buffer => (read data (start + i)).bind fun v =>
          (set_data buffer i (convert v)).bind fun buffer => set_indicator buffer i size)
        (fun i _ => convert (data.getD (start + i) 0)) (fun _ _ => size) k
        (by
          intro i b hi hd hl
          simp [read_eq_getD data (start + i) 0 (by omega), set_indicator, set_data,
            write_eq_set b.indicator i _ hl, write_eq_set b.data i _ hd])
        p.buffer hbd hbi
      refine ⟨⟨p.description, b⟩, ?_, rfl, hbdl, hbil, ?_, ?_⟩
      · simp only [hm, ne_eq, not_true_eq_false, decide_False, Bool.false_eq_true, ↓reduceIte,
          read_eq_getD mask 0 false (by omega), Option.some_bind, hnull, hb, Option.map_some']
      · intro i
        simp only [hbdp i, masked_of_length_eq_one mask _ hm, hnull, Bool.false_eq_true,
          ↓reduceIte]
      · intro i
        simp only [hbip i, masked_of_length_eq_one mask _ hm, hnull, Bool.false_eq_true,
          ↓reduceIte]
    · obtain ⟨ind, hind, hilen, hipt⟩ := fill_n_cells p.buffer.indicator k SQL_NULL_DATA hbi
      refine ⟨⟨p.description, ⟨p.buffer.data, ind⟩⟩, ?_, rfl, rfl, hilen, ?_, ?_⟩
      · simp only [hm, ne_eq, not_true_eq_false, decide_False, Bool.false_eq_true, ↓reduceIte,
          read_eq_getD mask 0 false (by omega), Option.some_bind, hnull, hind, Option.map_some']
      · intro i
        simp only [masked_of_length_eq_one mask _ hm, hnull, ↓reduceIte, map_const_eq_self,
          ite_self]
      · intro i
        simp only [hipt i, masked_of_length_eq_one mask _ hm, hnull, ↓reduceIte]
  · have hml : start + k ≤ mask.length := hmask.resolve_left hm
    obtain ⟨b, hb, hbdl, hbil, hbdp, hbip⟩ := for_loop_rows
      (fun i buffer => (read mask (start + i)).bind fun m =>
        if m = true then set_indicator buffer i SQL_NULL_DATA
        else (read data (start + i)).bind fun v =>
          (set_data buffer i (convert v)).bind fun buffer => set_indicator buffer i size)
      (fun i old => if mask.getD (start + i) false = true then old
        else convert (data.getD (start + i) 0))
      (fun i _ => if mask.getD (start + i) false = true then SQL_NULL_DATA else size) k
      (by
        intro i b hi hd hl
        simp only [read_eq_getD mask (start + i) false (by omega), Option.some_bind,
          read_eq_getD data (start + i) 0 (by omega)]
        generalize mask.getD (start + i) false = m
        generalize data.getD (start + i) 0 = v
        cases m
        · simp [set_indicator, set_data, write_eq_set b.indicator i _ hl,
            write_eq_set b.data i _ hd]
        · simp [set_indicator, write_eq_set b.indicator i _ hl, set_getElem_same b.data i hd])
      p.buffer hbd hbi
    refine ⟨⟨p.description, b⟩, ?_, rfl, hbdl, hbil, ?_, ?_⟩
    · simp only [hm, ne_eq, not_false_eq_true, decide_True, ↓reduceIte, hb, Option.map_some']
    · intro i
      simp only [hbdp i, masked_of_length_ne_one mask _ hm]
    · intro i
      simp only [hbip i, masked_of_length_ne_one mask _ hm]

/-- The indicators of the written rows, read off a full-length mask. -/
theorem indicators_of_rows_written (size : Int) (hsize : size ≠ SQL_NULL_DATA)
    (mask : List Bool) (start k : Nat) (fd : Nat → element → element) (p r : parameter)
    (hm : mask.length ≠ 1) (hmask : start + k ≤ mask.length)
    (hbi : k ≤ p.buffer.indicator.length)
    (hw : rows_written k fd
      (fun i => if masked mask (start + i) = true then SQL_NULL_DATA else size) p r) :
    indicators_from_mask size mask start k p r := by
  obtain ⟨_, _, _, _, hi⟩ := hw
  refine ⟨fun i hik => ?_, fun i hik => ?_⟩
  · have hlt : start + i < mask.length := by omega
    have hpi : i < p.buffer.indicator.length := by omega
    have hval : r.buffer.indicator[i]? =
        some (if mask[start + i] = true then SQL_NULL_DATA else size) := by
      rw [hi i, if_pos hik, List.getElem?_eq_getElem hpi]
      simp only [Option.map_some', masked_of_length_ne_one mask _ hm]
      simp [List.getD, List.getElem?_eq_getElem hlt]
    refine ⟨mask[start + i], List.getElem?_eq_getElem hlt, ?_, ?_⟩
    · rw [hval]
      cases mask[start + i]
      · simp [hsize]
      · simp
    · intro hfalse
      rw [hval, hfalse]
      simp
  · rw [hi i, if_neg (by omega)]


/-- The rows written by a converting strategy, NULL rows apart from the others. -/
theorem converted_of_rows_written (convert : Int → element) (size : Int) (data : List Int)
    (mask : List Bool) (start k : Nat) (p r : parameter)
    (hdata : start + k ≤ data.length)
    (hbd : k ≤ p.buffer.data.length) (hbi : k ≤ p.buffer.indicator.length)
    (hw : rows_written k
      (fun i old => if masked mask (start + i) = true then old
        else convert (data.getD (start + i) 0))
      (fun i => if masked mask (start + i) = true then SQL_NULL_DATA else size) p r) :
    converted_rows convert size data mask start k p r := by
  obtain ⟨_, _, _, hd, hi⟩ := hw
  refine ⟨fun i hik => ⟨fun hnull => ⟨?_, ?_⟩, fun hval => ⟨data[start + i], ?_, ?_, ?_⟩⟩,
    fun i hik => ⟨?_, ?_⟩⟩
  · rw [hi i, if_pos hik, List.getElem?_eq_getElem (by omega : i < p.buffer.indicator.length)]
    simp [hnull]
  · rw [hd i, if_pos hik, List.getElem?_eq_getElem (by omega : i < p.buffer.data.length)]
    simp [hnull]
  · exact List.getElem?_eq_getElem (by omega)
  · rw [hd i, if_pos hik, List.getElem?_eq_getElem (by omega : i < p.buffer.data.length)]
    simp [hval, List.getD, List.getElem?_eq_getElem (by omega : start + i < data.length)]
  · rw [hi i, if_pos hik, List.getElem?_eq_getElem (by omega : i < p.buffer.indicator.length)]
    simp [hval]
  · rw [hd i, if_neg (by omega)]
  · rw [hi i, if_neg (by omega)]


/-- Loops whose bodies agree on the iterations they run are the same loop. -/
theorem for_loop_congr {σ : Type} (body1 body2 : Nat → σ → Option σ) (k : Nat)
    (hbody : ∀ i, i < k → ∀ s, body1 i s = body2 i s) (s : σ) :
    for_loop body1 k s = for_loop body2 k s := by
  induction k with
  | zero => rfl
  | succ k ih =>
    rw [for_loop_succ, for_loop_succ, ih (fun i hi => hbody i (Nat.lt_succ_of_lt hi))]
    cases for_loop body2 k s with
    | none => rfl
    | some t => exact hbody k (Nat.lt_succ_self k) t

/-- Setting one indicator after the other is `fill_n` on the indicators. -/
theorem set_indicator_loop_eq_fill_n (v : Int) (k : Nat) (b : multi_value_buffer) :
    for_loop (fun i buffer => set_indicator buffer i v) k b =
      (fill_n b.indicator k v).map fun ind => { b with indicator := ind } := by
  induction k with
  | zero => rfl
  | succ k ih =>
    unfold fill_n at ih ⊢
    rw [for_loop_succ, for_loop_succ, ih]
    cases for_loop (fun i d => write d i v) k b.indicator with
    | none => rfl
    | some ind =>
      simp only [Option.map_some', Option.some_bind, set_indicator]

/-- A read of a constant mask inside it. -/
theorem read_replicate (n : Nat) (b : Bool) (i : Nat) (hi : i < n) :
    read (List.replicate n b) i = some b := by
  simp [read, hi]

/-- The binary converter under a single mask element and under the constant full-length
mask. -/
theorem binary_broadcast_eq (Value : value_type) (data : List Int) (b : Bool) (p : parameter)
    (start k : Nat) (hin : start + k ≤ data.length) :
    binary_converter.set_batch Value data [b] p start k =
      binary_converter.set_batch Value data (List.replicate data.length b) p start k := by
  by_cases hone : data.length = 1
  · rw [hone]
    rfl
  · simp only [binary_converter.set_batch]
    generalize memcpy p.buffer.data data start k = res
    cases res with
    | none => rfl
    | some copied =>
      simp only [Option.some_bind, List.length_replicate, hone, ne_eq, not_false_eq_true,
        ↓reduceIte, List.length_singleton, not_true_eq_false]
      congr 1
      have hloop : for_loop (fun i buffer =>
            (read (List.replicate data.length b) (start + i)).bind fun m =>
              set_indicator buffer i (if m = true then SQL_NULL_DATA else sizeof_Value Value))
          k { p.buffer with data := copied } =
          (fill_n p.buffer.indicator k
            (if b = true then SQL_NULL_DATA else sizeof_Value Value)).map fun ind =>
            { data := copied, indicator := ind } := by
        have hfill := set_indicator_loop_eq_fill_n
          (if b = true then SQL_NULL_DATA else sizeof_Value Value) k
          { data := copied, indicator := p.buffer.indicator }
        simp only [] at hfill
        rw [← hfill]
        exact for_loop_congr _ _ k
          (fun i hi s => by rw [read_replicate _ b (start + i) (by omega)]; rfl) _
      rw [hloop]
      rfl

/-- The converting loop under a single mask element and under the constant full-length
mask. -/
theorem converting_broadcast_eq (convert : Int → element) (size : Int) (data : List Int)
    (b : Bool) (p : parameter) (start k : Nat) (hin : start + k ≤ data.length) :
    converting_set_batch convert size data [b] p start k =
      converting_set_batch convert size data (List.replicate data.length b) p start k := by
  by_cases hone : data.length = 1
  · rw [hone]
    rfl
  · unfold converting_set_batch
    simp only [List.length_replicate, hone, ne_eq, not_false_eq_true, decide_True,
      ↓reduceIte, List.length_singleton, not_true_eq_false, decide_False,
      Bool.false_eq_true]
    congr 1
    cases b with
    | true =>
      have hloop : for_loop (fun i buffer =>
            (read (List.replicate data.length true) (start + i)).bind fun m =>
              if m = true then set_indicator buffer i SQL_NULL_DATA
              else (read data (start + i)).bind fun v =>
                (set_data buffer i (convert v)).bind fun buffer => set_indicator buffer i size)
          k p.buffer =
          (fill_n p.buffer.indicator k SQL_NULL_DATA).map fun ind =>
            { p.buffer with indicator := ind } := by
        rw [← set_indicator_loop_eq_fill_n]
        exact for_loop_congr _ _ k
          (fun i hi s => by rw [read_replicate _ true (start + i) (by omega)]; rfl) p.buffer
      rw [hloop]
      rfl
    | false =>
      have hloop : for_loop (fun i buffer =>
            (read (List.replicate data.length false) (start + i)).bind fun m =>
              if m = true then set_indicator buffer i SQL_NULL_DATA
              else (read data (start + i)).bind fun v =>
                (set_data buffer i (convert v)).bind fun buffer => set_indicator buffer i size)
          k p.buffer =
          for_loop (fun i buffer => (read data (start + i)).bind fun v =>
            (set_data buffer i (convert v)).bind fun buffer => set_indicator buffer i size)
          k p.buffer :=
        for_loop_congr _ _ k
          (fun i hi s => by rw [read_replicate _ false (start + i) (by omega)]; rfl) p.buffer
      rw [hloop]
      rfl

/-! ## The converters of the columns -/

/-- One more iteration of a loop whose body may throw. -/
theorem for_loop_succ_except {σ : Type} (body : Nat → σ → Except fault σ) (n : Nat) (s : σ) :
    for_loop body (n + 1) s = (for_loop body n s).bind (body n) := rfl

/-- A column has a converter exactly when its type tag is supported. -/
theorem converter_of_isSome (c : column) : (converter_of c).isSome ↔ supported c.dtype := by
  unfold converter_of supported
  by_cases h1 : c.dtype = "int64"
  · simp [h1]
  · by_cases h2 : c.dtype = "float64"
    · simp [h2]
    · by_cases h3 : c.dtype = "datetime64[us]"
      · simp [h3]
      · by_cases h4 : c.dtype = "datetime64[D]"
        · simp [h4]
        · simp [h1, h2, h3, h4]

/-- A column has no converter exactly when its type tag is not supported. -/
theorem converter_of_eq_none (c : column) : converter_of c = none ↔ ¬ supported c.dtype := by
  rw [← converter_of_isSome]
  cases converter_of c <;> simp

/-- One iteration of the loop of `make_converters`, in terms of `converter_of`. -/
theorem make_converters_iteration_eq (columns : List column) (i : Nat) (col : column)
    (hi : columns[i]? = some col) (cs : List parameter_converter) :
    make_converters_iteration columns i cs =
    match converter_of col with
    | some c => Except.ok (cs ++ [c])
    | none => Except.error (fault.interface_error
        (unsupported_message (i + 1) columns.length col.dtype)) := by
  unfold make_converters_iteration
  rw [hi]
  unfold converter_of
  by_cases h1 : col.dtype = "int64"
  · simp [h1]
  · by_cases h2 : col.dtype = "float64"
    · simp [h2]
    · by_cases h3 : col.dtype = "datetime64[us]"
      · simp [h3]
      · by_cases h4 : col.dtype = "datetime64[D]"
        · simp [h4]
        · simp [h1, h2, h3, h4]

/-- While the columns seen so far are supported, the loop of `make_converters` has
collected their converters, in order. -/
theorem make_converters_loop_ok (columns : List column) (k : Nat) (hk : k ≤ columns.length)
    (hsup : ∀ i col, i < k → columns[i]? = some col → supported col.dtype) :
    for_loop (make_converters_iteration columns) k [] =
      Except.ok ((columns.take k).filterMap converter_of) := by
  induction k with
  | zero => rfl
  | succ k ih =>
    have hk1 : k < columns.length := hk
    rw [for_loop_succ_except, ih (Nat.le_of_succ_le hk)
      (fun i col hi hc => hsup i col (Nat.lt_succ_of_lt hi) hc)]
    have hcol : columns[k]? = some columns[k] := List.getElem?_eq_getElem hk1
    have hs := hsup k columns[k] (Nat.lt_succ_self k) hcol
    obtain ⟨c, hc⟩ := Option.isSome_iff_exists.mp ((converter_of_isSome _).mpr hs)
    simp only [Except.bind, make_converters_iteration_eq columns k _ hcol, hc,
      List.take_succ, hcol, Option.toList, List.filterMap_append, List.filterMap_cons,
      List.filterMap_nil]

/-- When every column is supported, `make_converters` returns the converters of the
columns, one per column and in column order. -/
theorem make_converters_ok (columns : List column)
    (hsup : ∀ col ∈ columns, supported col.dtype) :
    make_converters columns = Except.ok (columns.filterMap converter_of) := by
  unfold make_converters
  rw [make_converters_loop_ok columns columns.length (Nat.le_refl _)
    (fun i col _ hc => hsup col (List.getElem?_mem hc)), List.take_length]

/-- Once the loop of `make_converters` has thrown, it stays thrown. -/
theorem for_loop_error {σ : Type} (body : Nat → σ → Except fault σ) (e : fault) (k : Nat)
    (s : σ) (hk : for_loop body k s = Except.error e) (m : Nat) :
    for_loop body (k + m) s = Except.error e := by
  induction m with
  | zero => exact hk
  | succ m ih =>
    rw [← Nat.add_assoc, for_loop_succ_except, ih]
    rfl

/-- The first unsupported column decides the outcome of `make_converters`. -/
theorem make_converters_error (columns : List column) (i : Nat) (col : column)
    (hi : columns[i]? = some col) (hbad : ¬ supported col.dtype)
    (hfirst : ∀ j c, j < i → columns[j]? = some c → supported c.dtype) :
    make_converters columns = Except.error (fault.interface_error
      (unsupported_message (i + 1) columns.length col.dtype)) := by
  have hlt : i < columns.length := by
    by_contra hge
    rw [List.getElem?_eq_none (Nat.le_of_not_lt hge)] at hi
    cases hi
  have hstep : for_loop (make_converters_iteration columns) (i + 1) [] =
      Except.error (fault.interface_error
        (unsupported_message (i + 1) columns.length col.dtype)) := by
    rw [for_loop_succ_except, make_converters_loop_ok columns i (Nat.le_of_lt hlt) hfirst]
    simp only [Except.bind, make_converters_iteration_eq columns i col hi,
      (converter_of_eq_none col).mpr hbad]
  have hrest := for_loop_error _ _ _ _ hstep (columns.length - (i + 1))
  have hsplit : (i + 1) + (columns.length - (i + 1)) = columns.length := by omega
  rw [hsplit] at hrest
  exact hrest

/-- The two messages differ: they start with different letters. -/
theorem unsupported_message_ne_count_mismatch (position total : Nat) (dtype : String) :
    unsupported_message position total dtype ≠ count_mismatch_message := by
  intro heq
  have hdata := congrArg String.data heq
  simp only [unsupported_message, count_mismatch_message, String.data_append] at hdata
  have hhead := congrArg List.head? hdata
  simp at hhead

/-- Among columns of which one is unsupported there is a first unsupported one. -/
theorem first_unsupported (columns : List column)
    (hbad : ∃ col ∈ columns, ¬ supported col.dtype) :
    ∃ (i : Nat) (col : column), columns[i]? = some col ∧ ¬ supported col.dtype ∧
      ∀ (j : Nat) (c : column), j < i → columns[j]? = some c → supported c.dtype := by
  induction columns with
  | nil =>
    obtain ⟨col, hmem, _⟩ := hbad
    cases hmem
  | cons x rest ih =>
    by_cases hx : supported x.dtype
    · have hrest : ∃ col ∈ rest, ¬ supported col.dtype := by
        obtain ⟨col, hmem, hcol⟩ := hbad
        rcases List.mem_cons.mp hmem with heq | hin
        · subst heq
          exact absurd hx hcol
        · exact ⟨col, hin, hcol⟩
      obtain ⟨i, col, hi, hcol, hfirst⟩ := ih hrest
      refine ⟨i + 1, col, by rw [List.getElem?_cons_succ]; exact hi, hcol, ?_⟩
      intro j c hj hc
      cases j with
      | zero =>
        simp at hc
        subst hc
        exact hx
      | succ j =>
        rw [List.getElem?_cons_succ] at hc
        exact hfirst j c (by omega) hc
    · exact ⟨0, x, List.getElem?_cons_zero, hx, fun j c hj _ => absurd hj (Nat.not_lt_zero j)⟩


/-- A failure of `make_converters` is the error of its first unsupported column. -/
theorem make_converters_error_message (columns : List column) (e : fault)
    (he : make_converters columns = Except.error e) :
    ∃ (i : Nat) (col : column), columns[i]? = some col ∧ ¬ supported col.dtype ∧
      (∀ (j : Nat) (c : column), j < i → columns[j]? = some c → supported c.dtype) ∧
      e = fault.interface_error (unsupported_message (i + 1) columns.length col.dtype) := by
  by_cases hall : ∀ col ∈ columns, supported col.dtype
  · rw [make_converters_ok columns hall] at he
    cases he
  · have hbad : ∃ col ∈ columns, ¬ supported col.dtype := by
      simpa using hall
    obtain ⟨i, col, hi, hcol, hfirst⟩ := first_unsupported columns hbad
    refine ⟨i, col, hi, hcol, hfirst, ?_⟩
    rw [make_converters_error columns i col hi hcol hfirst] at he
    exact (Except.error.inj he).symm

/-- The slice loop throws no interface error. -/
theorem slice_loop_no_interface_error (h : time_helpers) (cs : List parameter_converter)
    (n total fuel : Nat) :
    ∀ (start : Nat) (ps : bound_parameter_set) (what : String) (r : bound_parameter_set),
      slice_loop h cs n total fuel start ps ≠ outcome.interface_error what r := by
  induction fuel with
  | zero =>
    intro start ps what r
    unfold slice_loop
    split_ifs <;> simp
  | succ fuel ih =>
    intro start ps what r
    unfold slice_loop
    split_ifs
    · simp only []
      split
      · simp
      · exact ih _ _ what r
    · simp


/-- The converter of a column, by type tag. -/
theorem converter_of_cases (col : column) :
    (col.dtype = "int64" → converter_of col = some
      (parameter_converter.binary_converter value_type.int64_t col.data col.mask
        type_code.integer)) ∧
    (col.dtype = "float64" → converter_of col = some
      (parameter_converter.binary_converter value_type.double col.data col.mask
        type_code.floating_point)) ∧
    (col.dtype = "datetime64[us]" → converter_of col = some
      (parameter_converter.timestamp_converter col.data col.mask)) ∧
    (col.dtype = "datetime64[D]" → converter_of col = some
      (parameter_converter.date_converter col.data col.mask)) := by
  refine ⟨fun e => ?_, fun e => ?_, fun e => ?_, fun e => ?_⟩ <;> simp [converter_of, e]

/-- The success of `make_converters` means that every column is supported. -/
theorem make_converters_ok_supported (columns : List column) (cs : List parameter_converter)
    (hok : make_converters columns = Except.ok cs) :
    ∀ col ∈ columns, supported col.dtype := by
  by_contra hall
  have hbad : ∃ col ∈ columns, ¬ supported col.dtype := by
    simpa using hall
  obtain ⟨i, col, hi, hcol, hfirst⟩ := first_unsupported columns hbad
  rw [make_converters_error columns i col hi hcol hfirst] at hok
  cases hok

/-! ## The loops of the driver -/

/-- Every converter writes rows `0 .. k-1` of its parameter from source rows
`start .. start+k-1`, and nothing else. -/
theorem set_batch_rows (h : time_helpers) (c : parameter_converter) (p : parameter)
    (start k : Nat) (hc : covers c (start + k)) (hp : holds k p) :
    ∃ r, c.set_batch h p start k = some r ∧
      rows_written k (fun i => stored_data h c (start + i))
        (fun i => stored_indicator c (start + i)) p r := by
  obtain ⟨hdata, hmask⟩ := hc
  obtain ⟨hbd, hbi⟩ := hp
  cases c with
  | binary_converter Value data mask type =>
    exact binary_set_batch_rows Value data mask p start k hdata hmask hbd hbi
  | timestamp_converter data mask =>
    exact converting_set_batch_rows _ _ data mask p start k hdata hmask hbd hbi
  | date_converter data mask =>
    exact converting_set_batch_rows _ _ data mask p start k hdata hmask hbd hbi

/-- The cells of an array after a store inside it. -/
theorem getElem?_set_pointwise {α : Type} (xs : List α) (n i : Nat) (v : α)
    (hn : n < xs.length) :
    (xs.set n v)[i]? = if i = n then some v else xs[i]? := by
  rw [List.getElem?_set]
  by_cases hin : n = i
  · subst hin
    simp [hn]
  · have : ¬ i = n := fun e => hin e.symm
    simp [hin, this]

/-- The loop over `initialize`: every parameter is rebound once, in index order, to the
description of its converter and to a fresh buffer of the capacity. -/
theorem initialize_all_spec (cs : List parameter_converter) (k : Nat)
    (ps : bound_parameter_set) (hk : k ≤ cs.length) (hps : k ≤ ps.parameters.length) :
    ∃ r evs, initialize_all cs k ps = some r ∧
      r.buffered_sets = ps.buffered_sets ∧
      r.parameters.length = ps.parameters.length ∧
      r.trace = ps.trace ++ evs ∧ evs.length = k ∧
      (∀ i, i < k → evs[i]? = (cs[i]?).map fun c => call.rebind i c.description) ∧
      ∀ i, r.parameters[i]? =
        if i < k then (cs[i]?).map fun c =>
          { description := c.description, buffer := fresh_buffer ps.buffered_sets }
        else ps.parameters[i]? := by
  induction k with
  | zero => exact ⟨ps, [], rfl, rfl, rfl, by simp, rfl, fun i hi => by omega, fun i => by simp⟩
  | succ k ih =>
    obtain ⟨r, evs, hr, hcap, hlen, htrace, hevl, hevs, hpt⟩ :=
      ih (Nat.le_of_succ_le hk) (Nat.le_of_succ_le hps)
    have hkc : k < cs.length := hk
    have hkr : k < r.parameters.length := by omega
    refine ⟨{ r with
        parameters := r.parameters.set k
          { description := cs[k].description, buffer := fresh_buffer r.buffered_sets }
        trace := r.trace ++ [call.rebind k cs[k].description] },
      evs ++ [call.rebind k cs[k].description], ?_, ?_, ?_, ?_, ?_, ?_, ?_⟩
    · unfold initialize_all at hr ⊢
      rw [for_loop_succ, hr]
      simp only [Option.some_bind, read, List.getElem?_eq_getElem hkc,
        parameter_converter.initialize, bound_parameter_set.rebind, hkr, ↓reduceIte]
    · exact hcap
    · simp [hlen]
    · simp [htrace]
    · simp [hevl]
    · intro i hi
      by_cases hik : i < k
      · rw [List.getElem?_append_left (by omega)]
        exact hevs i hik
      · have : i = k := by omega
        subst this
        rw [List.getElem?_append_right (by omega)]
        simp [hevl, List.getElem?_eq_getElem hkc]
    · intro i
      simp only [getElem?_set_pointwise _ k i _ hkr, hpt i, hcap]
      by_cases hik : i = k
      · subst hik
        simp [List.getElem?_eq_getElem hkc]
      · by_cases h1 : i < k
        · simp [hik, h1, Nat.lt_succ_of_lt h1]
        · have : ¬ i < k + 1 := by omega
          simp [hik, h1, this]

/-- The inner loop of a slice over the first `m` columns: each of them has its rows
written by its converter, the others are untouched, and each call is recorded. -/
theorem set_batch_all_spec (h : time_helpers) (cs : List parameter_converter) (m : Nat)
    (start k : Nat) (ps : bound_parameter_set) (hm : m ≤ cs.length)
    (hps : m ≤ ps.parameters.length) (hcov : ∀ c ∈ cs, covers c (start + k))
    (hhold : ∀ p ∈ ps.parameters, holds k p) :
    ∃ r, set_batch_all h cs m start k ps = some r ∧
      r.buffered_sets = ps.buffered_sets ∧
      r.parameters.length = ps.parameters.length ∧
      r.trace = ps.trace ++ (List.range m).map (fun i => call.set_batch i start k) ∧
      (∀ i, m ≤ i → r.parameters[i]? = ps.parameters[i]?) ∧
      ∀ i, i < m → ∃ c p q, cs[i]? = some c ∧ ps.parameters[i]? = some p ∧
        r.parameters[i]? = some q ∧
        rows_written k (fun j => stored_data h c (start + j))
          (fun j => stored_indicator c (start + j)) p q := by
  induction m with
  | zero => exact ⟨ps, rfl, rfl, rfl, by simp, fun i _ => rfl, fun i hi => by omega⟩
  | succ m ih =>
    obtain ⟨r, hr, hcap, hlen, htrace, hrest, hdone⟩ :=
      ih (Nat.le_of_succ_le hm) (Nat.le_of_succ_le hps)
    have hmc : m < cs.length := hm
    have hmp : m < ps.parameters.length := hps
    have hmr : m < r.parameters.length := by omega
    have hpm : r.parameters[m]? = some ps.parameters[m] := by
      rw [hrest m (Nat.le_refl m), List.getElem?_eq_getElem hmp]
    obtain ⟨q, hq, hrows⟩ := set_batch_rows h cs[m] ps.parameters[m] start k
      (hcov _ (List.getElem_mem hmc)) (hhold _ (List.getElem_mem hmp))
    refine ⟨{ r with
        parameters := r.parameters.set m q
        trace := r.trace ++ [call.set_batch m start k] }, ?_, hcap, ?_, ?_, ?_, ?_⟩
    · unfold set_batch_all at hr ⊢
      rw [for_loop_succ, hr]
      simp only [Option.some_bind, read, List.getElem?_eq_getElem hmc, hpm, hq,
        Option.map_some']
    · simp [hlen]
    · simp [htrace, List.range_succ]
    · intro i hi
      simp only [getElem?_set_pointwise _ m i _ hmr]
      have : ¬ i = m := by omega
      simp only [this, if_false]
      exact hrest i (by omega)
    · intro i hi
      by_cases him : i = m
      · subst him
        refine ⟨cs[i], ps.parameters[i], q, List.getElem?_eq_getElem hmc,
          List.getElem?_eq_getElem hmp, ?_, hrows⟩
        simp [getElem?_set_pointwise _ i i _ hmr]
      · obtain ⟨c, p, q1, hc, hp, hq1, hw⟩ := hdone i (by omega)
        refine ⟨c, p, q1, hc, hp, ?_, hw⟩
        simp only [getElem?_set_pointwise _ m i _ hmr, him, if_false]
        exact hq1


/-- Writing rows keeps the size of the buffer. -/
theorem rows_written_holds (capacity k : Nat) (fd : Nat → element → element)
    (fi : Nat → Int) (p q : parameter) (hw : rows_written k fd fi p q)
    (hp : holds capacity p) : holds capacity q := by
  obtain ⟨_, hd, hi, _, _⟩ := hw
  exact ⟨by rw [hd]; exact hp.1, by rw [hi]; exact hp.2⟩

/-- A written row, read back. -/
theorem rows_written_row (k : Nat) (fd : Nat → element → element) (fi : Nat → Int)
    (p q : parameter) (hw : rows_written k fd fi p q) (hp : holds k p) (j : Nat)
    (hj : j < k) :
    q.buffer.indicator[j]? = some (fi j) ∧ ∃ old, q.buffer.data[j]? = some (fd j old) := by
  obtain ⟨_, _, _, hd, hi⟩ := hw
  have h1 : j < p.buffer.data.length := Nat.lt_of_lt_of_le hj hp.1
  have h2 : j < p.buffer.indicator.length := Nat.lt_of_lt_of_le hj hp.2
  refine ⟨?_, p.buffer.data[j], ?_⟩
  · rw [hi j]
    simp [hj, List.getElem?_eq_getElem h2]
  · rw [hd j]
    simp [hj, List.getElem?_eq_getElem h1]

/-- Arrays that cover `b` rows cover fewer rows. -/
theorem covers_mono (c : parameter_converter) (a b : Nat) (hab : a ≤ b) (hc : covers c b) :
    covers c a :=
  ⟨Nat.le_trans hab hc.1, hc.2.imp id (Nat.le_trans hab)⟩

/-- A buffer that holds `b` rows holds fewer rows. -/
theorem holds_mono (a b : Nat) (p : parameter) (hab : a ≤ b) (hp : holds b p) : holds a p :=
  ⟨Nat.le_trans hab hp.1, Nat.le_trans hab hp.2⟩

/-- One slice: with arrays that cover the rows and buffers of the capacity, the inner loop
succeeds, records one `set_batch` per column and leaves the slice written. -/
theorem slice_spec (h : time_helpers) (cs : List parameter_converter) (start k capacity : Nat)
    (ps : bound_parameter_set) (hk : k ≤ capacity)
    (hlen : ps.parameters.length = cs.length)
    (hcov : ∀ c ∈ cs, covers c (start + k))
    (hhold : ∀ p ∈ ps.parameters, holds capacity p) :
    ∃ r, set_batch_all h cs cs.length start k ps = some r ∧
      r.buffered_sets = ps.buffered_sets ∧
      r.parameters.length = cs.length ∧
      (∀ p ∈ r.parameters, holds capacity p) ∧
      r.trace = ps.trace ++ (List.range cs.length).map (fun i => call.set_batch i start k) ∧
      slice_written h cs start k r.parameters := by
  obtain ⟨r, hr, hcap, hrlen, htrace, _, hdone⟩ :=
    set_batch_all_spec h cs cs.length start k ps (Nat.le_refl _) (by omega) hcov
      (fun p hp => holds_mono k capacity p hk (hhold p hp))
  refine ⟨r, hr, hcap, by omega, ?_, htrace, by omega, ?_⟩
  · intro q hq
    obtain ⟨i, hi, rfl⟩ := List.getElem_of_mem hq
    obtain ⟨c, p, q1, _, hp, hq1, hw⟩ := hdone i (by omega)
    rw [List.getElem?_eq_getElem hi] at hq1
    cases hq1
    exact rows_written_holds capacity k _ _ p _ hw (hhold p (List.getElem?_mem hp))
  · intro i c hc
    have hi : i < cs.length := by
      by_contra hge
      rw [List.getElem?_eq_none (Nat.le_of_not_lt hge)] at hc
      cases hc
    obtain ⟨c1, p, q, hc1, hp, hq, hw⟩ := hdone i hi
    rw [hc] at hc1
    cases hc1
    refine ⟨q, hq, fun j hj => ?_⟩
    exact rows_written_row k _ _ p q hw
      (holds_mono k capacity p hk (hhold p (List.getElem?_mem hp))) j hj

/-- Induction over the slices.  A property `P start evs` of the calls `evs` made from the
slice at `start` on holds of a run as soon as it holds of no calls once the rows are used
up, and passes from the calls after a slice to the calls from that slice on. -/
theorem slice_loop_returns (h : time_helpers) (cs : List parameter_converter)
    (total capacity : Nat) (hcov : ∀ c ∈ cs, covers c total)
    (P : Nat → List call → Prop)
    (hbase : ∀ start, total ≤ start → P start [])
    (hstep : ∀ start bound rest, start < total →
      slice_written h cs start (min capacity (total - start)) bound →
      P (start + capacity) rest →
      P start ((List.range cs.length).map
          (fun i => call.set_batch i start (min capacity (total - start))) ++
        call.execute_batch (min capacity (total - start)) bound :: rest))
    (fuel : Nat) :
    ∀ (start : Nat) (ps : bound_parameter_set), ps.buffered_sets = capacity →
      ps.parameters.length = cs.length → (∀ p ∈ ps.parameters, holds capacity p) →
      total ≤ start + fuel * capacity →
      ∃ r evs, slice_loop h cs cs.length total fuel start ps = outcome.returned r ∧
        r.trace = ps.trace ++ evs ∧ P start evs := by
  induction fuel with
  | zero =>
    intro start ps _ _ _ hfuel
    have hdone : ¬ start < total := by omega
    exact ⟨ps, [], by simp [slice_loop, hdone], by simp, hbase start (by omega)⟩
  | succ fuel ih =>
    intro start ps hps hlen hhold hfuel
    by_cases hlt : start < total
    · obtain ⟨r, hr, hrcap, hrlen, hrhold, hrtrace, hwritten⟩ :=
        slice_spec h cs start (min capacity (total - start)) capacity ps (Nat.min_le_left _ _)
          hlen (fun c hc => covers_mono c _ total (by omega) (hcov c hc)) hhold
      have hfuel1 : total ≤ start + capacity + fuel * capacity := by
        rw [Nat.succ_mul] at hfuel
        omega
      obtain ⟨r1, evs, hr1, htrace1, hP⟩ :=
        ih (start + capacity) (r.execute_batch (min capacity (total - start)))
          (by simp [bound_parameter_set.execute_batch, hrcap, hps])
          (by simp [bound_parameter_set.execute_batch, hrlen])
          (by simpa [bound_parameter_set.execute_batch] using hrhold) hfuel1
      refine ⟨r1, _, ?_, ?_, hstep start r.parameters evs hlt hwritten hP⟩
      · simp only [slice_loop, hlt, ↓reduceIte, hps, hr, hrcap]
        exact hr1
      · rw [htrace1]
        simp [bound_parameter_set.execute_batch, hrtrace]
    · exact ⟨ps, [], by simp [slice_loop, hlt], by simp, hbase start (by omega)⟩

/-- When `f` is defined on all of a list, the list of its values is indexed like the
list. -/
theorem filterMap_getElem? {α β : Type} (f : α → Option β) (l : List α)
    (hall : ∀ x ∈ l, ∃ y, f x = some y) (i : Nat) :
    (l.filterMap f)[i]? = (l[i]?).bind f := by
  induction l generalizing i with
  | nil => simp
  | cons x rest ih =>
    obtain ⟨y, hy⟩ := hall x (List.mem_cons_self x rest)
    have hrest : ∀ z ∈ rest, ∃ y, f z = some y :=
      fun z hz => hall z (List.mem_cons_of_mem x hz)
    rw [List.filterMap_cons_some hy]
    cases i with
    | zero => simp [hy]
    | succ i => simpa using ih hrest i

/-- When `f` is defined on all of a list, there are as many values as elements. -/
theorem filterMap_length {α β : Type} (f : α → Option β) (l : List α)
    (hall : ∀ x ∈ l, ∃ y, f x = some y) : (l.filterMap f).length = l.length := by
  induction l with
  | nil => rfl
  | cons x rest ih =>
    obtain ⟨y, hy⟩ := hall x (List.mem_cons_self x rest)
    rw [List.filterMap_cons_some hy, List.length_cons, List.length_cons,
      ih (fun z hz => hall z (List.mem_cons_of_mem x hz))]

/-- The converter of a column refers to the data array and the mask of the column. -/
theorem converter_of_arrays (col : column) (c : parameter_converter)
    (hc : converter_of col = some c) : c.data = col.data ∧ c.mask = col.mask := by
  unfold converter_of at hc
  split_ifs at hc <;> cases hc <;> exact ⟨rfl, rfl⟩

/-- A supported column has a converter. -/
theorem supported_converter (col : column) (hs : supported col.dtype) :
    ∃ c, converter_of col = some c :=
  Option.isSome_iff_exists.mp ((converter_of_isSome col).mpr hs)


/-- The converters of supported columns cover the rows that the columns cover. -/
theorem converters_cover (columns : List column) (total : Nat)
    (hcov : ∀ col ∈ columns, total ≤ col.data.length ∧
      (col.mask.length = 1 ∨ total ≤ col.mask.length)) :
    ∀ c ∈ columns.filterMap converter_of, covers c total := by
  intro c hc
  obtain ⟨col, hmem, hcol⟩ := List.mem_filterMap.mp hc
  obtain ⟨hd, hm⟩ := converter_of_arrays col c hcol
  unfold covers
  rw [hd, hm]
  exact hcov col hmem

/-- An accepted call on arrays that agree returns, given fuel for its slices.  Its calls are
one `rebind` per column, in column order, followed by the calls of the slices, of which
every property `P 0` holds that is preserved slice by slice. -/
theorem set_numpy_parameters_returns (h : time_helpers) (fuel : Nat)
    (ps : bound_parameter_set) (columns : List column) (front : column)
    (hcount : ps.number_of_parameters = columns.length)
    (hfront : columns.head? = some front)
    (hsup : ∀ col ∈ columns, supported col.dtype)
    (hcov : ∀ col ∈ columns, front.data.length ≤ col.data.length ∧
      (col.mask.length = 1 ∨ front.data.length ≤ col.mask.length))
    (hfuel : front.data.length ≤ fuel * ps.buffered_sets)
    (P : Nat → List call → Prop)
    (hbase : ∀ start, front.data.length ≤ start → P start [])
    (hstep : ∀ start bound rest, start < front.data.length →
      slice_written h (columns.filterMap converter_of) start
        (min ps.buffered_sets (front.data.length - start)) bound →
      P (start + ps.buffered_sets) rest →
      P start ((List.range columns.length).map
          (fun i => call.set_batch i start
            (min ps.buffered_sets (front.data.length - start))) ++
        call.execute_batch (min ps.buffered_sets (front.data.length - start)) bound :: rest)) :
    ∃ r inits evs, set_numpy_parameters h fuel ps columns = outcome.returned r ∧
      r.trace = ps.trace ++ (inits ++ evs) ∧ inits.length = columns.length ∧
      (∀ i col, columns[i]? = some col →
        ∃ c, converter_of col = some c ∧ inits[i]? = some (call.rebind i c.description)) ∧
      P 0 evs := by
  have hall : ∀ x ∈ columns, ∃ y, converter_of x = some y :=
    fun x hx => supported_converter x (hsup x hx)
  have hcslen := filterMap_length converter_of columns hall
  have hne : columns.length ≠ 0 := by
    cases columns with
    | nil => cases hfront
    | cons x rest => simp
  obtain ⟨r0, inits, hr0, hcap0, hlen0, htrace0, hil, hinits, hpt0⟩ :=
    initialize_all_spec (columns.filterMap converter_of) columns.length ps
      (by omega) (by unfold bound_parameter_set.number_of_parameters at hcount; omega)
  have hhold0 : ∀ p ∈ r0.parameters, holds ps.buffered_sets p := by
    intro p hp
    obtain ⟨i, hi, rfl⟩ := List.getElem_of_mem hp
    have hi1 : i < columns.length := by
      unfold bound_parameter_set.number_of_parameters at hcount
      omega
    have hpi := hpt0 i
    rw [List.getElem?_eq_getElem hi, if_pos hi1,
      List.getElem?_eq_getElem (by omega : i < (columns.filterMap converter_of).length)] at hpi
    simp only [Option.map_some', Option.some.injEq] at hpi
    rw [hpi]
    simp [holds, fresh_buffer]
  have hstep1 : ∀ start bound rest, start < front.data.length →
      slice_written h (columns.filterMap converter_of) start
        (min ps.buffered_sets (front.data.length - start)) bound →
      P (start + ps.buffered_sets) rest →
      P start ((List.range (columns.filterMap converter_of).length).map
          (fun i => call.set_batch i start
            (min ps.buffered_sets (front.data.length - start))) ++
        call.execute_batch (min ps.buffered_sets (front.data.length - start)) bound :: rest) := by
    rw [hcslen]
    exact hstep
  obtain ⟨r, evs, hr, htrace, hP⟩ :=
    slice_loop_returns h (columns.filterMap converter_of) front.data.length ps.buffered_sets
      (converters_cover columns _ hcov) P hbase hstep1 fuel 0 r0 hcap0
      (by unfold bound_parameter_set.number_of_parameters at hcount; omega) hhold0
      (by omega)
  refine ⟨r, inits, evs, ?_, ?_, hil, ?_, hP⟩
  · unfold set_numpy_parameters
    rw [hcslen] at hr
    simp only [hcount, ne_eq, not_true_eq_false, ↓reduceIte, hne, make_converters_ok columns hsup,
      hr0, hfront, hr]
  · rw [htrace, htrace0, List.append_assoc]
  · intro i col hcol
    obtain ⟨c, hc⟩ := hall col (List.getElem?_mem hcol)
    have hi : i < columns.length := by
      by_contra hge
      rw [List.getElem?_eq_none (Nat.le_of_not_lt hge)] at hcol
      cases hcol
    refine ⟨c, hc, ?_⟩
    rw [hinits i hi, filterMap_getElem? converter_of columns hall i, hcol]
    simp [hc]


/-! ## Traces and slice sizes -/

/-- The executions of two runs of calls, one after the other. -/
theorem executions_append (a b : List call) :
    executions (a ++ b) = executions a ++ executions b := by
  induction a with
  | nil => rfl
  | cons x rest ih =>
    cases x <;> simp [executions, ih]

/-- The `set_batch` calls of a slice hold no execution. -/
theorem executions_set_batch (n start k : Nat) :
    executions ((List.range n).map (fun i => call.set_batch i start k)) = [] := by
  induction n with
  | zero => rfl
  | succ n ih => simp [List.range_succ, executions_append, ih, executions]

/-- The calls of one slice contribute one execution. -/
theorem executions_slice (n start k : Nat) (bound : List parameter) (rest : List call) :
    executions ((List.range n).map (fun i => call.set_batch i start k) ++
      call.execute_batch k bound :: rest) = (k, bound) :: executions rest := by
  rw [executions_append, executions_set_batch]
  rfl

/-- A list of calls that are all rebinds holds no execution. -/
theorem executions_rebinds (inits : List call)
    (hinits : ∀ e ∈ inits, ∃ i d, e = call.rebind i d) : executions inits = [] := by
  induction inits with
  | nil => rfl
  | cons x rest ih =>
    obtain ⟨i, d, rfl⟩ := hinits x (List.mem_cons_self x rest)
    simp only [executions]
    exact ih (fun e he => hinits e (List.mem_cons_of_mem _ he))

/-- No rows, no slice. -/
theorem expected_sizes_zero (capacity : Nat) : expected_sizes 0 capacity = [] := by
  simp [expected_sizes]

/-- The first slice size and the sizes that follow it. -/
theorem expected_sizes_step (t capacity : Nat) (hcap : 0 < capacity) (ht : 0 < t) :
    expected_sizes t capacity = min capacity t :: expected_sizes (t - capacity) capacity := by
  by_cases hle : capacity ≤ t
  · unfold expected_sizes
    rw [Nat.div_eq_sub_div hcap hle, Nat.mod_eq_sub_mod hle, List.replicate_succ,
      Nat.min_eq_left hle]
    rfl
  · have hlt : t < capacity := Nat.lt_of_not_le hle
    have hsub : t - capacity = 0 := by omega
    rw [hsub, expected_sizes_zero]
    unfold expected_sizes
    rw [Nat.div_eq_of_lt hlt, Nat.mod_eq_of_lt hlt, Nat.min_eq_right (Nat.le_of_lt hlt)]
    have : t ≠ 0 := by omega
    simp [this]

/-- Every slice size is between 1 and the capacity. -/
theorem expected_sizes_bounds (t capacity : Nat) (hcap : 0 < capacity) :
    ∀ k ∈ expected_sizes t capacity, 1 ≤ k ∧ k ≤ capacity := by
  intro k hk
  unfold expected_sizes at hk
  rcases List.mem_append.mp hk with h1 | h2
  · obtain ⟨_, rfl⟩ := List.mem_replicate.mp h1
    exact ⟨hcap, Nat.le_refl _⟩
  · by_cases hz : t % capacity = 0
    · simp [hz] at h2
    · simp only [hz, if_false, List.mem_singleton] at h2
      subst h2
      exact ⟨Nat.pos_of_ne_zero hz, Nat.le_of_lt (Nat.mod_lt t hcap)⟩

/-- The slice sizes add up to the number of rows. -/
theorem expected_sizes_sum (t capacity : Nat) : (expected_sizes t capacity).sum = t := by
  unfold expected_sizes
  rw [List.sum_append, List.sum_replicate]
  by_cases hz : t % capacity = 0
  · simp only [hz, if_true, List.sum_nil, Nat.add_zero, smul_eq_mul]
    have := Nat.div_add_mod t capacity
    rw [hz, Nat.add_zero, Nat.mul_comm] at this
    exact this
  · simp only [hz, if_false, List.sum_cons, List.sum_nil, Nat.add_zero, smul_eq_mul]
    have := Nat.div_add_mod t capacity
    rw [Nat.mul_comm] at this
    exact this

/-- Every slice size but the last is the capacity. -/
theorem expected_sizes_full_before_last (t capacity : Nat) (i : Nat)
    (hi : i + 1 < (expected_sizes t capacity).length) :
    (expected_sizes t capacity)[i]? = some capacity := by
  unfold expected_sizes at hi ⊢
  have hlen : i < (List.replicate (t / capacity) capacity).length := by
    rw [List.length_append] at hi
    by_cases hz : t % capacity = 0
    · simp [hz] at hi ⊢
      omega
    · simp [hz] at hi ⊢
      omega
  rw [List.getElem?_append_left hlen, List.getElem?_eq_getElem hlen]
  simp

/-- The slice sizes of `2 * capacity + 1` rows. -/
theorem expected_sizes_two_and_one (capacity : Nat) (hcap : 0 < capacity) :
    expected_sizes (2 * capacity + 1) capacity = [capacity, capacity, 1] := by
  have hdiv : (2 * capacity + 1) / capacity = 1 / capacity + 2 := by
    rw [Nat.add_comm, Nat.mul_comm]
    exact Nat.add_mul_div_left 1 2 hcap
  have hmod : (2 * capacity + 1) % capacity = 1 % capacity := by
    rw [Nat.add_comm, Nat.mul_comm]
    exact Nat.add_mul_mod_self_left 1 capacity 2
  unfold expected_sizes
  rw [hdiv, hmod]
  by_cases h1 : capacity = 1
  · subst h1
    rfl
  · have h2 : 1 < capacity := by omega
    rw [Nat.div_eq_of_lt h2, Nat.mod_eq_of_lt h2]
    rfl


/-- The rows of one execution, when rows `0 .. k-1` of the column are known. -/
theorem submitted_rows_eq (c k : Nat) (bound : List parameter) (q : parameter)
    (g : Nat → element × Int) (hq : bound[c]? = some q)
    (hrows : ∀ j, j < k →
      q.buffer.data[j]? = some (g j).1 ∧ q.buffer.indicator[j]? = some (g j).2) :
    submitted_rows c (k, bound) = (List.range k).map g := by
  unfold submitted_rows
  simp only [hq]
  apply List.ext_getElem?
  intro j
  rw [List.getElem?_take, List.getElem?_map]
  by_cases hj : j < k
  · rw [if_pos hj, List.getElem?_range hj]
    exact List.getElem?_zip_eq_some.mpr (hrows j hj)
  · rw [if_neg hj, List.getElem?_eq_none (by simpa using hj)]
    rfl

/-- Rows counted from `start`. -/
theorem map_range_shift {α : Type} (g : Nat → α) (start k : Nat) :
    (List.range k).map (fun j => g (start + j)) = (List.range' start k).map g := by
  rw [List.range'_eq_map_range, List.map_map]
  rfl

/-- Rows `start .. total-1`, split into the slice at `start` and the rows after it. -/
theorem range'_slice (start total capacity : Nat) (hlt : start < total) :
    List.range' start (min capacity (total - start)) ++
      List.range' (start + capacity) (total - (start + capacity)) =
    List.range' start (total - start) := by
  by_cases hle : capacity ≤ total - start
  · rw [Nat.min_eq_left hle, List.range'_append_1]
    congr 1
    omega
  · have h0 : total - (start + capacity) = 0 := by omega
    rw [Nat.min_eq_right (by omega), h0]
    simp


/-- Columns that agree in length cover the rows of the first column. -/
theorem arrays_agree_covers (columns : List column) (total : Nat)
    (hagree : arrays_agree columns total) :
    ∀ col ∈ columns, total ≤ col.data.length ∧
      (col.mask.length = 1 ∨ total ≤ col.mask.length) := by
  intro col hcol
  obtain ⟨hd, hm⟩ := hagree col hcol
  exact ⟨by omega, hm.elim (fun e => Or.inr (by omega)) Or.inl⟩

/-- The calls of the initialisation are rebinds. -/
theorem inits_are_rebinds (columns : List column) (inits : List call)
    (hlen : inits.length = columns.length)
    (hinits : ∀ i col, columns[i]? = some col →
      ∃ c, converter_of col = some c ∧ inits[i]? = some (call.rebind i c.description)) :
    ∀ e ∈ inits, ∃ i d, e = call.rebind i d := by
  intro e he
  obtain ⟨i, hi, rfl⟩ := List.getElem_of_mem he
  have hic : i < columns.length := by omega
  obtain ⟨c, _, hc⟩ := hinits i columns[i] (List.getElem?_eq_getElem hic)
  rw [List.getElem?_eq_getElem hi] at hc
  exact ⟨i, c.description, Option.some.inj hc⟩



/-- The rebinds of two runs of calls, one after the other. -/
theorem rebinds_append (a b : List call) : rebinds (a ++ b) = rebinds a ++ rebinds b := by
  induction a with
  | nil => rfl
  | cons x rest ih =>
    cases x <;> simp [rebinds, ih]

/-- A list of calls without a rebind has no rebinds. -/
theorem rebinds_of_none (evs : List call) (hnone : ∀ e ∈ evs, ∀ i d, e ≠ call.rebind i d) :
    rebinds evs = [] := by
  induction evs with
  | nil => rfl
  | cons x rest ih =>
    have hrest := ih (fun e he => hnone e (List.mem_cons_of_mem _ he))
    cases x with
    | rebind i d => exact absurd rfl (hnone _ (List.mem_cons_self _ _) i d)
    | set_batch c s k => simpa [rebinds] using hrest
    | execute_batch k b => simpa [rebinds] using hrest

/-- A list of rebinds has as many rebinds as calls. -/
theorem rebinds_length_of_all (inits : List call)
    (hinits : ∀ e ∈ inits, ∃ i d, e = call.rebind i d) :
    (rebinds inits).length = inits.length := by
  induction inits with
  | nil => rfl
  | cons x rest ih =>
    obtain ⟨i, d, rfl⟩ := hinits x (List.mem_cons_self x rest)
    simp only [rebinds, List.length_cons]
    rw [ih (fun e he => hinits e (List.mem_cons_of_mem _ he))]

/-- The description of a column's converter, by type tag. -/
theorem converter_of_description (col : column) (c : parameter_converter)
    (hc : converter_of col = some c) :
    (col.dtype = "int64" → c.description = make_description type_code.integer 0) ∧
    (col.dtype = "float64" → c.description = make_description type_code.floating_point 0) ∧
    (col.dtype = "datetime64[us]" → c.description = make_description type_code.timestamp 0) ∧
    (col.dtype = "datetime64[D]" → c.description = make_description type_code.date 0) := by
  unfold converter_of at hc
  split_ifs at hc with h1 h2 h3 h4 <;> cases hc <;>
    refine ⟨fun e => ?_, fun e => ?_, fun e => ?_, fun e => ?_⟩ <;>
    first
      | rfl
      | (rw [e] at h1; exact absurd h1 (by decide))
      | (rw [e] at h2; exact absurd h2 (by decide))
      | (rw [e] at h3; exact absurd h3 (by decide))

/-! ## The rows submitted for a column of fixed width -/

/-- The run of an accepted call, seen from a column of fixed width: the rows it submits
for that column are the rows of the column, slice by slice. -/
theorem binary_column_run (h : time_helpers) (fuel : Nat) (ps : bound_parameter_set)
    (columns : List column) (front : column) (c : Nat) (col : column) (Value : value_type)
    (type : type_code)
    (hcap : 1 ≤ ps.buffered_sets)
    (hcount : ps.number_of_parameters = columns.length)
    (hfront : columns.head? = some front)
    (hsup : ∀ x ∈ columns, supported x.dtype)
    (hagree : arrays_agree columns front.data.length)
    (hfuel : front.data.length ≤ fuel * ps.buffered_sets)
    (hcol : columns[c]? = some col)
    (hcv : converter_of col =
      some (parameter_converter.binary_converter Value col.data col.mask type)) :
    ∃ r calls, set_numpy_parameters h fuel ps columns = outcome.returned r ∧
      r.trace = ps.trace ++ calls ∧
      ((executions calls).map (submitted_rows c)).flatten =
        (List.range front.data.length).map (fun j =>
          (element.value (col.data.getD j 0),
            if masked col.mask j = true then SQL_NULL_DATA else sizeof_Value Value)) ∧
      ∀ j, j < front.data.length →
        ∃ e, (executions calls)[j / ps.buffered_sets]? = some e ∧
          j % ps.buffered_sets < e.1 ∧
          (submitted_rows c e)[j % ps.buffered_sets]? =
            some (element.value (col.data.getD j 0),
              if masked col.mask j = true then SQL_NULL_DATA else sizeof_Value Value) := by
  have hall : ∀ x ∈ columns, ∃ y, converter_of x = some y :=
    fun x hx => supported_converter x (hsup x hx)
  have hcs : (columns.filterMap converter_of)[c]? =
      some (parameter_converter.binary_converter Value col.data col.mask type) := by
    rw [filterMap_getElem? converter_of columns hall c, hcol]
    exact hcv
  -- the rows of one slice
  have hslice : ∀ start k bound, slice_written h (columns.filterMap converter_of) start k bound →
      submitted_rows c (k, bound) = (List.range' start k).map (fun j =>
        (element.value (col.data.getD j 0),
          if masked col.mask j = true then SQL_NULL_DATA else sizeof_Value Value)) := by
    intro start k bound hw
    obtain ⟨q, hq, hrows⟩ := hw.2 c _ hcs
    rw [← map_range_shift]
    apply submitted_rows_eq c k bound q _ hq
    intro j hj
    obtain ⟨hind, old, hdata⟩ := hrows j hj
    exact ⟨hdata, hind⟩
  obtain ⟨r, inits, evs, hr, htrace, hil, hinits, hP1, hP2⟩ :=
    set_numpy_parameters_returns h fuel ps columns front hcount hfront hsup
      (arrays_agree_covers columns _ hagree) hfuel
      (fun start evs =>
        ((executions evs).map (submitted_rows c)).flatten =
          (List.range' start (front.data.length - start)).map (fun j =>
            (element.value (col.data.getD j 0),
              if masked col.mask j = true then SQL_NULL_DATA else sizeof_Value Value)) ∧
        ∀ j, start ≤ j → j < front.data.length →
          ∃ e, (executions evs)[(j - start) / ps.buffered_sets]? = some e ∧
            (j - start) % ps.buffered_sets < e.1 ∧
            (submitted_rows c e)[(j - start) % ps.buffered_sets]? =
              some (element.value (col.data.getD j 0),
                if masked col.mask j = true then SQL_NULL_DATA else sizeof_Value Value))
      (by
        intro start hstart
        have h0 : front.data.length - start = 0 := by omega
        refine ⟨by rw [h0]; rfl, fun j h1 h2 => ?_⟩
        omega)
      (by
        intro start bound rest hlt hw ⟨hrest1, hrest2⟩
        rw [executions_slice]
        refine ⟨?_, fun j h1 h2 => ?_⟩
        · rw [List.map_cons, List.flatten_cons, hrest1, hslice start _ bound hw,
            ← List.map_append, range'_slice start _ _ hlt]
        · by_cases hj : j < start + ps.buffered_sets
          · have hdiv : (j - start) / ps.buffered_sets = 0 := Nat.div_eq_of_lt (by omega)
            have hmod : (j - start) % ps.buffered_sets = j - start :=
              Nat.mod_eq_of_lt (by omega)
            have hjk : j - start < min ps.buffered_sets (front.data.length - start) := by
              rw [Nat.lt_min]
              omega
            refine ⟨(min ps.buffered_sets (front.data.length - start), bound),
              by rw [hdiv, List.getElem?_cons_zero], by rw [hmod]; exact hjk, ?_⟩
            rw [hmod, hslice start _ bound hw, List.getElem?_map,
              List.getElem?_range' start 1 hjk]
            simp only [Nat.one_mul, Option.map_some']
            have : start + (j - start) = j := by omega
            rw [this]
          · obtain ⟨e, he, hlt1, hrow⟩ := hrest2 j (by omega) h2
            have hdiv : (j - start) / ps.buffered_sets =
                (j - (start + ps.buffered_sets)) / ps.buffered_sets + 1 := by
              rw [Nat.div_eq_sub_div hcap (by omega), Nat.sub_add_eq]
            have hmod : (j - start) % ps.buffered_sets =
                (j - (start + ps.buffered_sets)) % ps.buffered_sets := by
              rw [Nat.mod_eq_sub_mod (by omega), Nat.sub_add_eq]
            refine ⟨e, ?_, by rw [hmod]; exact hlt1, by rw [hmod]; exact hrow⟩
            rw [hdiv, List.getElem?_cons_succ]
            exact he)
  have hnone : executions (inits ++ evs) = executions evs := by
    rw [executions_append, executions_rebinds inits (inits_are_rebinds columns inits hil hinits)]
    rfl
  refine ⟨r, inits ++ evs, hr, htrace, ?_, fun j hj => ?_⟩
  · rw [hnone, hP1, List.range_eq_range', Nat.sub_zero]
  · rw [hnone]
    simpa using hP2 j (Nat.zero_le j) hj


/-- The size of a value is not the NULL indicator. -/
theorem sizeof_Value_ne_null (Value : value_type) : sizeof_Value Value ≠ SQL_NULL_DATA := by
  cases Value <;> decide

/-- The rows of a column of fixed width, row by row. -/
theorem binary_column_rows (h : time_helpers) (fuel : Nat) (ps : bound_parameter_set)
    (columns : List column) (front : column) (c : Nat) (col : column) (Value : value_type)
    (type : type_code)
    (hcap : 1 ≤ ps.buffered_sets)
    (hcount : ps.number_of_parameters = columns.length)
    (hfront : columns.head? = some front)
    (hsup : ∀ x ∈ columns, supported x.dtype)
    (hagree : arrays_agree columns front.data.length)
    (hfuel : front.data.length ≤ fuel * ps.buffered_sets)
    (hcol : columns[c]? = some col)
    (hcv : converter_of col =
      some (parameter_converter.binary_converter Value col.data col.mask type)) :
    ∃ r calls, set_numpy_parameters h fuel ps columns = outcome.returned r ∧
      r.trace = ps.trace ++ calls ∧
      (((executions calls).map (submitted_rows c)).flatten).length = col.data.length ∧
      ∀ j, j < col.data.length → ∃ v d ind, col.data[j]? = some v ∧
        (((executions calls).map (submitted_rows c)).flatten)[j]? = some (d, ind) ∧
        (ind = SQL_NULL_DATA ↔ masked col.mask j = true) ∧
        (masked col.mask j = false → d = element.value v ∧ ind = sizeof_Value Value) ∧
        ∃ e, (executions calls)[j / ps.buffered_sets]? = some e ∧
          j % ps.buffered_sets < e.1 ∧
          (submitted_rows c e)[j % ps.buffered_sets]? = some (d, ind) := by
  obtain ⟨r, calls, hr, htrace, hrows, hbatch⟩ :=
    binary_column_run h fuel ps columns front c col Value type hcap hcount hfront hsup hagree
      hfuel hcol hcv
  have hn : col.data.length = front.data.length := (hagree col (List.getElem?_mem hcol)).1
  refine ⟨r, calls, hr, htrace, by rw [hrows, hn]; simp, fun j hj => ?_⟩
  have hjf : j < front.data.length := by omega
  refine ⟨col.data[j], element.value (col.data.getD j 0),
    if masked col.mask j = true then SQL_NULL_DATA else sizeof_Value Value,
    List.getElem?_eq_getElem hj, ?_, ?_, ?_, hbatch j hjf⟩
  · rw [hrows, List.getElem?_map, List.getElem?_range hjf]
    rfl
  · cases hm : masked col.mask j
    · simp [sizeof_Value_ne_null]
    · simp
  · intro hm
    refine ⟨?_, by simp [hm]⟩
    simp [List.getD, List.getElem?_eq_getElem hj]


/-- Under the single mask element `true` every stored indicator is NULL. -/
theorem stored_indicator_broadcast_null (c : parameter_converter) (j : Nat)
    (hmask : c.mask = [true]) : stored_indicator c j = SQL_NULL_DATA := by
  simp [stored_indicator, masked, hmask]


/-! ## The calls of a run, slice by slice -/

/-- The number of slices is the number of rows divided by the capacity, rounded up. -/
theorem expected_sizes_length (t capacity : Nat) (hcap : 0 < capacity) :
    (expected_sizes t capacity).length = (t + capacity - 1) / capacity := by
  have ht : capacity * (t / capacity) + t % capacity = t := Nat.div_add_mod t capacity
  have hr : t % capacity < capacity := Nat.mod_lt t hcap
  have hsucc : capacity * (t / capacity + 1) = capacity * (t / capacity) + capacity :=
    Nat.mul_succ _ _
  unfold expected_sizes
  rw [List.length_append, List.length_replicate]
  by_cases hz : t % capacity = 0
  · have hsum : t + capacity - 1 = (capacity - 1) + capacity * (t / capacity) := by omega
    have hsmall : (capacity - 1) / capacity = 0 := Nat.div_eq_of_lt (by omega)
    rw [hsum, Nat.add_mul_div_left _ _ hcap, hsmall]
    simp [hz]
  · have hsum : t + capacity - 1 = (t % capacity - 1) + capacity * (t / capacity + 1) := by
      omega
    have hsmall : (t % capacity - 1) / capacity = 0 := Nat.div_eq_of_lt (by omega)
    rw [hsum, Nat.add_mul_div_left _ _ hcap, hsmall]
    simp [hz]

/-- The executions of the calls of slices, one per slice. -/
theorem executions_slices (n : Nat) (slices : List (Nat × Nat × List parameter)) :
    executions ((slices.map (slice_calls n)).flatten) = slices.map (fun s => s.2) := by
  induction slices with
  | nil => rfl
  | cons s rest ih =>
    rw [List.map_cons, List.flatten_cons, executions_append, ih]
    unfold slice_calls
    rw [executions_append, executions_set_batch]
    rfl

/-- A stored indicator is the NULL indicator exactly for a masked row. -/
theorem stored_indicator_null_iff (c : parameter_converter) (j : Nat) :
    stored_indicator c j = SQL_NULL_DATA ↔ masked c.mask j = true := by
  unfold stored_indicator
  cases hm : masked c.mask j
  · cases c with
    | binary_converter Value data mask type => simp [sizeof_Value_ne_null]
    | timestamp_converter data mask => simp; decide
    | date_converter data mask => simp; decide
  · simp

/-- The calls of an accepted call, slice by slice: after the rebinds come the calls of the
slices, whose starts are the multiples of the capacity, whose row counts are the expected
sizes, and whose bound parameters hold the rows of every column. -/
theorem set_numpy_parameters_slices (h : time_helpers) (fuel : Nat)
    (ps : bound_parameter_set) (columns : List column) (front : column)
    (hcap : 1 ≤ ps.buffered_sets)
    (hcount : ps.number_of_parameters = columns.length)
    (hfront : columns.head? = some front)
    (hsup : ∀ x ∈ columns, supported x.dtype)
    (hagree : arrays_agree columns front.data.length)
    (hfuel : front.data.length ≤ fuel * ps.buffered_sets) :
    ∃ (r : bound_parameter_set) (inits : List call)
      (slices : List (Nat × Nat × List parameter)),
      set_numpy_parameters h fuel ps columns = outcome.returned r ∧
      r.trace = ps.trace ++ (inits ++ (slices.map (slice_calls columns.length)).flatten) ∧
      (∀ e ∈ inits, ∃ i d, e = call.rebind i d) ∧
      slices.map (fun s => s.2.1) = expected_sizes front.data.length ps.buffered_sets ∧
      (∀ (m : Nat) (s : Nat × Nat × List parameter), slices[m]? = some s →
        s.1 = m * ps.buffered_sets) ∧
      ∀ s ∈ slices, s.1 < front.data.length ∧
        s.2.1 = min ps.buffered_sets (front.data.length - s.1) ∧
        slice_written h (columns.filterMap converter_of) s.1 s.2.1 s.2.2 := by
  obtain ⟨r, inits, evs, hr, htrace, hil, hinits, slices, hevs, hsizes, hstarts, hslices⟩ :=
    set_numpy_parameters_returns h fuel ps columns front hcount hfront hsup
      (arrays_agree_covers columns _ hagree) hfuel
      (fun start evs => ∃ slices : List (Nat × Nat × List parameter),
        evs = (slices.map (slice_calls columns.length)).flatten ∧
        slices.map (fun s => s.2.1) =
          expected_sizes (front.data.length - start) ps.buffered_sets ∧
        (∀ (m : Nat) (s : Nat × Nat × List parameter), slices[m]? = some s →
          s.1 = start + m * ps.buffered_sets) ∧
        ∀ s ∈ slices, s.1 < front.data.length ∧
          s.2.1 = min ps.buffered_sets (front.data.length - s.1) ∧
          slice_written h (columns.filterMap converter_of) s.1 s.2.1 s.2.2)
      (by
        intro start hstart
        have h0 : front.data.length - start = 0 := by omega
        refine ⟨[], rfl, by rw [h0, expected_sizes_zero]; rfl, fun m s hs => ?_,
          fun s hs => ?_⟩
        · cases hs
        · cases hs)
      (by
        intro start bound rest hlt hw ⟨slices, hrest, hsizes, hstarts, hslices⟩
        refine ⟨(start, min ps.buffered_sets (front.data.length - start), bound) :: slices,
          ?_, ?_, fun m s hs => ?_, fun s hs => ?_⟩
        · rw [List.map_cons, List.flatten_cons, ← hrest]
          simp [slice_calls]
        · rw [List.map_cons, hsizes,
            expected_sizes_step (front.data.length - start) ps.buffered_sets hcap (by omega),
            Nat.sub_add_eq]
        · cases m with
          | zero =>
            rw [List.getElem?_cons_zero] at hs
            cases hs
            simp
          | succ m =>
            rw [List.getElem?_cons_succ] at hs
            rw [hstarts m s hs, Nat.succ_mul]
            omega
        · rcases List.mem_cons.mp hs with rfl | hin
          · exact ⟨hlt, rfl, hw⟩
          · exact hslices s hin)
  refine ⟨r, inits, slices, hr, by rw [htrace, hevs],
    inits_are_rebinds columns inits hil hinits, by simpa using hsizes,
    fun m s hs => by simpa using hstarts m s hs, hslices⟩

/-- Fuel for the slices, counted in slices. -/
theorem ceil_le_iff (total capacity fuel : Nat) (hcap : 0 < capacity) :
    (total + capacity - 1) / capacity ≤ fuel ↔ total ≤ fuel * capacity := by
  rw [← Nat.lt_succ_iff, Nat.div_lt_iff_lt_mul hcap, Nat.succ_mul]
  omega

/-- An accepted call reaches the slice loop after the rebinds, with buffers of the
capacity. -/
theorem set_numpy_parameters_enters_loop (h : time_helpers) (fuel : Nat)
    (ps : bound_parameter_set) (columns : List column) (front : column)
    (hcount : ps.number_of_parameters = columns.length)
    (hfront : columns.head? = some front)
    (hsup : ∀ col ∈ columns, supported col.dtype) :
    ∃ r0 inits, set_numpy_parameters h fuel ps columns =
        slice_loop h (columns.filterMap converter_of)
          (columns.filterMap converter_of).length front.data.length fuel 0 r0 ∧
      r0.buffered_sets = ps.buffered_sets ∧
      r0.parameters.length = (columns.filterMap converter_of).length ∧
      (∀ p ∈ r0.parameters, holds ps.buffered_sets p) ∧
      r0.trace = ps.trace ++ inits ∧
      (∀ e ∈ inits, ∃ i d, e = call.rebind i d) ∧
      (columns.filterMap converter_of).length = columns.length := by
  have hall : ∀ x ∈ columns, ∃ y, converter_of x = some y :=
    fun x hx => supported_converter x (hsup x hx)
  have hcslen := filterMap_length converter_of columns hall
  have hne : columns.length ≠ 0 := by
    cases columns with
    | nil => cases hfront
    | cons x rest => simp
  have hpl : ps.parameters.length = columns.length := hcount
  obtain ⟨r0, inits, hr0, hcap0, hlen0, htrace0, hil, hinits, hpt0⟩ :=
    initialize_all_spec (columns.filterMap converter_of) columns.length ps
      (by omega) (by omega)
  refine ⟨r0, inits, ?_, hcap0, by omega, ?_, htrace0, ?_, hcslen⟩
  · unfold set_numpy_parameters
    simp only [hcount, ne_eq, not_true_eq_false, ↓reduceIte, hne,
      make_converters_ok columns hsup, hr0, hfront, hcslen]
  · intro p hp
    obtain ⟨i, hi, rfl⟩ := List.getElem_of_mem hp
    have hi1 : i < columns.length := by omega
    have hpi := hpt0 i
    rw [List.getElem?_eq_getElem hi, if_pos hi1,
      List.getElem?_eq_getElem (by omega : i < (columns.filterMap converter_of).length)] at hpi
    simp only [Option.map_some', Option.some.injEq] at hpi
    rw [hpi]
    simp [holds, fresh_buffer]
  · intro e he
    obtain ⟨i, hi, rfl⟩ := List.getElem_of_mem he
    have hic : i < (columns.filterMap converter_of).length := by omega
    have := hinits i (by omega)
    rw [List.getElem?_eq_getElem hi, List.getElem?_eq_getElem hic] at this
    exact ⟨i, _, Option.some.inj this⟩

/-- Induction over the slices of a run that exhausts its fuel.  A property
`P fuel start evs` of the calls `evs` made in `fuel` iterations from the slice at `start` on
holds of such a run as soon as it holds of no calls in no iterations, and passes from the
calls after a slice to the calls from that slice on. -/
theorem slice_loop_out_of_fuel (h : time_helpers) (cs : List parameter_converter)
    (total capacity : Nat)
    (P : Nat → Nat → List call → Prop)
    (hbase : ∀ start, P 0 start [])
    (hstep : ∀ fuel start bound rest, start < total →
      slice_written h cs start (min capacity (total - start)) bound →
      P fuel (start + capacity) rest →
      P (fuel + 1) start ((List.range cs.length).map
          (fun i => call.set_batch i start (min capacity (total - start))) ++
        call.execute_batch (min capacity (total - start)) bound :: rest))
    (fuel : Nat) :
    ∀ (start : Nat) (ps : bound_parameter_set), ps.buffered_sets = capacity →
      ps.parameters.length = cs.length → (∀ p ∈ ps.parameters, holds capacity p) →
      (∀ c ∈ cs, covers c (start + fuel * capacity)) →
      start + fuel * capacity < total →
      ∃ r evs, slice_loop h cs cs.length total fuel start ps = outcome.out_of_fuel r ∧
        r.trace = ps.trace ++ evs ∧ P fuel start evs := by
  induction fuel with
  | zero =>
    intro start ps _ _ _ _ hlt
    have hlt1 : start < total := by omega
    exact ⟨ps, [], by simp [slice_loop, hlt1], by simp, hbase start⟩
  | succ fuel ih =>
    intro start ps hps hlen hhold hcov hlt
    rw [Nat.succ_mul] at hlt hcov
    have hlt1 : start < total := by omega
    obtain ⟨r, hr, hrcap, hrlen, hrhold, hrtrace, hwritten⟩ :=
      slice_spec h cs start (min capacity (total - start)) capacity ps (Nat.min_le_left _ _)
        hlen (fun c hc => covers_mono c _ _
          (by have := Nat.min_le_left capacity (total - start); omega) (hcov c hc)) hhold
    obtain ⟨r1, evs, hr1, htrace1, hP⟩ :=
      ih (start + capacity) (r.execute_batch (min capacity (total - start)))
        (by simp [bound_parameter_set.execute_batch, hrcap, hps])
        (by simp [bound_parameter_set.execute_batch, hrlen])
        (by simpa [bound_parameter_set.execute_batch] using hrhold)
        (fun c hc => covers_mono c _ _ (by omega) (hcov c hc)) (by omega)
    refine ⟨r1, _, ?_, ?_, hstep fuel start r.parameters evs hlt1 hwritten hP⟩
    · simp only [slice_loop, hlt1, ↓reduceIte, hps, hr, hrcap]
      exact hr1
    · rw [htrace1]
      simp [bound_parameter_set.execute_batch, hrtrace]

/-- Every converter covers no rows. -/
theorem covers_zero (c : parameter_converter) : covers c 0 :=
  ⟨Nat.zero_le _, Or.inr (Nat.zero_le _)⟩


/-- A run that exhausts its fuel has made the rebinds and then one slice per unit of fuel,
the slices starting at the multiples of the capacity. -/
theorem set_numpy_parameters_out_of_fuel (h : time_helpers) (fuel : Nat)
    (ps : bound_parameter_set) (columns : List column) (front : column)
    (hcount : ps.number_of_parameters = columns.length)
    (hfront : columns.head? = some front)
    (hsup : ∀ col ∈ columns, supported col.dtype)
    (hcov : ∀ c ∈ columns.filterMap converter_of, covers c (fuel * ps.buffered_sets))
    (hfuel : fuel * ps.buffered_sets < front.data.length) :
    ∃ (r : bound_parameter_set) (inits : List call)
      (slices : List (Nat × Nat × List parameter)),
      set_numpy_parameters h fuel ps columns = outcome.out_of_fuel r ∧
      r.trace = ps.trace ++ (inits ++ (slices.map (slice_calls columns.length)).flatten) ∧
      (∀ e ∈ inits, ∃ i d, e = call.rebind i d) ∧
      slices.length = fuel ∧
      ∀ (m : Nat) (s : Nat × Nat × List parameter), slices[m]? = some s →
        s.1 = m * ps.buffered_sets ∧
        s.2.1 = min ps.buffered_sets (front.data.length - s.1) := by
  obtain ⟨r0, inits, hrun, hcap0, hlen0, hhold0, htrace0, hinits, hcslen⟩ :=
    set_numpy_parameters_enters_loop h fuel ps columns front hcount hfront hsup
  obtain ⟨r, evs, hr, htrace, slices, hevs, hlen, hslices⟩ :=
    slice_loop_out_of_fuel h (columns.filterMap converter_of) front.data.length
      ps.buffered_sets
      (fun fuel start evs => ∃ slices : List (Nat × Nat × List parameter),
        evs = (slices.map (slice_calls columns.length)).flatten ∧
        slices.length = fuel ∧
        ∀ (m : Nat) (s : Nat × Nat × List parameter), slices[m]? = some s →
          s.1 = start + m * ps.buffered_sets ∧
          s.2.1 = min ps.buffered_sets (front.data.length - s.1))
      (fun start => ⟨[], rfl, rfl, fun m s hs => by cases hs⟩)
      (by
        intro fuel start bound rest hlt _ ⟨slices, hrest, hlen, hslices⟩
        refine ⟨(start, min ps.buffered_sets (front.data.length - start), bound) :: slices,
          ?_, by simp [hlen], fun m s hs => ?_⟩
        · rw [List.map_cons, List.flatten_cons, ← hrest, hcslen]
          simp [slice_calls]
        · cases m with
          | zero =>
            rw [List.getElem?_cons_zero] at hs
            cases hs
            simp
          | succ m =>
            rw [List.getElem?_cons_succ] at hs
            obtain ⟨h1, h2⟩ := hslices m s hs
            refine ⟨?_, h2⟩
            rw [h1, Nat.succ_mul]
            omega)
      fuel 0 r0 hcap0 hlen0 hhold0 (by simpa using hcov) (by simpa using hfuel)
  refine ⟨r, inits, slices, by rw [hrun, hr], by rw [htrace, htrace0, hevs, List.append_assoc],
    hinits, hlen, fun m s hs => by simpa using hslices m s hs⟩

/-! ## The claims -/

/-- C1. Column path round trip: an accepted call with capacity at least 1 on columns that
agree in length returns (given fuel for its slices), and for an `int64` or `float64`
column `c` the buffer rows `0 .. k-1` of the executions `execute_batch(k)`, taken as they
are at the time of each call and concatenated in call order, are as many as the column has
rows; the row for input row `j` has the NULL indicator iff row `j` is masked, and otherwise
carries the value `data[j]` with the indicator `sizeof(Value)`; and it is row
`j % capacity` of execution `j / capacity`. -/
theorem column_path_round_trip (h : time_helpers) (fuel : Nat) (ps : bound_parameter_set)
    (columns : List column) (front : column) (c : Nat) (col : column)
    (hcap : 1 ≤ ps.buffered_sets)
    (hcount : ps.number_of_parameters = columns.length)
    (hfront : columns.head? = some front)
    (hsup : ∀ x ∈ columns, supported x.dtype)
    (hagree : arrays_agree columns front.data.length)
    (hfuel : front.data.length ≤ fuel * ps.buffered_sets)
    (hcol : columns[c]? = some col)
    (hdtype : col.dtype = "int64" ∨ col.dtype = "float64") :
    ∃ r calls, set_numpy_parameters h fuel ps columns = outcome.returned r ∧
      r.trace = ps.trace ++ calls ∧
      (((executions calls).map (submitted_rows c)).flatten).length = col.data.length ∧
      ∀ j, j < col.data.length → ∃ v d ind, col.data[j]? = some v ∧
        (((executions calls).map (submitted_rows c)).flatten)[j]? = some (d, ind) ∧
        (ind = SQL_NULL_DATA ↔ masked col.mask j = true) ∧
        (masked col.mask j = false → d = element.value v ∧
          (col.dtype = "int64" → ind = sizeof_Value value_type.int64_t) ∧
          (col.dtype = "float64" → ind = sizeof_Value value_type.double)) ∧
        ∃ e, (executions calls)[j / ps.buffered_sets]? = some e ∧
          j % ps.buffered_sets < e.1 ∧
          (submitted_rows c e)[j % ps.buffered_sets]? = some (d, ind) := by
  rcases hdtype with hint | hfloat
  · obtain ⟨r, calls, hr, htrace, hlen, hrows⟩ :=
      binary_column_rows h fuel ps columns front c col value_type.int64_t type_code.integer
        hcap hcount hfront hsup hagree hfuel hcol (by simp [converter_of, hint])
    refine ⟨r, calls, hr, htrace, hlen, fun j hj => ?_⟩
    obtain ⟨v, d, ind, hv, hrow, hnull, hvalue, hbatch⟩ := hrows j hj
    exact ⟨v, d, ind, hv, hrow, hnull,
      fun hm => ⟨(hvalue hm).1, fun _ => (hvalue hm).2, fun _ => (hvalue hm).2⟩, hbatch⟩
  · obtain ⟨r, calls, hr, htrace, hlen, hrows⟩ :=
      binary_column_rows h fuel ps columns front c col value_type.double
        type_code.floating_point hcap hcount hfront hsup hagree hfuel hcol
        (by simp [converter_of, hfloat])
    refine ⟨r, calls, hr, htrace, hlen, fun j hj => ?_⟩
    obtain ⟨v, d, ind, hv, hrow, hnull, hvalue, hbatch⟩ := hrows j hj
    exact ⟨v, d, ind, hv, hrow, hnull,
      fun hm => ⟨(hvalue hm).1, fun _ => (hvalue hm).2, fun _ => (hvalue hm).2⟩, hbatch⟩

/-- The round trip of C1 on the example: two columns of five rows, capacity 2. -/
theorem column_path_round_trip_witness :
    ∃ r calls, set_numpy_parameters example_helpers 3 example_parameters example_columns =
        outcome.returned r ∧
      r.trace = example_parameters.trace ++ calls ∧
      (((executions calls).map (submitted_rows 0)).flatten).length =
        example_front.data.length ∧
      ∀ j, j < example_front.data.length → ∃ v d ind, example_front.data[j]? = some v ∧
        (((executions calls).map (submitted_rows 0)).flatten)[j]? = some (d, ind) ∧
        (ind = SQL_NULL_DATA ↔ masked example_front.mask j = true) ∧
        (masked example_front.mask j = false → d = element.value v ∧
          (example_front.dtype = "int64" → ind = sizeof_Value value_type.int64_t) ∧
          (example_front.dtype = "float64" → ind = sizeof_Value value_type.double)) ∧
        ∃ e, (executions calls)[j / example_parameters.buffered_sets]? = some e ∧
          j % example_parameters.buffered_sets < e.1 ∧
          (submitted_rows 0 e)[j % example_parameters.buffered_sets]? = some (d, ind) :=
  column_path_round_trip example_helpers 3 example_parameters example_columns example_front 0
    example_front (by decide) (by decide) (by decide) (by decide) (by decide) (by decide)
    (by decide) (by decide)

/-- C2. Column path slice sizes: an accepted call with capacity at least 1 on columns that
agree in length returns (given fuel for its slices), and the row counts it passes to
`execute_batch` are the capacity repeated `total_rows / capacity` times, followed by
`total_rows % capacity` when that is not zero.  Hence every count is between 1 and the
capacity, every count but the last is the capacity, the counts sum to `total_rows`, no rows
give no execution, and `2 * capacity + 1` rows give the counts capacity, capacity, 1. -/
theorem column_path_slice_sizes (h : time_helpers) (fuel : Nat) (ps : bound_parameter_set)
    (columns : List column) (front : column)
    (hcap : 1 ≤ ps.buffered_sets)
    (hcount : ps.number_of_parameters = columns.length)
    (hfront : columns.head? = some front)
    (hsup : ∀ col ∈ columns, supported col.dtype)
    (hagree : arrays_agree columns front.data.length)
    (hfuel : front.data.length ≤ fuel * ps.buffered_sets) :
    ∃ r calls, set_numpy_parameters h fuel ps columns = outcome.returned r ∧
      r.trace = ps.trace ++ calls ∧
      (executions calls).map Prod.fst = expected_sizes front.data.length ps.buffered_sets ∧
      (∀ k ∈ (executions calls).map Prod.fst, 1 ≤ k ∧ k ≤ ps.buffered_sets) ∧
      (∀ i, i + 1 < ((executions calls).map Prod.fst).length →
        ((executions calls).map Prod.fst)[i]? = some ps.buffered_sets) ∧
      ((executions calls).map Prod.fst).sum = front.data.length ∧
      (front.data.length = 0 → executions calls = []) ∧
      (front.data.length = 2 * ps.buffered_sets + 1 →
        (executions calls).map Prod.fst = [ps.buffered_sets, ps.buffered_sets, 1]) := by
  obtain ⟨r, inits, evs, hr, htrace, hil, hinits, hP⟩ :=
    set_numpy_parameters_returns h fuel ps columns front hcount hfront hsup
      (arrays_agree_covers columns _ hagree) hfuel
      (fun start evs => (executions evs).map Prod.fst =
        expected_sizes (front.data.length - start) ps.buffered_sets)
      (by
        intro start hstart
        have : front.data.length - start = 0 := by omega
        rw [this, expected_sizes_zero]
        rfl)
      (by
        intro start bound rest hlt _ hrest
        rw [executions_slice, List.map_cons, hrest,
          expected_sizes_step (front.data.length - start) ps.buffered_sets hcap (by omega),
          Nat.sub_add_eq])
  have hsizes : (executions (inits ++ evs)).map Prod.fst =
      expected_sizes front.data.length ps.buffered_sets := by
    rw [executions_append, executions_rebinds inits (inits_are_rebinds columns inits hil hinits)]
    simpa using hP
  refine ⟨r, inits ++ evs, hr, htrace, hsizes, ?_, ?_, ?_, ?_, ?_⟩
  · rw [hsizes]
    exact expected_sizes_bounds _ _ hcap
  · rw [hsizes]
    exact expected_sizes_full_before_last _ _
  · rw [hsizes]
    exact expected_sizes_sum _ _
  · intro hzero
    have := hsizes
    rw [hzero, expected_sizes_zero] at this
    exact List.map_eq_nil_iff.mp this
  · intro htwo
    rw [hsizes, htwo]
    exact expected_sizes_two_and_one _ hcap

/-- The slice sizes of C2 on the example: five rows, capacity 2. -/
theorem column_path_slice_sizes_witness :
    ∃ r calls, set_numpy_parameters example_helpers 3 example_parameters example_columns =
        outcome.returned r ∧
      r.trace = example_parameters.trace ++ calls ∧
      (executions calls).map Prod.fst =
        expected_sizes example_front.data.length example_parameters.buffered_sets ∧
      (∀ k ∈ (executions calls).map Prod.fst, 1 ≤ k ∧ k ≤ example_parameters.buffered_sets) ∧
      (∀ i, i + 1 < ((executions calls).map Prod.fst).length →
        ((executions calls).map Prod.fst)[i]? = some example_parameters.buffered_sets) ∧
      ((executions calls).map Prod.fst).sum = example_front.data.length ∧
      (example_front.data.length = 0 → executions calls = []) ∧
      (example_front.data.length = 2 * example_parameters.buffered_sets + 1 →
        (executions calls).map Prod.fst =
          [example_parameters.buffered_sets, example_parameters.buffered_sets, 1]) :=
  column_path_slice_sizes example_helpers 3 example_parameters example_columns example_front
    (by decide) (by decide) (by decide) (by decide) (by decide) (by decide)

/-- C3. Broadcast null mask: in an accepted call with capacity at least 1 on columns that
agree in length, a column of any of the three strategies whose mask is the single element
`true` has the NULL indicator in every buffer row `0 .. k-1` at the time of every
`execute_batch(k)`; the executions together submit all rows of the column. -/
theorem broadcast_null_mask (h : time_helpers) (fuel : Nat) (ps : bound_parameter_set)
    (columns : List column) (front : column) (c : Nat) (col : column)
    (hcap : 1 ≤ ps.buffered_sets)
    (hcount : ps.number_of_parameters = columns.length)
    (hfront : columns.head? = some front)
    (hsup : ∀ x ∈ columns, supported x.dtype)
    (hagree : arrays_agree columns front.data.length)
    (hfuel : front.data.length ≤ fuel * ps.buffered_sets)
    (hcol : columns[c]? = some col)
    (hmask : col.mask = [true]) :
    ∃ r calls, set_numpy_parameters h fuel ps columns = outcome.returned r ∧
      r.trace = ps.trace ++ calls ∧
      (∀ e ∈ executions calls, ∃ p, e.2[c]? = some p ∧
        ∀ i, i < e.1 → p.buffer.indicator[i]? = some SQL_NULL_DATA) ∧
      ((executions calls).map Prod.fst).sum = col.data.length := by
  have hall : ∀ x ∈ columns, ∃ y, converter_of x = some y :=
    fun x hx => supported_converter x (hsup x hx)
  obtain ⟨cv, hcv⟩ := hall col (List.getElem?_mem hcol)
  have hcs : (columns.filterMap converter_of)[c]? = some cv := by
    rw [filterMap_getElem? converter_of columns hall c, hcol]
    exact hcv
  have hcvmask : cv.mask = [true] := by
    rw [(converter_of_arrays col cv hcv).2, hmask]
  obtain ⟨r, inits, evs, hr, htrace, hil, hinits, hP1, hP2⟩ :=
    set_numpy_parameters_returns h fuel ps columns front hcount hfront hsup
      (arrays_agree_covers columns _ hagree) hfuel
      (fun start evs =>
        (∀ e ∈ executions evs, ∃ p, e.2[c]? = some p ∧
          ∀ i, i < e.1 → p.buffer.indicator[i]? = some SQL_NULL_DATA) ∧
        (executions evs).map Prod.fst =
          expected_sizes (front.data.length - start) ps.buffered_sets)
      (by
        intro start hstart
        have h0 : front.data.length - start = 0 := by omega
        refine ⟨fun e he => ?_, by rw [h0, expected_sizes_zero]; rfl⟩
        cases he)
      (by
        intro start bound rest hlt hw ⟨hrest1, hrest2⟩
        rw [executions_slice]
        refine ⟨fun e he => ?_, ?_⟩
        · rcases List.mem_cons.mp he with rfl | hin
          · obtain ⟨q, hq, hrows⟩ := hw.2 c cv hcs
            refine ⟨q, hq, fun i hi => ?_⟩
            rw [(hrows i hi).1, stored_indicator_broadcast_null cv _ hcvmask]
          · exact hrest1 e hin
        · rw [List.map_cons, hrest2,
            expected_sizes_step (front.data.length - start) ps.buffered_sets hcap (by omega),
            Nat.sub_add_eq])
  have hnone : executions (inits ++ evs) = executions evs := by
    rw [executions_append, executions_rebinds inits (inits_are_rebinds columns inits hil hinits)]
    rfl
  refine ⟨r, inits ++ evs, hr, htrace, by rw [hnone]; exact hP1, ?_⟩
  rw [hnone, hP2, Nat.sub_zero, expected_sizes_sum, (hagree col (List.getElem?_mem hcol)).1]

/-- The broadcast mask of C3 on the timestamp column of the example. -/
theorem broadcast_null_mask_witness :
    ∃ r calls, set_numpy_parameters example_helpers 3 example_parameters example_columns =
        outcome.returned r ∧
      r.trace = example_parameters.trace ++ calls ∧
      (∀ e ∈ executions calls, ∃ p, e.2[1]? = some p ∧
        ∀ i, i < e.1 → p.buffer.indicator[i]? = some SQL_NULL_DATA) ∧
      ((executions calls).map Prod.fst).sum = [(1 : Int), 2, 3, 4, 5].length :=
  broadcast_null_mask example_helpers 3 example_parameters example_columns example_front 1
    { data := [1, 2, 3, 4, 5], mask := [true], dtype := "datetime64[us]" }
    (by decide) (by decide) (by decide) (by decide) (by decide) (by decide) (by decide) rfl

/-- C4. Full-length null mask: for each of the three converters, a `set_batch` within the
bounds of its arrays and of the buffer, with a mask whose length is not 1, succeeds and
sets for every `i < elements` the indicator of buffer row `i` to the NULL value iff
`mask[start + i]` is true, and otherwise to the element size of the column type; the
indicators from `elements` on are left as they were. -/
theorem full_length_mask_indicators (h : time_helpers) (Value : value_type)
    (data : List Int) (mask : List Bool) (p : parameter) (start elements : Nat)
    (hm : mask.length ≠ 1)
    (hdata : start + elements ≤ data.length)
    (hmask : start + elements ≤ mask.length)
    (hbd : elements ≤ p.buffer.data.length)
    (hbi : elements ≤ p.buffer.indicator.length) :
    (∃ r, binary_converter.set_batch Value data mask p start elements = some r ∧
      indicators_from_mask (sizeof_Value Value) mask start elements p r) ∧
    (∃ r, timestamp_converter.set_batch h data mask p start elements = some r ∧
      indicators_from_mask sizeof_SQL_TIMESTAMP_STRUCT mask start elements p r) ∧
    (∃ r, date_converter.set_batch h data mask p start elements = some r ∧
      indicators_from_mask sizeof_SQL_DATE_STRUCT mask start elements p r) := by
  refine ⟨?_, ?_, ?_⟩
  · obtain ⟨r, hr, hw⟩ :=
      binary_set_batch_rows Value data mask p start elements hdata (Or.inr hmask) hbd hbi
    exact ⟨r, hr, indicators_of_rows_written _ (sizeof_Value_ne_null Value) mask start
      elements _ p r hm hmask hbi hw⟩
  · obtain ⟨r, hr, hw⟩ :=
      converting_set_batch_rows (fun v => element.timestamp (h.microseconds_to_timestamp v))
        sizeof_SQL_TIMESTAMP_STRUCT data mask p start elements hdata (Or.inr hmask) hbd hbi
    exact ⟨r, hr, indicators_of_rows_written _ (by decide) mask start elements _ p r hm hmask
      hbi hw⟩
  · obtain ⟨r, hr, hw⟩ :=
      converting_set_batch_rows (fun v => element.date (h.days_to_date v))
        sizeof_SQL_DATE_STRUCT data mask p start elements hdata (Or.inr hmask) hbd hbi
    exact ⟨r, hr, indicators_of_rows_written _ (by decide) mask start elements _ p r hm hmask
      hbi hw⟩

/-- The indicators of C4 on a slice of two rows that starts at source row 1. -/
theorem full_length_mask_indicators_witness :
    (∃ r, binary_converter.set_batch value_type.int64_t [10, 20, 30, 40]
        [true, false, true, false] example_parameter 1 2 = some r ∧
      indicators_from_mask (sizeof_Value value_type.int64_t) [true, false, true, false] 1 2
        example_parameter r) ∧
    (∃ r, timestamp_converter.set_batch example_helpers [10, 20, 30, 40]
        [true, false, true, false] example_parameter 1 2 = some r ∧
      indicators_from_mask sizeof_SQL_TIMESTAMP_STRUCT [true, false, true, false] 1 2
        example_parameter r) ∧
    (∃ r, date_converter.set_batch example_helpers [10, 20, 30, 40]
        [true, false, true, false] example_parameter 1 2 = some r ∧
      indicators_from_mask sizeof_SQL_DATE_STRUCT [true, false, true, false] 1 2
        example_parameter r) :=
  full_length_mask_indicators example_helpers value_type.int64_t [10, 20, 30, 40]
    [true, false, true, false] example_parameter 1 2 (by decide) (by decide) (by decide)
    (by decide) (by decide)

/-- C5, as the code has it. NULL rows of the fixed-width binary converter: a `set_batch`
within the bounds of its arrays and of the buffer succeeds, and for every `i < elements`
whose row is NULL (mask element `start + i` true, or the single mask element true) the
indicator of buffer row `i` is the NULL value and the data element of buffer row `i` is
the source value `data[start + i]`: the copy covers every row of the slice. -/
theorem binary_null_rows (Value : value_type) (data : List Int) (mask : List Bool)
    (p : parameter) (start elements : Nat)
    (hdata : start + elements ≤ data.length)
    (hmask : mask.length = 1 ∨ start + elements ≤ mask.length)
    (hbd : elements ≤ p.buffer.data.length)
    (hbi : elements ≤ p.buffer.indicator.length) :
    ∃ r, binary_converter.set_batch Value data mask p start elements = some r ∧
      ∀ i, i < elements → masked mask (start + i) = true →
        r.buffer.indicator[i]? = some SQL_NULL_DATA ∧
        ∃ v, data[start + i]? = some v ∧ r.buffer.data[i]? = some (element.value v) := by
  obtain ⟨r, hr, _, _, _, hd, hi⟩ :=
    binary_set_batch_rows Value data mask p start elements hdata hmask hbd hbi
  refine ⟨r, hr, fun i hik hnull => ⟨?_, data[start + i], ?_, ?_⟩⟩
  · rw [hi i, if_pos hik, List.getElem?_eq_getElem (by omega : i < p.buffer.indicator.length)]
    simp [hnull]
  · exact List.getElem?_eq_getElem (by omega)
  · rw [hd i, if_pos hik, List.getElem?_eq_getElem (by omega : i < p.buffer.data.length)]
    simp [List.getD, List.getElem?_eq_getElem (by omega : start + i < data.length)]

/-- The NULL rows of C5 on a slice of two rows of which the first is NULL. -/
theorem binary_null_rows_witness :
    ∃ r, binary_converter.set_batch value_type.double [7, 9] [true, false]
        example_parameter 0 2 = some r ∧
      ∀ i, i < 2 → masked [true, false] (0 + i) = true →
        r.buffer.indicator[i]? = some SQL_NULL_DATA ∧
        ∃ v, [(7 : Int), 9][0 + i]? = some v ∧ r.buffer.data[i]? = some (element.value v) :=
  binary_null_rows value_type.double [7, 9] [true, false] example_parameter 0 2
    (by decide) (by decide) (by decide) (by decide)

/-- C5, as stated, fails. Buffer row 0 holds the value 0; `set_batch` with the source
values 7, 9 makes row 0 NULL, under the full-length mask `true, false` as under the single
mask element `true`, and yet leaves the value 7 in the data element of row 0. -/
theorem binary_null_row_data_overwritten :
    example_parameter.buffer.data[0]? = some (element.value 0) ∧
    (∃ r, binary_converter.set_batch value_type.int64_t [7, 9] [true, false]
        example_parameter 0 2 = some r ∧
      r.buffer.indicator[0]? = some SQL_NULL_DATA ∧
      r.buffer.data[0]? = some (element.value 7) ∧
      r.buffer.data[0]? ≠ example_parameter.buffer.data[0]?) ∧
    (∃ r, binary_converter.set_batch value_type.int64_t [7, 9] [true]
        example_parameter 0 2 = some r ∧
      r.buffer.indicator[0]? = some SQL_NULL_DATA ∧
      r.buffer.data[0]? = some (element.value 7) ∧
      r.buffer.data[0]? ≠ example_parameter.buffer.data[0]?) := by
  refine ⟨rfl, ⟨_, rfl, ?_⟩, ⟨_, rfl, ?_⟩⟩ <;> decide

/-- C6. Timestamp and date converter postcondition: on a parameter that carries the
description the converter binds in `initialize` (type code timestamp, resp. date, so that
the data elements of its buffer have the size of the structure stored), a `set_batch` of
the timestamp (resp. date) converter within the bounds of its arrays and of the buffer
succeeds, and for every `i < elements`: if row `start + i` is NULL (mask element true, or
the single mask element true) then indicator `i` is the NULL value and data element `i` is
unchanged; otherwise data element `i` is `microseconds_to_timestamp(data[start + i])`
(resp. `days_to_date(data[start + i])`) and indicator `i` is
`sizeof(SQL_TIMESTAMP_STRUCT)` (resp. `sizeof(SQL_DATE_STRUCT)`).  Buffer rows from
`elements` on are unchanged, and so is the description. -/
theorem converting_set_batch_postcondition (h : time_helpers) (data : List Int)
    (mask : List Bool) (pt pd : parameter) (start elements : Nat)
    (hdata : start + elements ≤ data.length)
    (hmask : mask.length = 1 ∨ start + elements ≤ mask.length)
    (htd : pt.description = make_description type_code.timestamp 0)
    (htbd : elements ≤ pt.buffer.data.length)
    (htbi : elements ≤ pt.buffer.indicator.length)
    (hdd : pd.description = make_description type_code.date 0)
    (hdbd : elements ≤ pd.buffer.data.length)
    (hdbi : elements ≤ pd.buffer.indicator.length) :
    (∃ r, timestamp_converter.set_batch h data mask pt start elements = some r ∧
      r.description = make_description type_code.timestamp 0 ∧
      converted_rows (fun v => element.timestamp (h.microseconds_to_timestamp v))
        sizeof_SQL_TIMESTAMP_STRUCT data mask start elements pt r) ∧
    (∃ r, date_converter.set_batch h data mask pd start elements = some r ∧
      r.description = make_description type_code.date 0 ∧
      converted_rows (fun v => element.date (h.days_to_date v))
        sizeof_SQL_DATE_STRUCT data mask start elements pd r) := by
  refine ⟨?_, ?_⟩
  · obtain ⟨r, hr, hw⟩ :=
      converting_set_batch_rows (fun v => element.timestamp (h.microseconds_to_timestamp v))
        sizeof_SQL_TIMESTAMP_STRUCT data mask pt start elements hdata hmask htbd htbi
    exact ⟨r, hr, hw.1.trans htd,
      converted_of_rows_written _ _ data mask start elements pt r hdata htbd htbi hw⟩
  · obtain ⟨r, hr, hw⟩ :=
      converting_set_batch_rows (fun v => element.date (h.days_to_date v))
        sizeof_SQL_DATE_STRUCT data mask pd start elements hdata hmask hdbd hdbi
    exact ⟨r, hr, hw.1.trans hdd,
      converted_of_rows_written _ _ data mask start elements pd r hdata hdbd hdbi hw⟩

/-- The postcondition of C6 on a slice of two rows that starts at source row 1, on buffers
bound with the description of the converter. -/
theorem converting_set_batch_postcondition_witness :
    (∃ r, timestamp_converter.set_batch example_helpers [10, 20, 30, 40]
        [true, false, true, false] example_timestamp_parameter 1 2 = some r ∧
      r.description = make_description type_code.timestamp 0 ∧
      converted_rows
        (fun v => element.timestamp (example_helpers.microseconds_to_timestamp v))
        sizeof_SQL_TIMESTAMP_STRUCT [10, 20, 30, 40] [true, false, true, false] 1 2
        example_timestamp_parameter r) ∧
    (∃ r, date_converter.set_batch example_helpers [10, 20, 30, 40]
        [true, false, true, false] example_date_parameter 1 2 = some r ∧
      r.description = make_description type_code.date 0 ∧
      converted_rows (fun v => element.date (example_helpers.days_to_date v))
        sizeof_SQL_DATE_STRUCT [10, 20, 30, 40] [true, false, true, false] 1 2
        example_date_parameter r) :=
  converting_set_batch_postcondition example_helpers [10, 20, 30, 40]
    [true, false, true, false] example_timestamp_parameter example_date_parameter 1 2
    (by decide) (by decide) rfl (by decide) (by decide) rfl (by decide) (by decide)

/-- C7. Unsupported type tag is atomic: when the column count equals the parameter count
and some column, at any position, has a type tag other than the four supported ones, the
call fails with the interface error of `make_converters` and the bound parameter set is
exactly as it was: no parameter is rebound, no buffer is written, nothing is executed. -/
theorem unsupported_tag_is_atomic (h : time_helpers) (fuel : Nat) (ps : bound_parameter_set)
    (columns : List column)
    (hcount : ps.number_of_parameters = columns.length)
    (hbad : ∃ col ∈ columns, ¬ supported col.dtype) :
    ∃ what, make_converters columns = Except.error (fault.interface_error what) ∧
      set_numpy_parameters h fuel ps columns = outcome.interface_error what ps := by
  obtain ⟨i, col, hi, hcol, hfirst⟩ := first_unsupported columns hbad
  have herr := make_converters_error columns i col hi hcol hfirst
  have hne : columns.length ≠ 0 := by
    obtain ⟨x, hx, _⟩ := hbad
    exact Nat.ne_of_gt (List.length_pos_of_mem hx)
  refine ⟨_, herr, ?_⟩
  unfold set_numpy_parameters
  simp only [hcount, ne_eq, not_true_eq_false, ↓reduceIte, hne, herr]

/-- The failure of C7 on two columns of which the last has the tag `int32`. -/
theorem unsupported_tag_is_atomic_witness :
    ∃ what,
      make_converters
        [example_front, { data := [1, 2, 3, 4, 5], mask := [true], dtype := "int32" }] =
        Except.error (fault.interface_error what) ∧
      set_numpy_parameters example_helpers 3 example_parameters
        [example_front, { data := [1, 2, 3, 4, 5], mask := [true], dtype := "int32" }] =
        outcome.interface_error what example_parameters :=
  unsupported_tag_is_atomic example_helpers 3 example_parameters
    [example_front, { data := [1, 2, 3, 4, 5], mask := [true], dtype := "int32" }]
    (by decide) ⟨{ data := [1, 2, 3, 4, 5], mask := [true], dtype := "int32" }, by decide,
      by decide⟩

/-- C8. Column count mismatch is rejected without mutation: the call raises the
count-mismatch interface error if and only if the parameter count differs from the number
of passed columns, and then the bound parameter set is exactly as it was: no parameter is
rebound, no buffer is written, nothing is executed. -/
theorem count_mismatch_rejected (h : time_helpers) (fuel : Nat) (ps : bound_parameter_set)
    (columns : List column) :
    (ps.number_of_parameters ≠ columns.length →
      set_numpy_parameters h fuel ps columns =
        outcome.interface_error
          "Number of passed columns is not equal to the number of parameters" ps) ∧
    (∀ r, set_numpy_parameters h fuel ps columns =
        outcome.interface_error
          "Number of passed columns is not equal to the number of parameters" r →
      ps.number_of_parameters ≠ columns.length) := by
  refine ⟨fun hne => ?_, fun r hr heq => ?_⟩
  · unfold set_numpy_parameters
    simp only [hne, ne_eq, not_false_eq_true, ↓reduceIte]
    rfl
  · unfold set_numpy_parameters at hr
    simp only [heq, ne_eq, not_true_eq_false, ↓reduceIte] at hr
    split_ifs at hr
    cases hmc : make_converters columns with
    | error e =>
      obtain ⟨i, col, _, _, _, he⟩ := make_converters_error_message columns e hmc
      subst he
      rw [hmc] at hr
      simp only [outcome.interface_error.injEq] at hr
      exact unsupported_message_ne_count_mismatch _ _ _ hr.1
    | ok cs =>
      rw [hmc] at hr
      simp only [] at hr
      cases hinit : initialize_all cs columns.length ps with
      | none =>
        rw [hinit] at hr
        cases hr
      | some ps1 =>
        rw [hinit] at hr
        simp only [] at hr
        cases hhead : columns.head? with
        | none =>
          rw [hhead] at hr
          cases hr
        | some front =>
          rw [hhead] at hr
          exact slice_loop_no_interface_error h cs _ _ fuel 0 ps1 _ r hr

/-- The rejection of C8 on one column and on no column against two parameters. -/
theorem count_mismatch_rejected_witness :
    set_numpy_parameters example_helpers 3 example_parameters [example_front] =
      outcome.interface_error
        "Number of passed columns is not equal to the number of parameters"
        example_parameters ∧
    set_numpy_parameters example_helpers 3 example_parameters [] =
      outcome.interface_error
        "Number of passed columns is not equal to the number of parameters"
        example_parameters :=
  ⟨(count_mismatch_rejected example_helpers 3 example_parameters [example_front]).1
      (by decide),
    (count_mismatch_rejected example_helpers 3 example_parameters []).1 (by decide)⟩


/-- C9. Unsupported-type error content: `make_converters` fails exactly when some column is
unsupported, and its error is then the interface error whose message reads "Unsupported
NumPy dtype for column P of N (unsupported type: T)", where `N` is the number of columns,
`P - 1` is the smallest index of a column with an unsupported tag, and `T` is the tag of
that column. -/
theorem unsupported_error_content (columns : List column) :
    (∀ (i : Nat) (col : column), columns[i]? = some col → ¬ supported col.dtype →
      (∀ (j : Nat) (c : column), j < i → columns[j]? = some c → supported c.dtype) →
      make_converters columns = Except.error (fault.interface_error
        ("Unsupported NumPy dtype for column " ++ toString (i + 1) ++ " of " ++
          toString columns.length ++ " (unsupported type: " ++ col.dtype ++ ")"))) ∧
    (∀ e, make_converters columns = Except.error e →
      ∃ (i : Nat) (col : column), columns[i]? = some col ∧ ¬ supported col.dtype ∧
        (∀ (j : Nat) (c : column), j < i → columns[j]? = some c → supported c.dtype) ∧
        e = fault.interface_error
          ("Unsupported NumPy dtype for column " ++ toString (i + 1) ++ " of " ++
            toString columns.length ++ " (unsupported type: " ++ col.dtype ++ ")")) :=
  ⟨fun i col hi hcol hfirst => make_converters_error columns i col hi hcol hfirst,
    fun e he => make_converters_error_message columns e he⟩

/-- The message of C9 on three columns of which the second and the third are
unsupported. -/
theorem unsupported_error_content_witness :
    make_converters
      [{ data := [], mask := [], dtype := "int64" },
       { data := [], mask := [], dtype := "int32" },
       { data := [], mask := [], dtype := "uint8" }] =
    Except.error (fault.interface_error
      "Unsupported NumPy dtype for column 2 of 3 (unsupported type: int32)") :=
  (unsupported_error_content
    [{ data := [], mask := [], dtype := "int64" },
     { data := [], mask := [], dtype := "int32" },
     { data := [], mask := [], dtype := "uint8" }]).1 1
    { data := [], mask := [], dtype := "int32" } rfl (by decide)
    (by
      intro j c hj hc
      have hj0 : j = 0 := by omega
      subst hj0
      simp only [List.getElem?_cons_zero, Option.some.injEq] at hc
      subst hc
      decide)


/-- C10. Initialize exactly once: an accepted call with at least one column (columns that
agree in length, fuel for its slices) returns, and its calls are
first one `rebind` per parameter index `0 .. n-1`, in increasing index order, each with the
description of the strategy of its column (integer for `int64`, floating point for
`float64`, timestamp for `datetime64[us]`, date for `datetime64[D]`), and after them calls
among which there is no `rebind`: there are `n` rebinds whatever the number of rows and
slices. -/
theorem rebind_exactly_once (h : time_helpers) (fuel : Nat) (ps : bound_parameter_set)
    (columns : List column) (front : column)
    (hcount : ps.number_of_parameters = columns.length)
    (hfront : columns.head? = some front)
    (hsup : ∀ x ∈ columns, supported x.dtype)
    (hagree : arrays_agree columns front.data.length)
    (hfuel : front.data.length ≤ fuel * ps.buffered_sets) :
    ∃ r inits rest, set_numpy_parameters h fuel ps columns = outcome.returned r ∧
      r.trace = ps.trace ++ (inits ++ rest) ∧
      inits.length = columns.length ∧
      (∀ (i : Nat) (col : column), columns[i]? = some col →
        ∃ d, inits[i]? = some (call.rebind i d) ∧
          (col.dtype = "int64" → d = make_description type_code.integer 0) ∧
          (col.dtype = "float64" → d = make_description type_code.floating_point 0) ∧
          (col.dtype = "datetime64[us]" → d = make_description type_code.timestamp 0) ∧
          (col.dtype = "datetime64[D]" → d = make_description type_code.date 0)) ∧
      (∀ e ∈ rest, ∀ i d, e ≠ call.rebind i d) ∧
      (rebinds (inits ++ rest)).length = columns.length := by
  obtain ⟨r, inits, evs, hr, htrace, hil, hinits, hP⟩ :=
    set_numpy_parameters_returns h fuel ps columns front hcount hfront hsup
      (arrays_agree_covers columns _ hagree) hfuel
      (fun _ evs => ∀ e ∈ evs, ∀ i d, e ≠ call.rebind i d)
      (by
        intro start _ e he
        cases he)
      (by
        intro start bound rest _ _ hrest e he i d
        rcases List.mem_append.mp he with h1 | h2
        · obtain ⟨j, _, rfl⟩ := List.mem_map.mp h1
          exact fun hne => by cases hne
        · rcases List.mem_cons.mp h2 with rfl | h3
          · exact fun hne => by cases hne
          · exact hrest e h3 i d)
  refine ⟨r, inits, evs, hr, htrace, hil, fun i col hcol => ?_, hP, ?_⟩
  · obtain ⟨c, hc, hi⟩ := hinits i col hcol
    exact ⟨c.description, hi, converter_of_description col c hc⟩
  · rw [rebinds_append, rebinds_of_none evs hP, List.append_nil,
      rebinds_length_of_all inits (inits_are_rebinds columns inits hil hinits), hil]

/-- The rebinds of C10 on the example. -/
theorem rebind_exactly_once_witness :
    ∃ r inits rest,
      set_numpy_parameters example_helpers 3 example_parameters example_columns =
        outcome.returned r ∧
      r.trace = example_parameters.trace ++ (inits ++ rest) ∧
      inits.length = example_columns.length ∧
      (∀ (i : Nat) (col : column), example_columns[i]? = some col →
        ∃ d, inits[i]? = some (call.rebind i d) ∧
          (col.dtype = "int64" → d = make_description type_code.integer 0) ∧
          (col.dtype = "float64" → d = make_description type_code.floating_point 0) ∧
          (col.dtype = "datetime64[us]" → d = make_description type_code.timestamp 0) ∧
          (col.dtype = "datetime64[D]" → d = make_description type_code.date 0)) ∧
      (∀ e ∈ rest, ∀ i d, e ≠ call.rebind i d) ∧
      (rebinds (inits ++ rest)).length = example_columns.length :=
  rebind_exactly_once example_helpers 3 example_parameters example_columns example_front
    (by decide) (by decide) (by decide) (by decide) (by decide)

/-- C11. One execution per slice, after all columns: the calls of an accepted call
(capacity at least 1, columns that agree in length, fuel for its slices) are its rebinds
and then, slice by slice, `set_batch` for every column `0 .. n-1` in index order with the
same `(start, slice_size)`, followed by one `execute_batch(slice_size)`.  At that time
parameter `i` holds in rows `0 .. slice_size-1` the rows `start ..` of column `i` (a row has
the NULL indicator iff it is masked in column `i`), for every column.  The number of
`execute_batch` calls is `total_rows / capacity` rounded up, whatever the number of
columns. -/
theorem one_execution_per_slice (h : time_helpers) (fuel : Nat) (ps : bound_parameter_set)
    (columns : List column) (front : column)
    (hcap : 1 ≤ ps.buffered_sets)
    (hcount : ps.number_of_parameters = columns.length)
    (hfront : columns.head? = some front)
    (hsup : ∀ x ∈ columns, supported x.dtype)
    (hagree : arrays_agree columns front.data.length)
    (hfuel : front.data.length ≤ fuel * ps.buffered_sets) :
    ∃ (r : bound_parameter_set) (inits : List call)
      (slices : List (Nat × Nat × List parameter)),
      set_numpy_parameters h fuel ps columns = outcome.returned r ∧
      r.trace = ps.trace ++ (inits ++ (slices.map (slice_calls columns.length)).flatten) ∧
      (∀ e ∈ inits, ∃ i d, e = call.rebind i d) ∧
      (∀ (m : Nat) (s : Nat × Nat × List parameter), slices[m]? = some s →
        s.1 = m * ps.buffered_sets ∧
        s.2.1 = min ps.buffered_sets (front.data.length - s.1) ∧
        ∀ (i : Nat) (col : column), columns[i]? = some col →
          ∃ q, s.2.2[i]? = some q ∧ ∀ j, j < s.2.1 →
            (q.buffer.indicator[j]? = some SQL_NULL_DATA ↔
              masked col.mask (s.1 + j) = true)) ∧
      (executions (inits ++ (slices.map (slice_calls columns.length)).flatten)).length =
        (front.data.length + ps.buffered_sets - 1) / ps.buffered_sets ∧
      slices.length = (front.data.length + ps.buffered_sets - 1) / ps.buffered_sets := by
  obtain ⟨r, inits, slices, hr, htrace, hinits, hsizes, hstarts, hslices⟩ :=
    set_numpy_parameters_slices h fuel ps columns front hcap hcount hfront hsup hagree hfuel
  have hall : ∀ x ∈ columns, ∃ y, converter_of x = some y :=
    fun x hx => supported_converter x (hsup x hx)
  have hlen : slices.length =
      (front.data.length + ps.buffered_sets - 1) / ps.buffered_sets := by
    rw [← expected_sizes_length _ _ hcap, ← hsizes, List.length_map]
  refine ⟨r, inits, slices, hr, htrace, hinits, fun m s hs => ?_, ?_, hlen⟩
  · obtain ⟨_, hk, hw⟩ := hslices s (List.getElem?_mem hs)
    refine ⟨hstarts m s hs, hk, fun i col hcol => ?_⟩
    obtain ⟨c, hc⟩ := hall col (List.getElem?_mem hcol)
    have hcs : (columns.filterMap converter_of)[i]? = some c := by
      rw [filterMap_getElem? converter_of columns hall i, hcol]
      exact hc
    obtain ⟨q, hq, hrows⟩ := hw.2 i c hcs
    refine ⟨q, hq, fun j hj => ?_⟩
    rw [(hrows j hj).1, ← (converter_of_arrays col c hc).2, ← stored_indicator_null_iff]
    simp
  · rw [executions_append, executions_rebinds inits hinits, List.nil_append,
      executions_slices, List.length_map, hlen]

/-- The calls of C11 on the example: two columns, five rows, capacity 2, hence three
slices. -/
theorem one_execution_per_slice_witness :
    ∃ (r : bound_parameter_set) (inits : List call)
      (slices : List (Nat × Nat × List parameter)),
      set_numpy_parameters example_helpers 3 example_parameters example_columns =
        outcome.returned r ∧
      r.trace = example_parameters.trace ++
        (inits ++ (slices.map (slice_calls example_columns.length)).flatten) ∧
      (∀ e ∈ inits, ∃ i d, e = call.rebind i d) ∧
      (∀ (m : Nat) (s : Nat × Nat × List parameter), slices[m]? = some s →
        s.1 = m * example_parameters.buffered_sets ∧
        s.2.1 = min example_parameters.buffered_sets (example_front.data.length - s.1) ∧
        ∀ (i : Nat) (col : column), example_columns[i]? = some col →
          ∃ q, s.2.2[i]? = some q ∧ ∀ j, j < s.2.1 →
            (q.buffer.indicator[j]? = some SQL_NULL_DATA ↔
              masked col.mask (s.1 + j) = true)) ∧
      (executions
          (inits ++ (slices.map (slice_calls example_columns.length)).flatten)).length =
        (example_front.data.length + example_parameters.buffered_sets - 1) /
          example_parameters.buffered_sets ∧
      slices.length =
        (example_front.data.length + example_parameters.buffered_sets - 1) /
          example_parameters.buffered_sets :=
  one_execution_per_slice example_helpers 3 example_parameters example_columns example_front
    (by decide) (by decide) (by decide) (by decide) (by decide) (by decide)

/-- C12. Supported type tags: `make_converters` succeeds iff the tag of every column is one
of the four strings "int64", "float64", "datetime64[us]", "datetime64[D]"; on success it
returns one converter per column, in column order, and the converter of column `i` is the
fixed-width binary strategy of type integer, the fixed-width binary strategy of type
floating point, the timestamp strategy or the date strategy, by the tag of the column, on
the data array and the mask of column `i`. -/
theorem supported_type_tags (columns : List column) :
    ((∃ cs, make_converters columns = Except.ok cs) ↔
      ∀ col ∈ columns, col.dtype = "int64" ∨ col.dtype = "float64" ∨
        col.dtype = "datetime64[us]" ∨ col.dtype = "datetime64[D]") ∧
    ∀ cs, make_converters columns = Except.ok cs →
      cs.length = columns.length ∧
      ∀ (i : Nat) (col : column), columns[i]? = some col →
        (col.dtype = "int64" → cs[i]? = some
          (parameter_converter.binary_converter value_type.int64_t col.data col.mask
            type_code.integer)) ∧
        (col.dtype = "float64" → cs[i]? = some
          (parameter_converter.binary_converter value_type.double col.data col.mask
            type_code.floating_point)) ∧
        (col.dtype = "datetime64[us]" → cs[i]? = some
          (parameter_converter.timestamp_converter col.data col.mask)) ∧
        (col.dtype = "datetime64[D]" → cs[i]? = some
          (parameter_converter.date_converter col.data col.mask)) := by
  refine ⟨⟨fun ⟨cs, hok⟩ => make_converters_ok_supported columns cs hok,
    fun hall => ⟨_, make_converters_ok columns hall⟩⟩, fun cs hok => ?_⟩
  have hsup := make_converters_ok_supported columns cs hok
  have hall : ∀ x ∈ columns, ∃ y, converter_of x = some y :=
    fun x hx => supported_converter x (hsup x hx)
  rw [make_converters_ok columns hsup] at hok
  cases hok
  refine ⟨filterMap_length converter_of columns hall, fun i col hcol => ?_⟩
  rw [filterMap_getElem? converter_of columns hall i, hcol]
  exact converter_of_cases col

/-- The converters of C12 on columns of the four supported tags. -/
theorem supported_type_tags_witness :
    make_converters
      [{ data := [1], mask := [false], dtype := "int64" },
       { data := [2], mask := [true], dtype := "float64" },
       { data := [3], mask := [false], dtype := "datetime64[us]" },
       { data := [4], mask := [true], dtype := "datetime64[D]" }] =
    Except.ok
      [parameter_converter.binary_converter value_type.int64_t [1] [false] type_code.integer,
       parameter_converter.binary_converter value_type.double [2] [true]
         type_code.floating_point,
       parameter_converter.timestamp_converter [3] [false],
       parameter_converter.date_converter [4] [true]] ∧
    ¬ ∃ cs, make_converters [{ data := [1], mask := [false], dtype := "int32" }] =
      Except.ok cs :=
  ⟨rfl, fun hok =>
    absurd ((supported_type_tags [{ data := [1], mask := [false], dtype := "int32" }]).1.mp hok
      { data := [1], mask := [false], dtype := "int32" } (List.mem_singleton.mpr rfl))
      (by decide)⟩

/-- C13. Zero columns is a no-op: with a parameter count of 0 and no columns the call
returns normally and the bound parameter set is exactly as it was: no parameter is
rebound, no buffer is written, nothing is executed. -/
theorem zero_columns_no_op (h : time_helpers) (fuel : Nat) (ps : bound_parameter_set)
    (hzero : ps.number_of_parameters = 0) :
    set_numpy_parameters h fuel ps [] = outcome.returned ps := by
  unfold set_numpy_parameters
  simp [hzero]

/-- The no-op of C13 on a bound parameter set without parameters. -/
theorem zero_columns_no_op_witness :
    set_numpy_parameters example_helpers 0
        { buffered_sets := 2, parameters := [], trace := [] } [] =
      outcome.returned { buffered_sets := 2, parameters := [], trace := [] } :=
  zero_columns_no_op example_helpers 0 { buffered_sets := 2, parameters := [], trace := [] }
    rfl

/-- C16. Broadcast equals constant mask: for each of the three converters, every source
array, every buffer state and every slice `(start, elements)` of the source array,
`set_batch` with the single-element mask `[b]` gives exactly the result of `set_batch` with
the full-length mask whose every element is `b`, the same buffer, data and indicators, when
the buffer has room for the slice; for a source array of exactly one row the two masks are
the same mask. -/
theorem broadcast_equals_constant_mask (h : time_helpers) (Value : value_type)
    (data : List Int) (b : Bool) (p : parameter) (start elements : Nat)
    (hin : start + elements ≤ data.length) :
    (binary_converter.set_batch Value data [b] p start elements =
      binary_converter.set_batch Value data (List.replicate data.length b) p start elements ∧
     timestamp_converter.set_batch h data [b] p start elements =
      timestamp_converter.set_batch h data (List.replicate data.length b) p start elements ∧
     date_converter.set_batch h data [b] p start elements =
      date_converter.set_batch h data (List.replicate data.length b) p start elements) ∧
    (elements ≤ p.buffer.data.length → elements ≤ p.buffer.indicator.length →
      (∃ r, binary_converter.set_batch Value data [b] p start elements = some r) ∧
      (∃ r, timestamp_converter.set_batch h data [b] p start elements = some r) ∧
      (∃ r, date_converter.set_batch h data [b] p start elements = some r)) ∧
    (data.length = 1 → List.replicate data.length b = [b]) := by
  refine ⟨⟨binary_broadcast_eq Value data b p start elements hin,
    converting_broadcast_eq _ _ data b p start elements hin,
    converting_broadcast_eq _ _ data b p start elements hin⟩, fun hbd hbi => ⟨?_, ?_, ?_⟩,
    fun hone => by rw [hone]; rfl⟩
  · obtain ⟨r, hr, _⟩ :=
      binary_set_batch_rows Value data [b] p start elements hin (Or.inl rfl) hbd hbi
    exact ⟨r, hr⟩
  · obtain ⟨r, hr, _⟩ :=
      converting_set_batch_rows (fun v => element.timestamp (h.microseconds_to_timestamp v))
        sizeof_SQL_TIMESTAMP_STRUCT data [b] p start elements hin (Or.inl rfl) hbd hbi
    exact ⟨r, hr⟩
  · obtain ⟨r, hr, _⟩ :=
      converting_set_batch_rows (fun v => element.date (h.days_to_date v))
        sizeof_SQL_DATE_STRUCT data [b] p start elements hin (Or.inl rfl) hbd hbi
    exact ⟨r, hr⟩

/-- The equality of C16 on a slice of two rows that starts at source row 1, with the mask
element `true`. -/
theorem broadcast_equals_constant_mask_witness :
    (binary_converter.set_batch value_type.int64_t [10, 20, 30, 40] [true]
        example_parameter 1 2 =
      binary_converter.set_batch value_type.int64_t [10, 20, 30, 40]
        (List.replicate [(10 : Int), 20, 30, 40].length true) example_parameter 1 2 ∧
     timestamp_converter.set_batch example_helpers [10, 20, 30, 40] [true]
        example_parameter 1 2 =
      timestamp_converter.set_batch example_helpers [10, 20, 30, 40]
        (List.replicate [(10 : Int), 20, 30, 40].length true) example_parameter 1 2 ∧
     date_converter.set_batch example_helpers [10, 20, 30, 40] [true]
        example_parameter 1 2 =
      date_converter.set_batch example_helpers [10, 20, 30, 40]
        (List.replicate [(10 : Int), 20, 30, 40].length true) example_parameter 1 2) ∧
    (2 ≤ example_parameter.buffer.data.length → 2 ≤ example_parameter.buffer.indicator.length →
      (∃ r, binary_converter.set_batch value_type.int64_t [10, 20, 30, 40] [true]
        example_parameter 1 2 = some r) ∧
      (∃ r, timestamp_converter.set_batch example_helpers [10, 20, 30, 40] [true]
        example_parameter 1 2 = some r) ∧
      (∃ r, date_converter.set_batch example_helpers [10, 20, 30, 40] [true]
        example_parameter 1 2 = some r)) ∧
    ([(10 : Int), 20, 30, 40].length = 1 →
      List.replicate [(10 : Int), 20, 30, 40].length true = [true]) :=
  broadcast_equals_constant_mask example_helpers value_type.int64_t [10, 20, 30, 40] true
    example_parameter 1 2 (by decide)


/-- C17. All indices stay in bounds: an accepted call with capacity at least 1 on columns
that agree in length (every array has the `total_rows` items of the first column, every mask
has `total_rows` elements or one) returns, so that none of its indexed accesses leaves an
array or a buffer, and every `set_batch` call it issues has a column index below the number
of columns, a `start` that is a multiple of the capacity, `1 <= elements <= capacity` and
`start + elements <= total_rows`; hence every buffer index `0 .. elements-1` is below the
capacity and every source index `start .. start+elements-1` is below `total_rows`. -/
theorem indices_stay_in_bounds (h : time_helpers) (fuel : Nat) (ps : bound_parameter_set)
    (columns : List column) (front : column)
    (hcap : 1 ≤ ps.buffered_sets)
    (hcount : ps.number_of_parameters = columns.length)
    (hfront : columns.head? = some front)
    (hsup : ∀ x ∈ columns, supported x.dtype)
    (hagree : arrays_agree columns front.data.length)
    (hfuel : front.data.length ≤ fuel * ps.buffered_sets) :
    ∃ r calls, set_numpy_parameters h fuel ps columns = outcome.returned r ∧
      r.trace = ps.trace ++ calls ∧
      ∀ i start elements, call.set_batch i start elements ∈ calls →
        i < columns.length ∧
        ps.buffered_sets ∣ start ∧
        1 ≤ elements ∧ elements ≤ ps.buffered_sets ∧
        start + elements ≤ front.data.length ∧
        ∀ j, j < elements → j < ps.buffered_sets ∧ start + j < front.data.length := by
  obtain ⟨r, inits, evs, hr, htrace, hil, hinits, hP⟩ :=
    set_numpy_parameters_returns h fuel ps columns front hcount hfront hsup
      (arrays_agree_covers columns _ hagree) hfuel
      (fun start evs => ps.buffered_sets ∣ start →
        ∀ i s k, call.set_batch i s k ∈ evs →
          i < columns.length ∧ ps.buffered_sets ∣ s ∧ 1 ≤ k ∧ k ≤ ps.buffered_sets ∧
          s + k ≤ front.data.length)
      (by
        intro start _ _ i s k hmem
        cases hmem)
      (by
        intro start bound rest hlt _ hrest hdvd i s k hmem
        rcases List.mem_append.mp hmem with h1 | h2
        · obtain ⟨j, hj, heq⟩ := List.mem_map.mp h1
          cases heq
          refine ⟨List.mem_range.mp hj, hdvd, ?_, Nat.min_le_left _ _, ?_⟩
          · rw [Nat.le_min]
            omega
          · have := Nat.min_le_right ps.buffered_sets (front.data.length - start)
            omega
        · rcases List.mem_cons.mp h2 with h3 | h4
          · cases h3
          · exact hrest (Dvd.dvd.add hdvd (dvd_refl _)) i s k h4)
  refine ⟨r, inits ++ evs, hr, htrace, fun i start elements hmem => ?_⟩
  have hin : call.set_batch i start elements ∈ evs := by
    rcases List.mem_append.mp hmem with h1 | h2
    · obtain ⟨j, d, hjd⟩ := inits_are_rebinds columns inits hil hinits _ h1
      cases hjd
    · exact h2
  obtain ⟨hi, hdvd, h1, h2, h3⟩ := hP (dvd_zero _) i start elements hin
  exact ⟨hi, hdvd, h1, h2, h3, fun j hj => ⟨by omega, by omega⟩⟩

/-- The bounds of C17 on the example: five rows, capacity 2. -/
theorem indices_stay_in_bounds_witness :
    ∃ r calls, set_numpy_parameters example_helpers 3 example_parameters example_columns =
        outcome.returned r ∧
      r.trace = example_parameters.trace ++ calls ∧
      ∀ i start elements, call.set_batch i start elements ∈ calls →
        i < example_columns.length ∧
        example_parameters.buffered_sets ∣ start ∧
        1 ≤ elements ∧ elements ≤ example_parameters.buffered_sets ∧
        start + elements ≤ example_front.data.length ∧
        ∀ j, j < elements →
          j < example_parameters.buffered_sets ∧ start + j < example_front.data.length :=
  indices_stay_in_bounds example_helpers 3 example_parameters example_columns example_front
    (by decide) (by decide) (by decide) (by decide) (by decide) (by decide)


/-- C18. The slice loop makes progress only for a positive capacity.  For a capacity of at
least 1 (accepted call, columns that agree in length) every iteration adds the capacity to
`start`, so that `total_rows - start` strictly decreases, and the loop ends after exactly
`total_rows / capacity` rounded up iterations: with that much fuel or more the call returns
after that many slices, with less it does not return.  For the capacity 0 and
`total_rows > 0` every iteration submits a batch of 0 rows from `start = 0` and leaves
`start` unchanged, and the call returns for no amount of fuel. -/
theorem slice_loop_progress (h : time_helpers) (ps : bound_parameter_set)
    (columns : List column) (front : column)
    (hcount : ps.number_of_parameters = columns.length)
    (hfront : columns.head? = some front)
    (hsup : ∀ x ∈ columns, supported x.dtype) :
    (1 ≤ ps.buffered_sets → arrays_agree columns front.data.length → ∀ fuel,
      ((front.data.length + ps.buffered_sets - 1) / ps.buffered_sets ≤ fuel →
        ∃ (r : bound_parameter_set) (inits : List call)
          (slices : List (Nat × Nat × List parameter)),
          set_numpy_parameters h fuel ps columns = outcome.returned r ∧
          r.trace = ps.trace ++
            (inits ++ (slices.map (slice_calls columns.length)).flatten) ∧
          (∀ e ∈ inits, ∃ i d, e = call.rebind i d) ∧
          slices.length = (front.data.length + ps.buffered_sets - 1) / ps.buffered_sets ∧
          ∀ (m : Nat) (s : Nat × Nat × List parameter), slices[m]? = some s →
            s.1 = m * ps.buffered_sets ∧ s.1 < front.data.length ∧
            front.data.length - (s.1 + ps.buffered_sets) < front.data.length - s.1) ∧
      (fuel < (front.data.length + ps.buffered_sets - 1) / ps.buffered_sets →
        ∃ (r : bound_parameter_set) (inits : List call)
          (slices : List (Nat × Nat × List parameter)),
          set_numpy_parameters h fuel ps columns = outcome.out_of_fuel r ∧
          r.trace = ps.trace ++
            (inits ++ (slices.map (slice_calls columns.length)).flatten) ∧
          (∀ e ∈ inits, ∃ i d, e = call.rebind i d) ∧
          slices.length = fuel)) ∧
    (ps.buffered_sets = 0 → 0 < front.data.length → ∀ fuel,
      ∃ (r : bound_parameter_set) (inits : List call)
        (slices : List (Nat × Nat × List parameter)),
        set_numpy_parameters h fuel ps columns = outcome.out_of_fuel r ∧
        r.trace = ps.trace ++
          (inits ++ (slices.map (slice_calls columns.length)).flatten) ∧
        (∀ e ∈ inits, ∃ i d, e = call.rebind i d) ∧
        slices.length = fuel ∧
        ∀ s ∈ slices, s.1 = 0 ∧ s.2.1 = 0) := by
  refine ⟨fun hcap hagree fuel => ⟨fun hfuel => ?_, fun hfuel => ?_⟩,
    fun hzero htotal fuel => ?_⟩
  · obtain ⟨r, inits, slices, hr, htrace, hinits, hsizes, hstarts, hslices⟩ :=
      set_numpy_parameters_slices h fuel ps columns front hcap hcount hfront hsup hagree
        ((ceil_le_iff _ _ _ hcap).mp hfuel)
    refine ⟨r, inits, slices, hr, htrace, hinits, ?_, fun m s hs => ?_⟩
    · rw [← expected_sizes_length _ _ hcap, ← hsizes, List.length_map]
    · have hlt := (hslices s (List.getElem?_mem hs)).1
      exact ⟨hstarts m s hs, hlt, by omega⟩
  · have hlt : fuel * ps.buffered_sets < front.data.length := by
      by_contra hge
      have := (ceil_le_iff front.data.length ps.buffered_sets fuel hcap).mpr (by omega)
      omega
    obtain ⟨r, inits, slices, hr, htrace, hinits, hlen, _⟩ :=
      set_numpy_parameters_out_of_fuel h fuel ps columns front hcount hfront hsup
        (fun c hc => covers_mono c _ _ (Nat.le_of_lt hlt)
          (converters_cover columns _ (arrays_agree_covers columns _ hagree) c hc)) hlt
    exact ⟨r, inits, slices, hr, htrace, hinits, hlen⟩
  · obtain ⟨r, inits, slices, hr, htrace, hinits, hlen, hslices⟩ :=
      set_numpy_parameters_out_of_fuel h fuel ps columns front hcount hfront hsup
        (fun c _ => by rw [hzero, Nat.mul_zero]; exact covers_zero c)
        (by rw [hzero, Nat.mul_zero]; exact htotal)
    refine ⟨r, inits, slices, hr, htrace, hinits, hlen, fun s hs => ?_⟩
    obtain ⟨m, hm⟩ := List.mem_iff_getElem?.mp hs
    obtain ⟨h1, h2⟩ := hslices m s hm
    rw [hzero] at h1 h2
    exact ⟨by simpa using h1, by simpa using h2⟩

/-- The progress of C18 on the example: five rows end after three slices of capacity 2, not
after two, and with capacity 0 seven units of fuel give seven slices of no rows. -/
theorem slice_loop_progress_witness :
    (∃ (r : bound_parameter_set) (inits : List call)
        (slices : List (Nat × Nat × List parameter)),
        set_numpy_parameters example_helpers 3 example_parameters example_columns =
          outcome.returned r ∧
        r.trace = example_parameters.trace ++
          (inits ++ (slices.map (slice_calls example_columns.length)).flatten) ∧
        (∀ e ∈ inits, ∃ i d, e = call.rebind i d) ∧
        slices.length =
          (example_front.data.length + example_parameters.buffered_sets - 1) /
            example_parameters.buffered_sets ∧
        ∀ (m : Nat) (s : Nat × Nat × List parameter), slices[m]? = some s →
          s.1 = m * example_parameters.buffered_sets ∧ s.1 < example_front.data.length ∧
          example_front.data.length - (s.1 + example_parameters.buffered_sets) <
            example_front.data.length - s.1) ∧
    (∃ (r : bound_parameter_set) (inits : List call)
        (slices : List (Nat × Nat × List parameter)),
        set_numpy_parameters example_helpers 2 example_parameters example_columns =
          outcome.out_of_fuel r ∧
        r.trace = example_parameters.trace ++
          (inits ++ (slices.map (slice_calls example_columns.length)).flatten) ∧
        (∀ e ∈ inits, ∃ i d, e = call.rebind i d) ∧
        slices.length = 2) ∧
    (∃ (r : bound_parameter_set) (inits : List call)
        (slices : List (Nat × Nat × List parameter)),
        set_numpy_parameters example_helpers 7 example_parameters_without_capacity
          example_columns = outcome.out_of_fuel r ∧
        r.trace = example_parameters_without_capacity.trace ++
          (inits ++ (slices.map (slice_calls example_columns.length)).flatten) ∧
        (∀ e ∈ inits, ∃ i d, e = call.rebind i d) ∧
        slices.length = 7 ∧
        ∀ s ∈ slices, s.1 = 0 ∧ s.2.1 = 0) :=
  ⟨((slice_loop_progress example_helpers example_parameters example_columns example_front
      (by decide) (by decide) (by decide)).1 (by decide) (by decide) 3).1 (by decide),
    ((slice_loop_progress example_helpers example_parameters example_columns example_front
      (by decide) (by decide) (by decide)).1 (by decide) (by decide) 2).2 (by decide),
    (slice_loop_progress example_helpers example_parameters_without_capacity example_columns
      example_front (by decide) (by decide) (by decide)).2 (by decide) (by decide) 7⟩

/-- C19. Error precedence: when the number of passed columns differs from the parameter
count, the call raises the count-mismatch error whatever the type tags of the columns, also
when some column has an unsupported tag, and the bound parameter set is as it was; the
unsupported-dtype error is raised only when the counts are equal and the column list is not
empty. -/
theorem count_error_precedes_dtype_error (h : time_helpers) (fuel : Nat)
    (ps : bound_parameter_set) (columns : List column) :
    (ps.number_of_parameters ≠ columns.length →
      set_numpy_parameters h fuel ps columns =
        outcome.interface_error
          "Number of passed columns is not equal to the number of parameters" ps ∧
      ∀ (position total : Nat) (dtype : String) (r : bound_parameter_set),
        set_numpy_parameters h fuel ps columns ≠
          outcome.interface_error
            ("Unsupported NumPy dtype for column " ++ toString position ++ " of " ++
              toString total ++ " (unsupported type: " ++ dtype ++ ")") r) ∧
    (∀ (position total : Nat) (dtype : String) (r : bound_parameter_set),
      set_numpy_parameters h fuel ps columns =
        outcome.interface_error
          ("Unsupported NumPy dtype for column " ++ toString position ++ " of " ++
            toString total ++ " (unsupported type: " ++ dtype ++ ")") r →
      ps.number_of_parameters = columns.length ∧ columns ≠ []) := by
  have hmismatch : ps.number_of_parameters ≠ columns.length →
      set_numpy_parameters h fuel ps columns =
        outcome.interface_error count_mismatch_message ps := by
    intro hne
    unfold set_numpy_parameters
    simp only [hne, ne_eq, not_false_eq_true, ↓reduceIte]
  refine ⟨fun hne => ⟨hmismatch hne, fun position total dtype r heq => ?_⟩,
    fun position total dtype r heq => ?_⟩
  · rw [hmismatch hne] at heq
    simp only [outcome.interface_error.injEq] at heq
    exact unsupported_message_ne_count_mismatch position total dtype heq.1.symm
  · by_cases hcount : ps.number_of_parameters = columns.length
    · refine ⟨hcount, fun hnil => ?_⟩
      subst hnil
      unfold set_numpy_parameters at heq
      simp [hcount] at heq
    · rw [hmismatch hcount] at heq
      simp only [outcome.interface_error.injEq] at heq
      exact absurd heq.1.symm (unsupported_message_ne_count_mismatch position total dtype)

/-- The precedence of C19 on one column with an unsupported tag against two parameters. -/
theorem count_error_precedes_dtype_error_witness :
    set_numpy_parameters example_helpers 3 example_parameters
        [{ data := [1], mask := [false], dtype := "int32" }] =
      outcome.interface_error
        "Number of passed columns is not equal to the number of parameters"
        example_parameters ∧
    ∀ (position total : Nat) (dtype : String) (r : bound_parameter_set),
      set_numpy_parameters example_helpers 3 example_parameters
          [{ data := [1], mask := [false], dtype := "int32" }] ≠
        outcome.interface_error
          ("Unsupported NumPy dtype for column " ++ toString position ++ " of " ++
            toString total ++ " (unsupported type: " ++ dtype ++ ")") r :=
  (count_error_precedes_dtype_error example_helpers 3 example_parameters
    [{ data := [1], mask := [false], dtype := "int32" }]).1 (by decide)

/-! ## The row path -/


/-- A NULL written into row `r`: the row carries the NULL, the other rows carry what they
carried. -/
theorem write_null_holds (w : field → Nat) (b : field_buffer) (r : Nat)
    (hr : r < b.indicator.length) :
    ∃ b1, b.write_null r = some b1 ∧ b1.element_width = b.element_width ∧
      b1.data.length = b.data.length ∧ b1.indicator.length = b.indicator.length ∧
      cell_holds w b1 r none ∧
      ∀ j v, j ≠ r → cell_holds w b j v → cell_holds w b1 j v := by
  refine ⟨{ b with indicator := b.indicator.set r SQL_NULL_DATA }, by simp [field_buffer.write_null, hr],
    rfl, rfl, by simp, ?_, fun j v hj hv => ?_⟩
  · simp [cell_holds, hr]
  · have hne : ¬ r = j := fun e => hj e.symm
    cases v with
    | none => simpa [cell_holds, List.getElem?_set, hne] using hv
    | some f => simpa [cell_holds, List.getElem?_set, hne] using hv

/-- A value written into row `r` of a buffer whose element width holds it: the row carries
the value, the other rows carry what they carried. -/
theorem write_holds (w : field → Nat) (b : field_buffer) (r : Nat) (f : field)
    (hd : r < b.data.length) (hi : r < b.indicator.length) (hfit : w f ≤ b.element_width) :
    ∃ b1, b.write w r f = some b1 ∧ b1.element_width = b.element_width ∧
      b1.data.length = b.data.length ∧ b1.indicator.length = b.indicator.length ∧
      cell_holds w b1 r (some f) ∧
      ∀ j v, j ≠ r → cell_holds w b j v → cell_holds w b1 j v := by
  refine ⟨{ b with data := b.data.set r (some f), indicator := b.indicator.set r (w f) },
    by simp [field_buffer.write, hd, hi], rfl, by simp, by simp, ?_, fun j v hj hv => ?_⟩
  · simp [cell_holds, hd, hi, hfit]
  · have hne : ¬ r = j := fun e => hj e.symm
    cases v with
    | none => simpa [cell_holds, List.getElem?_set, hne] using hv
    | some g => simpa [cell_holds, List.getElem?_set, hne] using hv

/-- The state with the buffer of column `c` replaced. -/
theorem column_updated_set (s : field_parameter_set) (c : Nat) (b : field_buffer)
    (hc : c < s.parameters_.parameters.length) :
    column_updated s
      { s with parameters_ := { s.parameters_ with
          parameters := s.parameters_.parameters.set c b } } c b := by
  refine ⟨rfl, rfl, rfl, rfl, by simp, fun i hi => ?_, ?_⟩
  · exact List.getElem?_set_ne (fun e => hi e.symm)
  · simp [hc]

/-- Two updates of the same column, one after the other. -/
theorem column_updated_trans (s s1 s2 : field_parameter_set) (c : Nat) (b1 b2 : field_buffer)
    (h1 : column_updated s s1 c b1) (h2 : column_updated s1 s2 c b2) :
    column_updated s s2 c b2 := by
  obtain ⟨a1, a2, a3, a4, a5, a6, _⟩ := h1
  obtain ⟨c1, c2, c3, c4, c5, c6, c7⟩ := h2
  exact ⟨c1.trans a1, c2.trans a2, c3.trans a3, c4.trans a4, c5.trans a5,
    fun i hi => (c6 i hi).trans (a6 i hi), c7⟩


/-- An object is an update of itself. -/
theorem column_updated_refl (s : field_parameter_set) (c : Nat) (b : field_buffer)
    (hc : s.parameters_.parameters[c]? = some b) : column_updated s s c b :=
  ⟨rfl, rfl, rfl, rfl, rfl, fun _ _ => rfl, hc⟩

/-- An index at which a list has an element is inside the list. -/
theorem lt_length_of_getElem? {α : Type} (xs : List α) (i : Nat) (x : α)
    (hx : xs[i]? = some x) : i < xs.length := by
  by_contra hge
  rw [List.getElem?_eq_none (Nat.le_of_not_lt hge)] at hx
  cases hx

/-- The width of a value, as an indicator, is not the NULL indicator. -/
theorem width_ne_null (n : Nat) : ((n : Nat) : Int) ≠ SQL_NULL_DATA := by
  unfold SQL_NULL_DATA
  omega

/-- The recovery of rows `0 .. m-1` into a buffer that is at least as wide as the old one:
the rows are carried again, everything else of the object is as it was. -/
theorem recover_spec (w : field → Nat) (old : field_buffer) (vals : List nullable_field)
    (s1 : field_parameter_set) (c : Nat) (b0 : field_buffer)
    (hold : ∀ j v, vals[j]? = some v → cell_holds w old j v)
    (holdi : vals.length ≤ old.indicator.length)
    (hc : s1.parameters_.parameters[c]? = some b0)
    (hb0d : vals.length ≤ b0.data.length) (hb0i : vals.length ≤ b0.indicator.length)
    (hwide : old.element_width ≤ b0.element_width) (m : Nat) (hm : m ≤ vals.length) :
    ∃ sm bm, for_loop (field_parameter_set.recover_row w old c) m s1 = some sm ∧
      column_updated s1 sm c bm ∧ bm.element_width = b0.element_width ∧
      bm.data.length = b0.data.length ∧ bm.indicator.length = b0.indicator.length ∧
      ∀ j v, j < m → vals[j]? = some v → cell_holds w bm j v := by
  induction m with
  | zero =>
    exact ⟨s1, b0, rfl, column_updated_refl s1 c b0 hc, rfl, rfl, rfl,
      fun j v hj _ => absurd hj (Nat.not_lt_zero j)⟩
  | succ m ih =>
    obtain ⟨sm, bm, hsm, hupd, hwidth, hbd, hbi, hrows⟩ := ih (Nat.le_of_succ_le hm)
    have hmv : m < vals.length := hm
    have hcm : sm.parameters_.parameters[c]? = some bm := hupd.2.2.2.2.2.2
    have hclt : c < sm.parameters_.parameters.length := lt_length_of_getElem? _ _ _ hcm
    have hcell := hold m vals[m] (List.getElem?_eq_getElem hmv)
    have hoi : old.indicator[m]? = some old.indicator[m] :=
      List.getElem?_eq_getElem (by omega)
    -- the buffer after the copy of row `m`
    have hcopy : ∃ b1,
        field_parameter_set.recover_row w old c m sm =
          some { sm with parameters_ := { sm.parameters_ with
            parameters := sm.parameters_.parameters.set c b1 } } ∧
        b1.element_width = bm.element_width ∧ b1.data.length = bm.data.length ∧
        b1.indicator.length = bm.indicator.length ∧ cell_holds w b1 m vals[m] ∧
        ∀ j v, j ≠ m → cell_holds w bm j v → cell_holds w b1 j v := by
      cases hv : vals[m] with
      | none =>
        rw [hv] at hcell
        obtain ⟨b1, hb1, h1, h2, h3, h4, h5⟩ := write_null_holds w bm m (by omega)
        refine ⟨b1, ?_, h1, h2, h3, h4, h5⟩
        have hind : old.indicator[m]? = some SQL_NULL_DATA := hcell
        simp [field_parameter_set.recover_row, read, hcm, hind, hb1]
      | some g =>
        rw [hv] at hcell
        obtain ⟨hdata, hind, hfit⟩ := hcell
        obtain ⟨b1, hb1, h1, h2, h3, h4, h5⟩ :=
          write_holds w bm m g (by omega) (by omega) (by omega)
        refine ⟨b1, ?_, h1, h2, h3, h4, h5⟩
        have hfit1 : w g ≤ bm.element_width := by omega
        simp [field_parameter_set.recover_row, read, hcm, hind, hdata, width_ne_null, hfit1,
          hb1]
    obtain ⟨b1, hb1, h1, h2, h3, h4, h5⟩ := hcopy
    refine ⟨_, b1, by rw [for_loop_succ, hsm]; exact hb1,
      column_updated_trans s1 sm _ c bm b1 hupd (column_updated_set sm c b1 hclt),
      by omega, by omega, by omega, fun j v hj hjv => ?_⟩
    by_cases hjm : j = m
    · subst hjm
      rw [List.getElem?_eq_getElem hmv] at hjv
      cases hjv
      exact h4
    · exact h5 j v hjm (hrows j v (by omega) hjv)

/-- The call `add_parameter(c, v)` in a batch under way: the buffer of column `c` carries
the values it carried in the rows below the current row, and `v` in the current row;
everything else of the object is as it was.  The element width is the old one where the
value fits and the width of the value where it does not. -/
theorem add_parameter_spec (w : field → Nat) (s : field_parameter_set) (c : Nat)
    (v : nullable_field) (b : field_buffer) (vals : List nullable_field)
    (hb : s.parameters_.parameters[c]? = some b)
    (hbd : b.data.length = s.parameters_.buffered_sets)
    (hbi : b.indicator.length = s.parameters_.buffered_sets)
    (hr : s.current_parameter_set_ < s.parameters_.buffered_sets)
    (hvals : vals.length = s.current_parameter_set_)
    (hold : ∀ j u, vals[j]? = some u → cell_holds w b j u) :
    ∃ r b1, s.add_parameter w c v = some r ∧ column_updated s r c b1 ∧
      b1.data.length = s.parameters_.buffered_sets ∧
      b1.indicator.length = s.parameters_.buffered_sets ∧
      b1.element_width = max b.element_width (v.elim 0 w) ∧
      (∀ j u, vals[j]? = some u → cell_holds w b1 j u) ∧
      cell_holds w b1 s.current_parameter_set_ v := by
  have hclt : c < s.parameters_.parameters.length := lt_length_of_getElem? _ _ _ hb
  have hbelow : ∀ j u, vals[j]? = some u → j ≠ s.current_parameter_set_ := by
    intro j u hj
    have := lt_length_of_getElem? _ _ _ hj
    omega
  cases v with
  | none =>
    obtain ⟨b1, hb1, h1, h2, h3, h4, h5⟩ :=
      write_null_holds w b s.current_parameter_set_ (by omega)
    refine ⟨_, b1, ?_, column_updated_set s c b1 hclt, by omega, by omega,
      by simp only [Option.elim]; omega,
      fun j u hj => h5 j u (hbelow j u hj) (hold j u hj), h4⟩
    simp [field_parameter_set.add_parameter, read, hb, hb1]
  | some f =>
    by_cases hfit : w f ≤ b.element_width
    · obtain ⟨b1, hb1, h1, h2, h3, h4, h5⟩ :=
        write_holds w b s.current_parameter_set_ f (by omega) (by omega) hfit
      refine ⟨_, b1, ?_, column_updated_set s c b1 hclt, by omega, by omega,
        by simp only [Option.elim]; omega,
        fun j u hj => h5 j u (hbelow j u hj) (hold j u hj), h4⟩
      simp [field_parameter_set.add_parameter, read, hb, hfit, hb1]
    · obtain ⟨sm, bm, hsm, hupd, hwidth, hmd, hmi, hrows⟩ :=
        recover_spec w b vals
          { s with parameters_ := { s.parameters_ with
              parameters := s.parameters_.parameters.set c
                { element_width := w f
                  data := List.replicate s.parameters_.buffered_sets none
                  indicator := List.replicate s.parameters_.buffered_sets 0 } } }
          c
          { element_width := w f
            data := List.replicate s.parameters_.buffered_sets none
            indicator := List.replicate s.parameters_.buffered_sets 0 }
          hold (by omega) (by simp [hclt]) (by simp; omega) (by simp; omega)
          (by simp; omega) vals.length (Nat.le_refl _)
      dsimp only at hwidth hmd hmi
      simp only [List.length_replicate] at hmd hmi
      have hcur : sm.current_parameter_set_ = s.current_parameter_set_ := hupd.2.1
      have hcm : sm.parameters_.parameters[c]? = some bm := hupd.2.2.2.2.2.2
      obtain ⟨b1, hb1, h1, h2, h3, h4, h5⟩ :=
        write_holds w bm s.current_parameter_set_ f (by omega) (by omega) (by omega)
      refine ⟨{ sm with parameters_ := { sm.parameters_ with
          parameters := sm.parameters_.parameters.set c b1 } }, b1, ?_, ?_, by omega, by omega,
        by simp only [Option.elim]; omega, fun j u hj => h5 j u (hbelow j u hj)
          (hrows j u (lt_length_of_getElem? _ _ _ hj) hj), h4⟩
      · rw [hvals] at hsm
        simp [field_parameter_set.add_parameter, read, hb, hfit,
          field_parameter_set.rebind_parameter_to_hold_value,
          field_bound_parameter_set.rebind, hclt,
          field_parameter_set.recover_unwritten_parameters_below, hsm, hcm, hcur, hb1]
      · exact column_updated_trans s _ _ c _ b1
          (column_updated_trans s _ sm c _ bm (column_updated_set s c _ hclt) hupd)
          (column_updated_set sm c b1 (lt_length_of_getElem? _ _ _ hcm))


/-- The loop of `add_parameter_set` over the first `p` columns of a row, in a batch under
way: these columns carry the rows of the batch and the new row, the other columns and
everything else of the object are as they were. -/
theorem add_columns_spec (w : field → Nat) (s : field_parameter_set)
    (pending : List (List nullable_field)) (values : List nullable_field)
    (hbatch : batch_holds w s pending)
    (hvalues : values.length = s.parameters_.parameters.length) (p : Nat)
    (hp : p ≤ values.length) :
    ∃ r, for_loop (fun p s => (read values p).bind fun value =>
          field_parameter_set.add_parameter w s p value) p s = some r ∧
      r.parameter_sets_to_buffer_ = s.parameter_sets_to_buffer_ ∧
      r.current_parameter_set_ = s.current_parameter_set_ ∧
      r.parameters_.buffered_sets = s.parameters_.buffered_sets ∧
      r.parameters_.executed = s.parameters_.executed ∧
      r.parameters_.parameters.length = s.parameters_.parameters.length ∧
      (∀ i, p ≤ i → r.parameters_.parameters[i]? = s.parameters_.parameters[i]?) ∧
      ∀ i, i < p → ∃ b1, r.parameters_.parameters[i]? = some b1 ∧
        b1.data.length = s.parameters_.buffered_sets ∧
        b1.indicator.length = s.parameters_.buffered_sets ∧
        (∀ (j : Nat) (row : List nullable_field), pending[j]? = some row →
          ∀ u, row[i]? = some u → cell_holds w b1 j u) ∧
        (∀ u, values[i]? = some u → cell_holds w b1 s.current_parameter_set_ u) ∧
        ∀ b0 u, s.parameters_.parameters[i]? = some b0 → values[i]? = some u →
          b1.element_width = max b0.element_width (u.elim 0 w) := by
  obtain ⟨hcur, hroom, hsizes, hrowlen, hhold⟩ := hbatch
  induction p with
  | zero =>
    exact ⟨s, rfl, rfl, rfl, rfl, rfl, rfl, fun _ _ => rfl,
      fun i hi => absurd hi (Nat.not_lt_zero i)⟩
  | succ p ih =>
    obtain ⟨sp, hsp, h1, h2, h3, h4, h5, hrest, hdone⟩ := ih (Nat.le_of_succ_le hp)
    have hpv : p < values.length := hp
    have hpn : p < s.parameters_.parameters.length := by omega
    have hb : sp.parameters_.parameters[p]? = some s.parameters_.parameters[p] := by
      rw [hrest p (Nat.le_refl p), List.getElem?_eq_getElem hpn]
    obtain ⟨hbd, hbi⟩ := hsizes _ (List.getElem_mem hpn)
    obtain ⟨r, b1, hr, hupd, hb1d, hb1i, hb1w, hrows, hnew⟩ :=
      add_parameter_spec w sp p values[p] s.parameters_.parameters[p]
        (pending.map fun row => row.getD p none) hb (by omega) (by omega) (by omega)
        (by simp; omega)
        (by
          intro j u hj
          rw [List.getElem?_map] at hj
          have hjl : j < pending.length := by
            by_contra hge
            rw [List.getElem?_eq_none (Nat.le_of_not_lt hge)] at hj
            cases hj
          rw [List.getElem?_eq_getElem hjl] at hj
          simp only [Option.map_some', Option.some.injEq] at hj
          have hlen := hrowlen pending[j] (List.getElem_mem hjl)
          have hrow : pending[j][p]? = some u := by
            rw [← hj, List.getD_eq_getElem?_getD,
              List.getElem?_eq_getElem (by omega : p < pending[j].length)]
            rfl
          obtain ⟨b2, hb2, hcell⟩ :=
            hhold j pending[j] (List.getElem?_eq_getElem hjl) p u hrow
          rw [List.getElem?_eq_getElem hpn] at hb2
          cases hb2
          exact hcell)
    obtain ⟨u1, u2, u3, u4, u5, u6, u7⟩ := hupd
    refine ⟨r, ?_, u1.trans h1, u2.trans h2, u3.trans h3, u4.trans h4, u5.trans h5,
      fun i hi => ?_, fun i hi => ?_⟩
    · rw [for_loop_succ, hsp]
      simp only [Option.some_bind, read, List.getElem?_eq_getElem hpv]
      exact hr
    · rw [u6 i (by omega), hrest i (by omega)]
    · by_cases hip : i = p
      · subst hip
        refine ⟨b1, u7, by omega, by omega, fun j row hj u hu => ?_, fun u hu => ?_,
          fun b0 u hb0 hu => ?_⟩
        · apply hrows j u
          rw [List.getElem?_map, hj]
          simp only [Option.map_some', Option.some.injEq]
          rw [List.getD_eq_getElem?_getD, hu]
          rfl
        · rw [List.getElem?_eq_getElem hpv] at hu
          cases hu
          rw [← h2]
          exact hnew
        · rw [List.getElem?_eq_getElem hpv] at hu
          rw [List.getElem?_eq_getElem hpn] at hb0
          cases hu
          cases hb0
          exact hb1w
      · obtain ⟨b2, hb2, d1, d2, d3, d4, d5⟩ := hdone i (by omega)
        exact ⟨b2, by rw [u6 i hip]; exact hb2, d1, d2, d3, d4, d5⟩


/-- The call `add_parameter_set` on a row of the right length, in a batch under way: it
returns; the buffers carry the rows of the batch and the new row; every column has the
element width it had, or the width of its new value where that did not fit; either the
batch goes on with the row added to it, or the row fills the batch, which is then executed
with the capacity as row count and with these buffers, and a batch without rows begins. -/
theorem add_parameter_set_spec (w : field → Nat) (s : field_parameter_set)
    (pending : List (List nullable_field)) (values : List nullable_field)
    (hbatch : batch_holds w s pending)
    (hvalues : values.length = s.parameters_.parameters.length) :
    ∃ r, s.add_parameter_set w values = field_outcome.returned r ∧
      r.parameters_.buffered_sets = s.parameters_.buffered_sets ∧
      r.parameters_.parameters.length = s.parameters_.parameters.length ∧
      buffers_hold w r.parameters_.parameters (pending ++ [values]) ∧
      (∀ (i : Nat) (b0 : field_buffer) (u : nullable_field),
        s.parameters_.parameters[i]? = some b0 → values[i]? = some u →
        ∃ b1, r.parameters_.parameters[i]? = some b1 ∧
          b1.element_width = max b0.element_width (u.elim 0 w)) ∧
      ((pending.length + 1 < s.parameters_.buffered_sets ∧
          r.parameters_.executed = s.parameters_.executed ∧
          batch_holds w r (pending ++ [values])) ∨
       (pending.length + 1 = s.parameters_.buffered_sets ∧
          r.parameters_.executed =
            s.parameters_.executed ++ [(s.parameters_.buffered_sets, r.parameters_.parameters)] ∧
          batch_holds w r [])) := by
  obtain ⟨sn, hsn, h1, h2, h3, h4, h5, _, hdone⟩ :=
    add_columns_spec w s pending values hbatch hvalues values.length (Nat.le_refl _)
  obtain ⟨hcur, hroom, hsizes, hrowlen, hhold⟩ := hbatch
  have hsizes1 : ∀ b ∈ sn.parameters_.parameters,
      b.data.length = s.parameters_.buffered_sets ∧
      b.indicator.length = s.parameters_.buffered_sets := by
    intro b hb
    obtain ⟨i, hi, rfl⟩ := List.getElem_of_mem hb
    obtain ⟨b1, hb1, d1, d2, _⟩ := hdone i (by omega)
    rw [List.getElem?_eq_getElem hi] at hb1
    cases hb1
    exact ⟨d1, d2⟩
  have hholds : buffers_hold w sn.parameters_.parameters (pending ++ [values]) := by
    intro j row hj c v hv
    have hc : c < row.length := lt_length_of_getElem? _ _ _ hv
    by_cases hjl : j < pending.length
    · rw [List.getElem?_append_left hjl] at hj
      have hlen := hrowlen row (List.getElem?_mem hj)
      obtain ⟨b1, hb1, _, _, d3, _⟩ := hdone c (by omega)
      exact ⟨b1, hb1, d3 j row hj v hv⟩
    · have hjlen := lt_length_of_getElem? _ _ _ hj
      simp only [List.length_append, List.length_singleton] at hjlen
      have hje : j = pending.length := by omega
      subst hje
      rw [List.getElem?_append_right (Nat.le_refl _)] at hj
      simp only [Nat.sub_self, List.getElem?_cons_zero, Option.some.injEq] at hj
      subst hj
      obtain ⟨b1, hb1, _, _, _, d4, _⟩ := hdone c hc
      refine ⟨b1, hb1, ?_⟩
      rw [← hcur]
      exact d4 v hv
  have hwidths : ∀ (i : Nat) (b0 : field_buffer) (u : nullable_field),
      s.parameters_.parameters[i]? = some b0 → values[i]? = some u →
      ∃ b1, sn.parameters_.parameters[i]? = some b1 ∧
        b1.element_width = max b0.element_width (u.elim 0 w) := by
    intro i b0 u hb0 hu
    obtain ⟨b1, hb1, _, _, _, _, d5⟩ := hdone i (lt_length_of_getElem? _ _ _ hu)
    exact ⟨b1, hb1, d5 b0 u hb0 hu⟩
  have hcheck : s.check_parameter_set values = true := by
    simp [field_parameter_set.check_parameter_set, hvalues]
  by_cases hfull : pending.length + 1 = s.parameters_.buffered_sets
  · refine ⟨{ sn with
        parameters_ := sn.parameters_.execute_batch (sn.current_parameter_set_ + 1)
        current_parameter_set_ := 0 }, ?_, h3, h5, hholds, hwidths,
      Or.inr ⟨hfull, ?_, ?_⟩⟩
    · have hpos : s.parameters_.buffered_sets ≠ 0 := by omega
      simp [field_parameter_set.add_parameter_set, hcheck, hsn, field_parameter_set.flush, h2,
        h3, hcur, hfull, hpos]
    · simp [field_bound_parameter_set.execute_batch, h4, h2, hcur, hfull]
    · refine ⟨rfl, ?_, ?_, fun row hrow => by simp at hrow, fun j row hj => by simp at hj⟩
      · simp only [field_bound_parameter_set.execute_batch, h3, List.length_nil]
        omega
      · simpa [field_bound_parameter_set.execute_batch, h3] using hsizes1
  · refine ⟨{ sn with current_parameter_set_ := sn.current_parameter_set_ + 1 }, ?_, h3, h5,
      hholds, hwidths, Or.inl ⟨by omega, h4, ?_⟩⟩
    · simp [field_parameter_set.add_parameter_set, hcheck, hsn, h2, h3, hcur, hfull]
    · refine ⟨by simp [h2, hcur], by simp [h3]; omega, by simpa [h3] using hsizes1,
        fun row hrow => ?_, hholds⟩
      rcases List.mem_append.mp hrow with hin | hlast
      · simpa [h5] using hrowlen row hin
      · rw [List.mem_singleton.mp hlast]
        simpa [h5] using hvalues


/-- At least one row, and no more rows than the capacity, make one slice. -/
theorem expected_sizes_small (t capacity : Nat) (ht : 0 < t) (hle : t ≤ capacity) :
    expected_sizes t capacity = [t] := by
  rw [expected_sizes_step t capacity (by omega) ht, Nat.min_eq_right hle,
    (by omega : t - capacity = 0), expected_sizes_zero]

/-- The rows added by a caller, from a batch under way to the flush after the last row: all
calls return, and the executions since then have the expected sizes and carry, execution
`g / capacity` in its row `g % capacity`, the `g`-th row of the rows of the batch under way
followed by the rows added. -/
theorem add_parameter_sets_spec (w : field → Nat) (rows : List (List nullable_field)) :
    ∀ (s : field_parameter_set) (pending : List (List nullable_field)),
      batch_holds w s pending →
      (∀ row ∈ rows, row.length = s.parameters_.parameters.length) →
      ∃ r executions, add_parameter_sets w s rows = field_outcome.returned r ∧
        r.flush.parameters_.executed = s.parameters_.executed ++ executions ∧
        executions.map Prod.fst =
          expected_sizes (pending.length + rows.length) s.parameters_.buffered_sets ∧
        r.flush.current_parameter_set_ = 0 ∧
        r.flush.flush = r.flush ∧
        ∀ (g : Nat) (row : List nullable_field), (pending ++ rows)[g]? = some row →
          ∃ e, executions[g / s.parameters_.buffered_sets]? = some e ∧
            g % s.parameters_.buffered_sets < e.1 ∧
            ∀ (c : Nat) (v : nullable_field), row[c]? = some v →
              ∃ b, e.2[c]? = some b ∧ cell_holds w b (g % s.parameters_.buffered_sets) v := by
  induction rows with
  | nil =>
    intro s pending hbatch _
    obtain ⟨hcur, hroom, _, _, hhold⟩ := hbatch
    by_cases hzero : pending.length = 0
    · have hnil : pending = [] := List.length_eq_zero.mp hzero
      subst hnil
      have hflush : s.flush = s := by
        simp [field_parameter_set.flush, hcur]
      refine ⟨s, [], rfl, by rw [hflush]; simp, by simp [expected_sizes_zero],
        by rw [hflush]; exact hcur, by rw [hflush, hflush], fun g row hg => ?_⟩
      simp at hg
    · have hpos : 0 < s.current_parameter_set_ := by omega
      have hflush : s.flush = { s with
          parameters_ := s.parameters_.execute_batch s.current_parameter_set_
          current_parameter_set_ := 0 } := by
        simp [field_parameter_set.flush, hpos]
      refine ⟨s, [(pending.length, s.parameters_.parameters)], rfl, ?_, ?_, ?_, ?_,
        fun g row hg => ?_⟩
      · rw [hflush]
        simp [field_bound_parameter_set.execute_batch, hcur]
      · rw [List.length_nil, Nat.add_zero,
          expected_sizes_small _ _ (by omega) (Nat.le_of_lt hroom)]
        rfl
      · rw [hflush]
      · rw [hflush]
        simp [field_parameter_set.flush]
      · rw [List.append_nil] at hg
        have hgl := lt_length_of_getElem? _ _ _ hg
        rw [Nat.div_eq_of_lt (by omega), Nat.mod_eq_of_lt (by omega)]
        exact ⟨_, List.getElem?_cons_zero, hgl, fun c v hv => hhold g row hg c v hv⟩
  | cons values rest ih =>
    intro s pending hbatch hrows
    obtain ⟨r1, hr1, hcap1, hlen1, hbuffers, _, hcase⟩ :=
      add_parameter_set_spec w s pending values hbatch
        (hrows values (List.mem_cons_self _ _))
    have hrest : ∀ row ∈ rest, row.length = r1.parameters_.parameters.length := by
      intro row hrow
      rw [hlen1]
      exact hrows row (List.mem_cons_of_mem _ hrow)
    rcases hcase with ⟨_, hexec, hbatch1⟩ | ⟨hfull, hexec, hbatch1⟩
    · obtain ⟨r, executions, hr, hE, hsizes, hcur, hff, hcells⟩ :=
        ih r1 (pending ++ [values]) hbatch1 hrest
      refine ⟨r, executions, ?_, by rw [hE, hexec], ?_, hcur, hff, fun g row hg => ?_⟩
      · simp only [add_parameter_sets, hr1]
        exact hr
      · have hcount : (pending ++ [values]).length + rest.length =
            pending.length + (values :: rest).length := by
          rw [List.length_append, List.length_cons, List.length_cons, List.length_nil]
          omega
        rw [hsizes, hcap1, hcount]
      · rw [← hcap1]
        apply hcells g row
        rw [List.append_assoc]
        exact hg
    · obtain ⟨r, executions, hr, hE, hsizes, hcur, hff, hcells⟩ := ih r1 [] hbatch1 hrest
      have hcap : 0 < s.parameters_.buffered_sets := by omega
      refine ⟨r, (s.parameters_.buffered_sets, r1.parameters_.parameters) :: executions, ?_, ?_,
        ?_, hcur, hff,
        fun g row hg => ?_⟩
      · simp only [add_parameter_sets, hr1]
        exact hr
      · rw [hE, hexec, List.append_assoc]
        rfl
      · have hcount : pending.length + (rest.length + 1) - s.parameters_.buffered_sets =
            rest.length := by omega
        rw [List.map_cons, hsizes, hcap1, List.length_cons, List.length_nil, Nat.zero_add,
          expected_sizes_step (pending.length + (rest.length + 1)) _ hcap (by omega),
          Nat.min_eq_left (by omega), hcount]
      · by_cases hgc : g < s.parameters_.buffered_sets
        · have hg1 : (pending ++ [values])[g]? = some row := by
            have hin : g < (pending ++ [values]).length := by
              rw [List.length_append, List.length_cons, List.length_nil]
              omega
            have hsplit : pending ++ values :: rest = (pending ++ [values]) ++ rest := by
              simp
            rw [hsplit, List.getElem?_append_left hin] at hg
            exact hg
          rw [Nat.div_eq_of_lt hgc, Nat.mod_eq_of_lt hgc]
          exact ⟨_, List.getElem?_cons_zero, hgc, fun c v hv => hbuffers g row hg1 c v hv⟩
        · have hge : s.parameters_.buffered_sets ≤ g := Nat.le_of_not_lt hgc
          have hg1 : ([] ++ rest)[g - s.parameters_.buffered_sets]? = some row := by
            have hsplit : pending ++ values :: rest = (pending ++ [values]) ++ rest := by
              simp
            rw [hsplit, List.getElem?_append_right (by simp; omega)] at hg
            simpa [hfull] using hg
          obtain ⟨e, he, hlt, hcell⟩ := hcells _ row hg1
          rw [hcap1] at he hlt hcell
          rw [Nat.div_eq_sub_div hcap hge, Nat.mod_eq_sub_mod hge, List.getElem?_cons_succ]
          exact ⟨e, he, hlt, hcell⟩


/-- More rows than the capacity, and fewer than twice the capacity, make two slices. -/
theorem expected_sizes_two (capacity k : Nat) (hk : 0 < k) (hkc : k < capacity) :
    expected_sizes (capacity + k) capacity = [capacity, k] := by
  rw [expected_sizes_step (capacity + k) capacity (by omega) (by omega),
    Nat.min_eq_left (by omega), (by omega : capacity + k - capacity = k),
    expected_sizes_small k capacity hk (Nat.le_of_lt hkc)]

/-- A state whose counter is zero and whose buffers have the capacity as their number of
rows is at the begin of a batch. -/
theorem batch_holds_nil (w : field → Nat) (s : field_parameter_set)
    (hcap : 0 < s.parameters_.buffered_sets)
    (hcur : s.current_parameter_set_ = 0)
    (hbuf : ∀ b ∈ s.parameters_.parameters,
      b.data.length = s.parameters_.buffered_sets ∧
      b.indicator.length = s.parameters_.buffered_sets) :
    batch_holds w s [] :=
  ⟨hcur, hcap, hbuf, fun row hrow => by simp at hrow, fun j row hj => by simp at hj⟩

/-- The rows added by a caller one after the other are the rows added in two parts. -/
theorem add_parameter_sets_append (w : field → Nat) (xs ys : List (List nullable_field)) :
    ∀ (s m : field_parameter_set), add_parameter_sets w s xs = field_outcome.returned m →
      add_parameter_sets w s (xs ++ ys) = add_parameter_sets w m ys := by
  induction xs with
  | nil =>
    intro s m hm
    simp only [add_parameter_sets, field_outcome.returned.injEq] at hm
    rw [List.nil_append, hm]
  | cons x xs ih =>
    intro s m hm
    simp only [List.cons_append, add_parameter_sets] at hm ⊢
    cases hx : s.add_parameter_set w x with
    | returned s1 =>
      rw [hx] at hm
      simp only at hm ⊢
      exact ih s1 m hm
    | contract_violation s1 =>
      rw [hx] at hm
      cases hm
    | undefined =>
      rw [hx] at hm
      cases hm

/-- The rows added by a caller while the batch does not become full: all calls return,
nothing is executed, and the batch goes on with the rows added to it. -/
theorem add_parameter_sets_batch (w : field → Nat) (rows : List (List nullable_field)) :
    ∀ (s : field_parameter_set) (pending : List (List nullable_field)),
      batch_holds w s pending →
      (∀ row ∈ rows, row.length = s.parameters_.parameters.length) →
      pending.length + rows.length < s.parameters_.buffered_sets →
      ∃ r, add_parameter_sets w s rows = field_outcome.returned r ∧
        r.parameters_.buffered_sets = s.parameters_.buffered_sets ∧
        r.parameters_.parameters.length = s.parameters_.parameters.length ∧
        r.parameters_.executed = s.parameters_.executed ∧
        batch_holds w r (pending ++ rows) := by
  induction rows with
  | nil =>
    intro s pending hbatch _ _
    exact ⟨s, rfl, rfl, rfl, rfl, by rw [List.append_nil]; exact hbatch⟩
  | cons values rest ih =>
    intro s pending hbatch hrows hroom
    rw [List.length_cons] at hroom
    obtain ⟨r1, hr1, hcap1, hlen1, _, _, hcase⟩ :=
      add_parameter_set_spec w s pending values hbatch
        (hrows values (List.mem_cons_self _ _))
    rcases hcase with ⟨_, hexec, hbatch1⟩ | ⟨hfull, _, _⟩
    · obtain ⟨r, hr, hcap, hlen, hex, hb⟩ := ih r1 (pending ++ [values]) hbatch1
        (fun row hrow => by
          rw [hlen1]
          exact hrows row (List.mem_cons_of_mem _ hrow))
        (by
          rw [List.length_append, List.length_cons, List.length_nil, hcap1]
          omega)
      refine ⟨r, ?_, hcap.trans hcap1, hlen.trans hlen1, hex.trans hexec, ?_⟩
      · simp only [add_parameter_sets, hr1]
        exact hr
      · rw [List.append_assoc] at hb
        exact hb
    · omega

/-! ## The claims of the row path -/

/-- C14: row path rebind-on-grow preserves earlier rows.  A field parameter set at the
begin of a batch receives the rows `before`, then at row `r = before.length` the row
`values`, then the rows `after`, all with one value per parameter and no more than the
capacity together; `m` is the object after the rows `before`, and the value `v` of `values`
for column `i` does not fit the element width of the buffer `old` that column `i` has in
`m`.  Then the counter of `m` is `r`; the call of `add_parameter_set` with `values` returns
and leaves column `i` with a buffer of the width of `v`, wider than `old`, the buffers
carrying all rows `0 .. r` in all columns, and the counter at `r + 1` (at 0 where the row
fills the batch); and the batch finally executed is one execution, with all rows as row
count, whose buffers carry every row added in every column, column `i` in a buffer wider
than `old`. -/
theorem rebind_on_grow_preserves_rows (w : field → Nat) (s m : field_parameter_set)
    (before after : List (List nullable_field)) (values : List nullable_field)
    (i : Nat) (v : field) (old : field_buffer)
    (hcur : s.current_parameter_set_ = 0)
    (hbuf : ∀ b ∈ s.parameters_.parameters,
      b.data.length = s.parameters_.buffered_sets ∧
      b.indicator.length = s.parameters_.buffered_sets)
    (hvalid : ∀ row ∈ before ++ values :: after,
      row.length = s.parameters_.parameters.length)
    (hone : before.length + 1 + after.length ≤ s.parameters_.buffered_sets)
    (hm : add_parameter_sets w s before = field_outcome.returned m)
    (hold : m.parameters_.parameters[i]? = some old)
    (hvalue : values[i]? = some (some v))
    (hgrow : old.element_width < w v) :
    m.current_parameter_set_ = before.length ∧
    (∃ n grown, m.add_parameter_set w values = field_outcome.returned n ∧
      n.parameters_.parameters[i]? = some grown ∧
      grown.element_width = w v ∧
      buffers_hold w n.parameters_.parameters (before ++ [values]) ∧
      n.current_parameter_set_ = (before.length + 1) % s.parameters_.buffered_sets) ∧
    ∃ r buffers b, add_parameter_sets w s (before ++ values :: after) =
        field_outcome.returned r ∧
      r.flush.parameters_.executed =
        s.parameters_.executed ++ [(before.length + 1 + after.length, buffers)] ∧
      r.flush.current_parameter_set_ = 0 ∧
      buffers_hold w buffers (before ++ values :: after) ∧
      buffers[i]? = some b ∧ old.element_width < b.element_width := by
  have hcap : 0 < s.parameters_.buffered_sets := by omega
  have hstart := batch_holds_nil w s hcap hcur hbuf
  -- the object after the rows before row `r`
  obtain ⟨m1, hm1, hmcap, hmlen, _, hmbatch⟩ :=
    add_parameter_sets_batch w before s [] hstart
      (fun row hrow => hvalid row (List.mem_append_left _ hrow))
      (by rw [List.length_nil]; omega)
  rw [hm, field_outcome.returned.injEq] at hm1
  subst hm1
  rw [List.nil_append] at hmbatch
  -- the call at row `r`
  obtain ⟨n, hn, _, _, hnhold, hnwidth, hncase⟩ :=
    add_parameter_set_spec w m before values hmbatch
      (by rw [hmlen]; exact hvalid values (List.mem_append_right _ (List.mem_cons_self _ _)))
  obtain ⟨grown, hgrown, hwidth⟩ := hnwidth i old (some v) hold hvalue
  have hgw : grown.element_width = w v := by
    rw [hwidth]
    simp only [Option.elim]
    omega
  have hcounter : n.current_parameter_set_ =
      (before.length + 1) % s.parameters_.buffered_sets := by
    rcases hncase with ⟨hlt, _, hb⟩ | ⟨hfull, _, hb⟩
    · rw [hb.1, List.length_append, List.length_cons, List.length_nil,
        Nat.mod_eq_of_lt (by omega)]
    · rw [hb.1, hfull, hmcap, Nat.mod_self]
      rfl
  -- the whole batch
  obtain ⟨r, executions, hr, hexec, hsizes, hzero, _, hcells⟩ :=
    add_parameter_sets_spec w (before ++ values :: after) s [] hstart hvalid
  have hlen : (before ++ values :: after).length = before.length + 1 + after.length := by
    rw [List.length_append, List.length_cons]
    omega
  rw [List.length_nil, Nat.zero_add, hlen,
    expected_sizes_small _ _ (by omega) hone] at hsizes
  match executions, hsizes, hexec, hcells with
  | [(count, buffers)], hsizes, hexec, hcells =>
    simp only [List.map_cons, List.map_nil, List.cons.injEq, and_true] at hsizes
    subst hsizes
    have hall : buffers_hold w buffers (before ++ values :: after) := by
      intro g row hg c x hx
      have hgl : g < s.parameters_.buffered_sets := by
        have := lt_length_of_getElem? _ _ _ hg
        omega
      obtain ⟨e, he, _, hcell⟩ := hcells g row (by rw [List.nil_append]; exact hg)
      rw [Nat.div_eq_of_lt hgl, List.getElem?_cons_zero, Option.some.injEq] at he
      subst he
      rw [Nat.mod_eq_of_lt hgl] at hcell
      exact hcell c x hx
    obtain ⟨b, hb, hcell⟩ := hall before.length values
      (by rw [List.getElem?_append_right (Nat.le_refl _), Nat.sub_self,
        List.getElem?_cons_zero]) i (some v) hvalue
    exact ⟨hmbatch.1, ⟨n, grown, hn, hgrown, hgw, hnhold, hcounter⟩,
      r, buffers, b, hr, hexec, hzero, hall, hb, Nat.lt_of_lt_of_le hgrow hcell.2.2⟩

theorem rebind_on_grow_preserves_rows_witness :
    example_after_first_row.current_parameter_set_ = 1 ∧
    (∃ n grown,
      example_after_first_row.add_parameter_set example_width
          [some (field.integer 2), some (field.text "0123456789")] =
        field_outcome.returned n ∧
      n.parameters_.parameters[1]? = some grown ∧
      grown.element_width = 10 ∧
      buffers_hold example_width n.parameters_.parameters
        ([[some (field.integer 1), some (field.text "ab")]] ++
          [[some (field.integer 2), some (field.text "0123456789")]]) ∧
      n.current_parameter_set_ = 2) ∧
    ∃ r buffers b,
      add_parameter_sets example_width example_field_parameter_set
          ([[some (field.integer 1), some (field.text "ab")]] ++
            [some (field.integer 2), some (field.text "0123456789")] ::
              [[none, some (field.text "c")]]) =
        field_outcome.returned r ∧
      r.flush.parameters_.executed = [] ++ [(3, buffers)] ∧
      r.flush.current_parameter_set_ = 0 ∧
      buffers_hold example_width buffers
        ([[some (field.integer 1), some (field.text "ab")]] ++
          [some (field.integer 2), some (field.text "0123456789")] ::
            [[none, some (field.text "c")]]) ∧
      buffers[1]? = some b ∧ 8 < b.element_width :=
  rebind_on_grow_preserves_rows example_width example_field_parameter_set
    example_after_first_row [[some (field.integer 1), some (field.text "ab")]]
    [[none, some (field.text "c")]]
    [some (field.integer 2), some (field.text "0123456789")] 1 (field.text "0123456789")
    { element_width := 8
      data := [some (field.text "ab"), none, none]
      indicator := [2, 0, 0] }
    rfl (by decide) (by decide) (by decide) (by decide) (by decide) (by decide) (by decide)

/-- C15: row path batching.  For every field parameter set at the begin of a batch, of
capacity `buffered_sets`, and every `k` with `0 < k < buffered_sets` (so the capacity is at
least 1): `buffered_sets + k` calls of `add_parameter_set` with rows of one value per
parameter all return, and with the flush that follows they make exactly two executions,
the first with row count `buffered_sets` and the second with row count `k`; the counter of
buffered rows is then 0, and a further flush changes nothing, so it executes nothing. -/
theorem row_path_batching (w : field → Nat) (s : field_parameter_set)
    (rows : List (List nullable_field)) (k : Nat)
    (hk : 0 < k) (hkc : k < s.parameters_.buffered_sets)
    (hcur : s.current_parameter_set_ = 0)
    (hbuf : ∀ b ∈ s.parameters_.parameters,
      b.data.length = s.parameters_.buffered_sets ∧
      b.indicator.length = s.parameters_.buffered_sets)
    (hcount : rows.length = s.parameters_.buffered_sets + k)
    (hvalid : ∀ row ∈ rows, row.length = s.parameters_.parameters.length) :
    ∃ r first second, add_parameter_sets w s rows = field_outcome.returned r ∧
      r.flush.parameters_.executed =
        s.parameters_.executed ++ [(s.parameters_.buffered_sets, first), (k, second)] ∧
      r.flush.current_parameter_set_ = 0 ∧
      r.flush.flush = r.flush := by
  obtain ⟨r, executions, hr, hexec, hsizes, hzero, hff, _⟩ :=
    add_parameter_sets_spec w rows s [] (batch_holds_nil w s (by omega) hcur hbuf) hvalid
  rw [List.length_nil, Nat.zero_add, hcount, expected_sizes_two _ k hk hkc] at hsizes
  match executions, hsizes with
  | [(n1, first), (n2, second)], hsizes =>
    simp only [List.map_cons, List.map_nil, List.cons.injEq, and_true] at hsizes
    obtain ⟨h1, h2⟩ := hsizes
    subst h1 h2
    exact ⟨r, first, second, hr, hexec, hzero, hff⟩

theorem row_path_batching_witness :
    ∃ r first second,
      add_parameter_sets example_width example_field_parameter_set example_rows =
        field_outcome.returned r ∧
      r.flush.parameters_.executed = [] ++ [(3, first), (1, second)] ∧
      r.flush.current_parameter_set_ = 0 ∧
      r.flush.flush = r.flush :=
  row_path_batching example_width example_field_parameter_set example_rows 1
    (by decide) (by decide) rfl (by decide) (by decide) (by decide)

end turbodbc_numpy
